import Mathlib

/-!
# mp4ff: sample-timing table (stts), subtitle sample entry (stpp), HEVC SPS

A shallow embedding of `mp4/stts.go`, `mp4/stpp.go` and `hevc/sps.go`.

Conventions.
* A byte is a `Nat` below 256, a byte slice or a Go string is a `List Nat`.
* Machine integers are `Nat` with the wrap-around written out (`% 2 ^ 32`,
  `% 2 ^ 64`).  `int` is taken to be 64 bits wide.
* A Go call ends in a returned value, a returned `error`, or a run-time panic:
  the three constructors of `Res`.
* A `for` loop over the parallel slices `SampleCount`/`SampleTimeDelta` with
  index `i` is a recursion over the two list suffixes starting at `i`; an index
  past the end of a slice is the panic Go raises there.
-/

namespace Mp4

/-! ## Results of Go calls -/

/-- Errors returned by the embedded functions. -/
inductive Err where
  /-- `fmt.Errorf("no matching sample found for time=%d", t)` -/
  | noMatchingSample (time : Nat)
  /-- `errors.New("Bad size in stpp")` -/
  | badSizeInStpp
  /-- An error handed up from a helper (slice reader, child decoder, child encoder). -/
  | helper (msg : String)
  deriving DecidableEq, Repr

/-- Run-time panics of the embedded functions. -/
inductive Fault where
  /-- The explicit `panic(...)` of a one-based lookup called with sample number 0. -/
  | zeroSampleNr
  /-- Index or slice bound out of range. -/
  | outOfRange
  /-- Integer division by zero. -/
  | divideByZero
  deriving DecidableEq, Repr

/-- Outcome of a Go call. -/
inductive Res (α : Type) where
  | ok (a : α)
  | error (e : Err)
  | panic (f : Fault)
  deriving DecidableEq, Repr

namespace Res

/-- Sequencing: a failure of the first call ends the computation. -/
def bind {α β : Type} (r : Res α) (f : α → Res β) : Res β :=
  match r with
  | ok a => f a
  | error e => error e
  | panic p => panic p

end Res

/-! ## Byte order (`encoding/binary`) -/

/-- The four big-endian bytes of the 32-bit value `v`, `binary.BigEndian.PutUint32`. -/
def putUint32 (v : Nat) : List Nat :=
  [v / 2 ^ 24 % 256, v / 2 ^ 16 % 256, v / 2 ^ 8 % 256, v % 256]

/-- The two big-endian bytes of the 16-bit value `v`, `binary.BigEndian.PutUint16`. -/
def putUint16 (v : Nat) : List Nat :=
  [v / 2 ^ 8 % 256, v % 256]

/-- Big-endian value of a byte slice, `binary.BigEndian.Uint32` on four bytes and
`binary.BigEndian.Uint16` on two. -/
def beUint (bs : List Nat) : Nat :=
  bs.foldl (fun acc x => acc * 256 + x) 0

/-- The Go slice expression `s[lo:hi]` on a slice whose backing array, from the
start of `s` up to its capacity, holds the bytes `arr`: the bounds are checked
against the capacity, `none` is the out-of-range panic. -/
def goSlice (arr : List Nat) (lo hi : Nat) : Option (List Nat) :=
  if lo ≤ hi ∧ hi ≤ arr.length then some ((arr.drop lo).take (hi - lo)) else none

/-! ## Constants and helpers of package `mp4` that the two files use -/

/-- Modelled from the spec: `boxHeaderSize` is declared outside the two files;
the box header is a 4-byte big-endian size and a 4-character type tag. -/
def boxHeaderSize : Nat := 8

/-- Modelled from the spec: `flagsMask` is declared outside the two files; the
4-byte version+flags word holds the version in its top byte (`>> 24` in
`DecodeStts`), the flags are the remaining 24 bits. -/
def flagsMask : Nat := 0x00ffffff

/-- Modelled from the spec: `EncodeHeader` is not in the two files; box framing is
a 4-byte big-endian size (header included) followed by the 4-character type tag. -/
def EncodeHeader (size : Nat) (boxType : List Nat) : List Nat :=
  putUint32 (size % 2 ^ 32) ++ boxType

/-- Modelled from the spec: `SliceWriter` (with `makebuf`, `NewSliceWriter`) is not
in the two files.  `makebuf(b)` is the zeroed payload buffer of a box, `Size()`
less the header; the writer fills it front to back.  `written` is `buf[:pos]`,
`cap` is `len(buf)`; the rest of the buffer is still zero. -/
structure SliceWriter where
  written : List Nat
  cap : Nat
  deriving DecidableEq, Repr

/-- The writer `NewSliceWriter(makebuf(b))` of a box of size `size`. -/
def NewSliceWriter (size : Nat) : SliceWriter :=
  { written := [], cap := size - boxHeaderSize }

namespace SliceWriter

/-- Append `bs` at the write position; writing past the end of the buffer panics. -/
def write (sw : SliceWriter) (bs : List Nat) : Res SliceWriter :=
  if sw.written.length + bs.length ≤ sw.cap then
    .ok { sw with written := sw.written ++ bs }
  else .panic .outOfRange

/-- Method `WriteUint32`. -/
def WriteUint32 (sw : SliceWriter) (v : Nat) : Res SliceWriter :=
  sw.write (putUint32 v)

/-- Method `WriteUint16`. -/
def WriteUint16 (sw : SliceWriter) (v : Nat) : Res SliceWriter :=
  sw.write (putUint16 v)

/-- Method `WriteZeroBytes`. -/
def WriteZeroBytes (sw : SliceWriter) (n : Nat) : Res SliceWriter :=
  sw.write (List.replicate n 0)

/-- Method `WriteString(s, true)`: the bytes of `s` and a terminating zero byte. -/
def WriteString (sw : SliceWriter) (s : List Nat) : Res SliceWriter :=
  sw.write (s ++ [0])

/-- The whole buffer `buf`. -/
def buf (sw : SliceWriter) : List Nat :=
  sw.written ++ List.replicate (sw.cap - sw.written.length) 0

end SliceWriter

/-! ## `stts.go` -/

/-- The struct `SttsBox`: `Version` is a byte, `Flags` and the list entries are
32-bit values. -/
structure SttsBox where
  Version : Nat
  Flags : Nat
  SampleCount : List Nat
  SampleTimeDelta : List Nat
  deriving DecidableEq, Repr

/-- The field ranges of the Go struct. -/
def SttsBox.WellTyped (b : SttsBox) : Prop :=
  b.Version < 2 ^ 8 ∧ b.Flags < 2 ^ 32 ∧
    (∀ c ∈ b.SampleCount, c < 2 ^ 32) ∧ (∀ d ∈ b.SampleTimeDelta, d < 2 ^ 32)

/-- The type tag `"stts"`. -/
def sttsType : List Nat := [115, 116, 116, 115]

/-- The loop of `DecodeStts`: `n` iterations are left, `i` is the loop index and
`arr` the backing array of `data`. -/
def decodeSttsLoop (arr : List Nat) : Nat → Nat → SttsBox → Res SttsBox
  | 0, _, b => .ok b
  | n + 1, i, b =>
    match goSlice arr (8 + 8 * i) (12 + 8 * i), goSlice arr (12 + 8 * i) (16 + 8 * i) with
    | some c, some d =>
      decodeSttsLoop arr n (i + 1)
        { b with SampleCount := b.SampleCount ++ [beUint c],
                 SampleTimeDelta := b.SampleTimeDelta ++ [beUint d] }
    | _, _ => .panic .outOfRange

/-- The function `DecodeStts` from line 30 on, on the bytes `data` that
`ioutil.ReadAll` has returned with a nil error (the error return of lines 27 to
29 is in `DecodeSttsReader`).  `spare` is what the backing
array of `data` holds between `len(data)` and `cap(data)`: Go checks the slice
expressions `data[lo:hi]` against the capacity. -/
def DecodeStts (data spare : List Nat) : Res SttsBox :=
  let arr := data ++ spare
  match goSlice arr 0 4, goSlice arr 4 8 with
  | some vf, some ecb =>
    let versionAndFlags := beUint vf
    let b : SttsBox :=
      { Version := versionAndFlags / 2 ^ 24 % 2 ^ 8,
        Flags := versionAndFlags &&& flagsMask,
        SampleCount := [],
        SampleTimeDelta := [] }
    let ec := beUint ecb
    decodeSttsLoop arr ec 0 b
  | _, _ => .panic .outOfRange

namespace SttsBox

/-- Method `Size`. -/
def Size (b : SttsBox) : Nat :=
  (boxHeaderSize + 8 + b.SampleCount.length * 8) % 2 ^ 64

/-- The loop of `GetTimeCode` from index `i` on: the suffixes of the two lists
from `i`, the remaining `sample` and the 32-bit accumulator `units`. -/
def timeCodeLoop : List Nat → List Nat → Nat → Nat → Res Nat
  | [], _, _, units => .ok units
  | c :: cs, deltas, sample, units =>
    if sample > 0 then
      match deltas with
      | [] => .panic .outOfRange
      | d :: ds =>
        if sample ≥ c then
          timeCodeLoop cs ds (sample - c) ((units + c * d % 2 ^ 32) % 2 ^ 32)
        else
          timeCodeLoop cs ds 0 ((units + sample * d % 2 ^ 32) % 2 ^ 32)
    else .ok units

/-- Method `GetTimeCode`; the result is a `time.Duration` in nanoseconds
(`time.Second` is 1,000,000,000).  `sample--` wraps in 32 bits. -/
def GetTimeCode (b : SttsBox) (sample timescale : Nat) : Res Nat :=
  (timeCodeLoop b.SampleCount b.SampleTimeDelta ((sample + 2 ^ 32 - 1) % 2 ^ 32) 0).bind
    fun units =>
      if timescale = 0 then .panic .divideByZero
      else .ok (1000000000 * units / timescale)

/-- The loop of `GetDecodeTime` from index `i` on.  The products are formed in
32 bits and widened afterwards, `uint64(b.SampleCount[i] * dur)`. -/
def decodeTimeLoop : List Nat → List Nat → Nat → Nat → Res (Nat × Nat)
  | _, [], _, _ => .panic .outOfRange
  | [], _ :: _, _, _ => .panic .outOfRange
  | c :: cs, dur :: ds, samplesRemaining, decTime =>
    if samplesRemaining ≥ c then
      decodeTimeLoop cs ds (samplesRemaining - c) ((decTime + c * dur % 2 ^ 32) % 2 ^ 64)
    else if samplesRemaining > 0 then
      .ok ((decTime + samplesRemaining * dur % 2 ^ 32) % 2 ^ 64, dur)
    else .ok (decTime, dur)

/-- Method `GetDecodeTime`: the pair `(decTime, dur)`. -/
def GetDecodeTime (b : SttsBox) (sampleNr : Nat) : Res (Nat × Nat) :=
  if sampleNr = 0 then .panic .zeroSampleNr
  else decodeTimeLoop b.SampleCount b.SampleTimeDelta (sampleNr - 1) 0

/-- The loop of `GetDur` from index `i` on; `dur` is the named result. -/
def durLoop : List Nat → List Nat → Nat → Nat → Res Nat
  | [], _, _, dur => .ok dur
  | _ :: _, [], _, _ => .panic .outOfRange
  | c :: cs, d :: ds, sampleNr, _ =>
    if sampleNr ≥ c then durLoop cs ds (sampleNr - c) d else .ok d

/-- Method `GetDur`. -/
def GetDur (b : SttsBox) (sampleNr : Nat) : Res Nat :=
  if sampleNr = 0 then .panic .zeroSampleNr
  else durLoop b.SampleCount b.SampleTimeDelta (sampleNr - 1) 0

/-- The loop of `Encode` over the entries. -/
def encodeLoop : List Nat → List Nat → SliceWriter → Res SliceWriter
  | [], _, sw => .ok sw
  | c :: _, [], sw => (sw.WriteUint32 c).bind fun _ => .panic .outOfRange
  | c :: cs, d :: ds, sw =>
    (sw.WriteUint32 c).bind fun sw1 => (sw1.WriteUint32 d).bind fun sw2 => encodeLoop cs ds sw2

/-- Method `Encode` on a writer that takes every byte: the bytes written. -/
def Encode (b : SttsBox) : Res (List Nat) :=
  let hdr := EncodeHeader b.Size sttsType
  let sw := NewSliceWriter b.Size
  let versionAndFlags := (b.Version * 2 ^ 24 % 2 ^ 32 + b.Flags) % 2 ^ 32
  (sw.WriteUint32 versionAndFlags).bind fun sw1 =>
    (sw1.WriteUint32 (b.SampleCount.length % 2 ^ 32)).bind fun sw2 =>
      (encodeLoop b.SampleCount b.SampleTimeDelta sw2).bind fun sw3 =>
        .ok (hdr ++ sw3.buf)

/-- The loop of `GetSampleNrAtTime` from index `i` on, with the 64-bit `accTime`
and the 32-bit `accNr`. -/
def sampleNrLoop : List Nat → List Nat → Nat → Nat → Nat → Res Nat
  | [], _, sampleStartTime, _, _ => .error (.noMatchingSample sampleStartTime)
  | _ :: _, [], _, _, _ => .panic .outOfRange
  | c :: cs, d :: ds, sampleStartTime, accTime, accNr =>
    let timeDelta := d
    if sampleStartTime < (accTime + c * timeDelta % 2 ^ 64) % 2 ^ 64 then
      let relTime := (sampleStartTime + 2 ^ 64 - accTime) % 2 ^ 64
      if timeDelta = 0 then .panic .divideByZero
      else
        let nrInInterval :=
          if relTime % timeDelta ≠ 0 then (relTime / timeDelta + 1) % 2 ^ 64
          else relTime / timeDelta
        .ok ((accNr + nrInInterval % 2 ^ 32 + 1) % 2 ^ 32)
    else
      sampleNrLoop cs ds sampleStartTime ((accTime + timeDelta * c % 2 ^ 64) % 2 ^ 64)
        ((accNr + c) % 2 ^ 32)

/-- Method `GetSampleNrAtTime`. -/
def GetSampleNrAtTime (b : SttsBox) (sampleStartTime : Nat) : Res Nat :=
  sampleNrLoop b.SampleCount b.SampleTimeDelta sampleStartTime 0 0

end SttsBox

/-! ## Reference notions for the sample-timing table -/

/-- The table with entries (count 3, duration 10), (count 2, duration 20). -/
def exampleTable : SttsBox :=
  { Version := 0, Flags := 0, SampleCount := [3, 2], SampleTimeDelta := [10, 20] }

/-- The durations of the samples 1, 2, ... that a run-length table describes:
`count` copies of `duration` for each entry, in order. -/
def sampleDurations : List Nat → List Nat → List Nat
  | c :: cs, d :: ds => List.replicate c d ++ sampleDurations cs ds
  | _, _ => []

/-- The sum of the durations of the first `k` samples. -/
def elapsed (counts deltas : List Nat) (k : Nat) : Nat :=
  ((sampleDurations counts deltas).take k).sum

/-- The sum over all entries of `count * duration`, without any wrap-around. -/
def totalDuration : List Nat → List Nat → Nat
  | c :: cs, d :: ds => c * d + totalDuration cs ds
  | _, _ => 0

namespace SttsBox

/-- Start time of the one-based sample `n`: the sum of the durations of the
samples `1 .. n-1`. -/
def startTime (b : SttsBox) (n : Nat) : Nat :=
  elapsed b.SampleCount b.SampleTimeDelta (n - 1)

/-- Number of samples of the table, the sum of the counts. -/
def nrSamples (b : SttsBox) : Nat := b.SampleCount.sum

/-- Total accumulated duration of the table. -/
def total (b : SttsBox) : Nat := totalDuration b.SampleCount b.SampleTimeDelta

end SttsBox

/-! ## Inputs used in the statements below -/

/-- A table whose first entry has count 65536 and duration 65536. -/
def wideTable : SttsBox :=
  { Version := 0, Flags := 0, SampleCount := [65536, 1], SampleTimeDelta := [65536, 1] }

/-- A table of two entries with count 2^32-1 and duration 2^32-1 each. -/
def hugeTable : SttsBox :=
  { Version := 0, Flags := 0, SampleCount := [4294967295, 4294967295],
    SampleTimeDelta := [4294967295, 4294967295] }

/-- A table without entries whose `Flags` field has bit 24 set. -/
def flagBox : SttsBox :=
  { Version := 0, Flags := 16777216, SampleCount := [], SampleTimeDelta := [] }

/-- The bytes of the entry pairs of a table: count then duration, four
big-endian bytes each. -/
def entryBytes : List Nat → List Nat → List Nat
  | c :: cs, d :: ds => putUint32 c ++ putUint32 d ++ entryBytes cs ds
  | _, _ => []

/-! ## `stpp.go` -/

/-- What a call `DecodeBox(pos, restReader)` did: `io.EOF`, another error, a
panic, or a nil error with a box (possibly nil) after reading `n` bytes. -/
inductive BoxRead (β : Type) where
  | eof
  | error (e : Err)
  | panic (f : Fault)
  | box (b : Option β) (n : Nat)
  deriving DecidableEq, Repr

/-- The rest of package `mp4` as `stpp.go` sees it, for child boxes of type `β`:
the methods `Size` and `Encode` of the `Box` interface, the type switch
`child.(type)` on `*BtrtBox`, and the function `DecodeBox`, which is not in the
two files.  A call of `DecodeBox` that returns no error has read at least one
byte of the reader and no more than it holds. -/
structure Package (β : Type) where
  Size : β → Nat
  Encode : β → Res (List Nat)
  isBtrt : β → Bool
  DecodeBox : Nat → List Nat → BoxRead β
  consumes : ∀ pos data b n, DecodeBox pos data = .box b n → 0 < n ∧ n ≤ data.length

/-- Modelled from the spec: `SliceReader` is not in the two files; it reads the
sample-entry payload front to back.  `pos` is the read position, `rest` the
unread bytes `slice[pos:]`. -/
structure SliceReader where
  pos : Nat
  rest : List Nat
  deriving DecidableEq, Repr

/-- The reader `NewSliceReader(data)`. -/
def NewSliceReader (data : List Nat) : SliceReader :=
  { pos := 0, rest := data }

namespace SliceReader

/-- Method `SkipBytes`. -/
def SkipBytes (s : SliceReader) (n : Nat) : SliceReader :=
  { pos := s.pos + n, rest := s.rest.drop n }

/-- Method `ReadUint16`: two bytes, big-endian; reading past the end panics. -/
def ReadUint16 (s : SliceReader) : Res (Nat × SliceReader) :=
  if 2 ≤ s.rest.length then
    .ok (beUint (s.rest.take 2), { pos := s.pos + 2, rest := s.rest.drop 2 })
  else .panic .outOfRange

/-- Method `ReadZeroTerminatedString`: the bytes before the next zero byte; the
zero byte is consumed too.  Without a zero byte an error is returned. -/
def ReadZeroTerminatedString (s : SliceReader) : Res (List Nat × SliceReader) :=
  if 0 ∈ s.rest then
    let str := s.rest.takeWhile (· ≠ 0)
    .ok (str, { pos := s.pos + (str.length + 1), rest := s.rest.drop (str.length + 1) })
  else .error (.helper "no terminating zero")

/-- Method `NrRemainingBytes`. -/
def NrRemainingBytes (s : SliceReader) : Nat := s.rest.length

/-- Method `GetPos`. -/
def GetPos (s : SliceReader) : Nat := s.pos

/-- Method `RemainingBytes`. -/
def RemainingBytes (s : SliceReader) : List Nat := s.rest

end SliceReader

/-- The struct `StppBox` with children of type `β`; the strings are byte lists,
`DataReferenceIndex` is a 16-bit value and `Btrt` a possibly nil pointer. -/
structure StppBox (β : Type) where
  Namespace : List Nat
  SchemaLocation : List Nat
  AuxiliaryMimeTypes : List Nat
  Btrt : Option β
  Children : List β
  DataReferenceIndex : Nat
  deriving DecidableEq, Repr

/-- The type tag `"stpp"`. -/
def stppType : List Nat := [115, 116, 112, 112]

/-- The function `NewStppBox`. -/
def NewStppBox {β : Type} (nameSpace schemaLocation auxiliaryMimeTypes : List Nat) :
    StppBox β :=
  { Namespace := nameSpace,
    SchemaLocation := schemaLocation,
    AuxiliaryMimeTypes := auxiliaryMimeTypes,
    Btrt := none,
    Children := [],
    DataReferenceIndex := 1 }

namespace StppBox

variable {β : Type}

/-- Method `AddChild`. -/
def AddChild (P : Package β) (b : StppBox β) (child : β) : StppBox β :=
  { b with Btrt := if P.isBtrt child then some child else b.Btrt,
           Children := b.Children ++ [child] }

/-- Method `Size`, in 64-bit unsigned arithmetic. -/
def Size (P : Package β) (b : StppBox β) : Nat :=
  let nrSampleEntryBytes := 8
  let totalSize0 := (boxHeaderSize + nrSampleEntryBytes + b.Namespace.length + 1) % 2 ^ 64
  let totalSize1 :=
    if b.SchemaLocation ≠ [] then (totalSize0 + (b.SchemaLocation.length + 1)) % 2 ^ 64
    else totalSize0
  let totalSize2 :=
    if b.AuxiliaryMimeTypes ≠ [] then (totalSize1 + (b.AuxiliaryMimeTypes.length + 1)) % 2 ^ 64
    else totalSize1
  b.Children.foldl (fun totalSize child => (totalSize + P.Size child) % 2 ^ 64) totalSize2

/-- The loop of `Encode` over the children: `out` is what the writer has taken. -/
def encodeChildren (P : Package β) : List β → List Nat → Res (List Nat)
  | [], out => .ok out
  | child :: rest, out => (P.Encode child).bind fun bs => encodeChildren P rest (out ++ bs)

/-- Method `Encode` on a writer that takes every byte: the bytes written. -/
def Encode (P : Package β) (b : StppBox β) : Res (List Nat) :=
  let hdr := EncodeHeader (b.Size P) stppType
  let sw := NewSliceWriter (b.Size P)
  (sw.WriteZeroBytes 6).bind fun sw =>
    (sw.WriteUint16 b.DataReferenceIndex).bind fun sw =>
      (sw.WriteString b.Namespace).bind fun sw =>
        (if b.SchemaLocation ≠ [] then sw.WriteString b.SchemaLocation else .ok sw).bind fun sw =>
          (if b.AuxiliaryMimeTypes ≠ [] then sw.WriteString b.AuxiliaryMimeTypes
            else .ok sw).bind fun sw =>
            encodeChildren P b.Children (hdr ++ sw.written)

/-- Number of payload bytes that `Encode` writes before the children: the 8-byte
sample entry, the namespace with its terminator, and each non-empty optional
string with its terminator. -/
def prefixLength (b : StppBox β) : Nat :=
  8 + (b.Namespace.length + 1) +
    (if b.SchemaLocation ≠ [] then b.SchemaLocation.length + 1 else 0) +
    (if b.AuxiliaryMimeTypes ≠ [] then b.AuxiliaryMimeTypes.length + 1 else 0)

end StppBox

/-- The child loop of `DecodeStpp`: `endPos` is `startPos+hdr.size`, `data` what
`restReader` still holds.  `fuel` bounds the number of iterations; as every
`DecodeBox` without error reads a byte, any `fuel` above `data.length` gives the
same result (`decodeChildren_fuel`) and the first equation is never reached. -/
def decodeChildren {β : Type} (P : Package β) (endPos : Nat) :
    Nat → Nat → List Nat → StppBox β → Res (StppBox β)
  | 0, _, _, _ => .panic .outOfRange
  | fuel + 1, pos, data, b =>
    match P.DecodeBox pos data with
    | .eof => .ok b
    | .error e => .error e
    | .panic f => .panic f
    | .box box n =>
      let b1 := match box with
        | some child => b.AddChild P child
        | none => b
      let pos1 := match box with
        | some child => (pos + P.Size child) % 2 ^ 64
        | none => pos
      if pos1 = endPos then .ok b1
      else if pos1 > endPos then .error .badSizeInStpp
      else decodeChildren P endPos fuel pos1 (data.drop n) b1

/-- The function `DecodeStpp` for a header with `hdr.size = hdrSize` on the payload
`data`, the bytes `ioutil.ReadAll` returns. -/
def DecodeStpp {β : Type} (P : Package β) (hdrSize startPos : Nat) (data : List Nat) :
    Res (StppBox β) :=
  let b : StppBox β :=
    { Namespace := [], SchemaLocation := [], AuxiliaryMimeTypes := [], Btrt := none,
      Children := [], DataReferenceIndex := 0 }
  let s := NewSliceReader data
  let s := s.SkipBytes 6
  s.ReadUint16.bind fun (dri, s) =>
    let b := { b with DataReferenceIndex := dri }
    s.ReadZeroTerminatedString.bind fun (ns, s) =>
      let b := { b with Namespace := ns }
      (if s.NrRemainingBytes > 0 then
          s.ReadZeroTerminatedString.bind fun (x, s) => .ok ({ b with SchemaLocation := x }, s)
        else .ok (b, s)).bind fun (b, s) =>
        (if s.NrRemainingBytes > 0 then
            s.ReadZeroTerminatedString.bind fun (x, s) =>
              .ok ({ b with AuxiliaryMimeTypes := x }, s)
          else .ok (b, s)).bind fun (b, s) =>
          let pos := (startPos + (boxHeaderSize + s.GetPos)) % 2 ^ 64
          let remaining := s.RemainingBytes
          decodeChildren P ((startPos + hdrSize) % 2 ^ 64) (remaining.length + 1) pos
            remaining b

/-- Number of optional strings (`SchemaLocation`, `AuxiliaryMimeTypes`) that a
sample-entry payload stores as an empty string, a lone terminating zero byte:
`r1` is what follows the namespace and its terminator, `r2` what follows the
next string and its terminator. -/
def emptyOptionalStrings (data : List Nat) : Nat :=
  let r1 := ((data.drop 8).dropWhile (· ≠ 0)).drop 1
  let r2 := (r1.dropWhile (· ≠ 0)).drop 1
  (if r1.head? = some 0 then 1 else 0) + (if r2.head? = some 0 then 1 else 0)

/-- The bytes `Encode` writes for an optional string: nothing when it is empty,
else the string and a terminating zero byte. -/
def optionalBytes (str : List Nat) : List Nat :=
  if str ≠ [] then str ++ [0] else []

/-- The payload bytes that `Encode` writes before the children of a box with
data-reference index 1. -/
def prefixBytes (ns sl aux : List Nat) : List Nat :=
  List.replicate 6 0 ++ (putUint16 1 ++ (ns ++ 0 :: (optionalBytes sl ++ optionalBytes aux)))

/-! ## A package without registered box types -/

/-- Modelled from the spec: the generic opaque box that `DecodeBox` produces for
a type tag without a registered decoder: the 4-character tag and the payload
bytes. -/
structure UnknownBox where
  name : List Nat
  payload : List Nat
  deriving DecidableEq, Repr

namespace UnknownBox

/-- Size of an opaque box: header and payload (the length of a slice in memory,
below 2^64). -/
def Size (b : UnknownBox) : Nat := boxHeaderSize + b.payload.length

/-- Encoding of an opaque box: header, then the payload unchanged. -/
def Encode (b : UnknownBox) : Res (List Nat) :=
  .ok (EncodeHeader b.Size b.name ++ b.payload)

end UnknownBox

/-- Modelled from the spec: `DecodeBox` with an empty registry.  It reads the
8-byte header (4-byte big-endian size that includes the header, 4-character
tag) and hands exactly `size - 8` payload bytes to the opaque box.  At the end
of the input it returns `io.EOF`; a cut header, a size below the header size or
a payload shorter than declared is an error. -/
def decodeUnknown (_pos : Nat) (data : List Nat) : BoxRead UnknownBox :=
  if data.length = 0 then .eof
  else if data.length < boxHeaderSize then .error (.helper "truncated header")
  else
    let size := beUint (data.take 4)
    if size < boxHeaderSize then .error (.helper "bad box size")
    else if data.length < size then .error (.helper "truncated box")
    else .box (some { name := (data.drop 4).take 4,
                      payload := (data.drop boxHeaderSize).take (size - boxHeaderSize) }) size

/-- The package in which every child is an opaque box. -/
def unknownPackage : Package UnknownBox where
  Size := UnknownBox.Size
  Encode := UnknownBox.Encode
  isBtrt := fun _ => false
  DecodeBox := decodeUnknown
  consumes := by
    intro pos data b n h
    unfold decodeUnknown at h
    simp only [boxHeaderSize] at h
    split_ifs at h
    all_goals (cases h; omega)

/-- An opaque child box of type `free` with three payload bytes. -/
def freeBox : UnknownBox := { name := [102, 114, 101, 101], payload := [1, 2, 3] }

/-- The box `NewStppBox("ns", "s", "a")` with the child `freeBox` added. -/
def oneChild : StppBox UnknownBox :=
  (NewStppBox [110, 115] [115] [97]).AddChild unknownPackage freeBox

/-- The box `NewStppBox("ns", "", "aux")`, without children. -/
def nsAux : StppBox UnknownBox := NewStppBox [110, 115] [] [97, 117, 120]

/-- A 12-byte stpp payload: the sample entry with data-reference index 1, the
namespace `"ns"`, and an empty `SchemaLocation` stored as a lone zero byte. -/
def emptySchemaPayload : List Nat := [0, 0, 0, 0, 0, 0, 0, 1, 110, 115, 0, 0]

/-- The 26-byte stpp payload of `oneChild`. -/
def oneChildPayload : List Nat :=
  [0, 0, 0, 0, 0, 0, 0, 1, 110, 115, 0, 115, 0, 97, 0,
   0, 0, 0, 11, 102, 114, 101, 101, 1, 2, 3]

/-- The 34 bytes that `Encode` writes for `oneChild`. -/
def oneChildBytes : List Nat := [0, 0, 0, 34, 115, 116, 112, 112] ++ oneChildPayload

/-- The 32 bytes that `Encode` writes for `exampleTable`. -/
def exampleTableBytes : List Nat :=
  [0, 0, 0, 32, 115, 116, 116, 115, 0, 0, 0, 0, 0, 0, 0, 2,
   0, 0, 0, 3, 0, 0, 0, 10, 0, 0, 0, 2, 0, 0, 0, 20]

/-- A table of three entries whose first two durations are 2^31. -/
def accTable : SttsBox :=
  { Version := 0, Flags := 0, SampleCount := [1, 1, 1],
    SampleTimeDelta := [2147483648, 2147483648, 1] }

/-- The entry count that an stts payload declares: bytes 4 to 7, big-endian. -/
def declaredEntryCount (data : List Nat) : Nat :=
  beUint ((data.drop 4).take 4)

/-- An 8-byte stts payload that declares one entry and holds none. -/
def shortSttsPayload : List Nat := [0, 0, 0, 0, 0, 0, 0, 1]

/-- An 8-byte stts payload that declares 2^32 - 1 entries and holds none. -/
def manyEntriesPayload : List Nat := [0, 0, 0, 0, 255, 255, 255, 255]

/-- Go standard library (`ioutil.ReadAll`, not part of this repository): what
the call `ioutil.ReadAll(r)` hands to `DecodeStts`, the error of the reader `r`
or the bytes read, `data`, in a buffer whose backing array holds `spare`
between `len(data)` and `cap(data)`. -/
inductive ReadAllResult where
  | failed (e : Err)
  | read (data spare : List Nat)
  deriving DecidableEq, Repr

/-- Go standard library (`ioutil.ReadAll`, not part of this repository): the
buffer of `ReadAll` starts with capacity 512, zero-filled, and grows only when it
is full; behind a payload of fewer than 512 bytes, delivered by a reader that
then reports the end of the input, the backing array holds `512 - len(data)`
zero bytes. -/
def readAllSpare (data : List Nat) : List Nat :=
  List.replicate (512 - data.length) 0

/-- The function `DecodeStts` from its first line: lines 26 to 29 return the error
of `ioutil.ReadAll`, lines 30 to 44 are `DecodeStts` on the bytes read. -/
def DecodeSttsReader : ReadAllResult → Res SttsBox
  | .failed e => .error e
  | .read data spare => DecodeStts data spare

/-! ## The running position of `DecodeStpp` -/

/-- Lines 52 to 76 of `DecodeStpp`: the sample entry, the namespace and the two
optional strings.  The result is the box before the child loop and the reader
`s` from which line 78 takes the position and line 79 the remaining bytes. -/
def decodeStppPrefix {β : Type} (data : List Nat) : Res (StppBox β × SliceReader) :=
  let b : StppBox β :=
    { Namespace := [], SchemaLocation := [], AuxiliaryMimeTypes := [], Btrt := none,
      Children := [], DataReferenceIndex := 0 }
  let s := NewSliceReader data
  let s := s.SkipBytes 6
  s.ReadUint16.bind fun (dri, s) =>
    let b := { b with DataReferenceIndex := dri }
    s.ReadZeroTerminatedString.bind fun (ns, s) =>
      let b := { b with Namespace := ns }
      (if s.NrRemainingBytes > 0 then
          s.ReadZeroTerminatedString.bind fun (x, s) => .ok ({ b with SchemaLocation := x }, s)
        else .ok (b, s)).bind fun (b, s) =>
        (if s.NrRemainingBytes > 0 then
            s.ReadZeroTerminatedString.bind fun (x, s) =>
              .ok ({ b with AuxiliaryMimeTypes := x }, s)
          else .ok (b, s))

/-- The values that the variable `pos` of `DecodeStpp` has at the comparison with
`startPos+hdr.size` (lines 93 to 97), one for every iteration of the child loop
that gets there, in order.  The arguments are those of `decodeChildren`; the
loop ends as it does there. -/
def childPositions {β : Type} (P : Package β) (endPos : Nat) :
    Nat → Nat → List Nat → List Nat
  | 0, _, _ => []
  | fuel + 1, pos, data =>
    match P.DecodeBox pos data with
    | .eof => []
    | .error _ => []
    | .panic _ => []
    | .box box n =>
      let pos1 := match box with
        | some child => (pos + P.Size child) % 2 ^ 64
        | none => pos
      pos1 :: (if pos1 = endPos then []
               else if pos1 > endPos then []
               else childPositions P endPos fuel pos1 (data.drop n))

/-- The running position of `DecodeStpp`: the value that `pos` gets in line 78,
after the prefix, followed by its values in the child loop.  The list is empty
when the prefix is not decoded. -/
def runningPositions {β : Type} (P : Package β) (hdrSize startPos : Nat) (data : List Nat) :
    List Nat :=
  match @decodeStppPrefix β data with
  | .ok (_, s) =>
    let pos := (startPos + (boxHeaderSize + s.GetPos)) % 2 ^ 64
    pos :: childPositions P ((startPos + hdrSize) % 2 ^ 64) (s.RemainingBytes.length + 1) pos
      s.RemainingBytes
  | .error _ => []
  | .panic _ => []

/-! ## A package whose opaque boxes keep their declared size -/

/-- Modelled from the spec: a generic opaque box that records the size its header
declares, next to the 4-character tag and the payload bytes that were read. -/
structure SizedBox where
  name : List Nat
  size : Nat
  payload : List Nat
  deriving DecidableEq, Repr

namespace SizedBox

/-- Size of the box: the size that its header declared. -/
def Size (b : SizedBox) : Nat := b.size

/-- Encoding of the box: header, then the payload unchanged. -/
def Encode (b : SizedBox) : Res (List Nat) :=
  .ok (EncodeHeader b.size b.name ++ b.payload)

end SizedBox

/-- Modelled from the spec: `DecodeBox` with an empty registry, the child reader
being limited to `size - 8` bytes.  It reads the 8-byte header (4-byte
big-endian size that includes the header, 4-character tag) and hands the next
`size - 8` bytes to the opaque box, or the bytes that are left if the input ends
before; the box keeps the declared size.  At the end of the input it returns
`io.EOF`; a cut header or a size below the header size is an error. -/
def decodeSized (_pos : Nat) (data : List Nat) : BoxRead SizedBox :=
  if data.length = 0 then .eof
  else if data.length < boxHeaderSize then .error (.helper "truncated header")
  else
    let size := beUint (data.take 4) % 2 ^ 32
    if size < boxHeaderSize then .error (.helper "bad box size")
    else .box (some { name := (data.drop 4).take 4,
                      size := size,
                      payload := (data.drop boxHeaderSize).take (size - boxHeaderSize) })
           (min size data.length)

/-- The package in which every child is an opaque box of its declared size. -/
def sizedPackage : Package SizedBox where
  Size := SizedBox.Size
  Encode := SizedBox.Encode
  isBtrt := fun _ => false
  DecodeBox := decodeSized
  consumes := by
    intro pos data b n h
    unfold decodeSized at h
    simp only [boxHeaderSize] at h
    split_ifs at h
    all_goals (cases h; omega)

/-- A 26-byte stpp payload: the prefix of `NewStppBox("ns", "s", "a")` and a child
of type `free` whose header declares 12 bytes and of which 11 are there. -/
def cutChildPayload : List Nat :=
  [0, 0, 0, 0, 0, 0, 0, 1, 110, 115, 0, 115, 0, 97, 0,
   0, 0, 0, 12, 102, 114, 101, 101, 1, 2, 3]

/-! ## `hevc/sps.go` -/

namespace Hevc

/-- The conditions that the bit reader accumulates as its error. -/
inductive BitErr where
  /-- A read went past the end of the buffer. -/
  | endOfInput
  /-- An exponential-Golomb prefix had more than 32 zero bits. -/
  | overflow
  deriving DecidableEq, Repr

/-- Modelled from the spec: the bit reader of package `bits` is not among the
sources.  It reads the bits of a byte buffer front to back, most significant bit
first; `bits` are the unread bits (each 0 or 1) and `err` the first error met.
Once `err` is set every read returns zero and changes nothing. -/
structure AccErrEBSPReader where
  bits : List Nat
  err : Option BitErr
  deriving DecidableEq, Repr

/-- The eight bits of a byte, most significant first. -/
def bitsOfByte (b : Nat) : List Nat :=
  [b / 128 % 2, b / 64 % 2, b / 32 % 2, b / 16 % 2, b / 8 % 2, b / 4 % 2, b / 2 % 2, b % 2]

/-- The bits of a byte buffer. -/
def bitsOfBytes : List Nat → List Nat
  | [] => []
  | b :: bs => bitsOfByte b ++ bitsOfBytes bs

/-- The unsigned value of a bit string, most significant bit first. -/
def bitsValue (bs : List Nat) : Nat :=
  bs.foldl (fun acc x => acc * 2 + x) 0

/-- The reader `bits.NewAccErrEBSPReader(bytes.NewReader(data))`. -/
def NewAccErrEBSPReader (data : List Nat) : AccErrEBSPReader :=
  { bits := bitsOfBytes data, err := none }

/-- What the scan of an exponential-Golomb prefix met: the end of the buffer, a
33rd zero bit, or the set bit after `k` zero bits with the bits that follow. -/
inductive PrefixScan where
  | exhausted
  | tooLong
  | found (k : Nat) (rest : List Nat)
  deriving DecidableEq, Repr

/-- Count the zero bits in front of the next set bit; `k` zero bits were seen. -/
def scanPrefix : List Nat → Nat → PrefixScan
  | [], _ => .exhausted
  | b :: bs, k =>
    if b = 1 then .found k bs
    else if k ≥ 32 then .tooLong
    else scanPrefix bs (k + 1)

namespace AccErrEBSPReader

/-- Method `Read(n)`: the next `n` bits as an unsigned value.  A read past the
end of the buffer sets the end-of-input error and returns 0. -/
def Read (r : AccErrEBSPReader) (n : Nat) : Nat × AccErrEBSPReader :=
  if r.err.isSome then (0, r)
  else if r.bits.length < n then (0, { r with err := some .endOfInput })
  else (bitsValue (r.bits.take n), { r with bits := r.bits.drop n })

/-- Method `ReadFlag`: `Read(1)` as a boolean. -/
def ReadFlag (r : AccErrEBSPReader) : Bool × AccErrEBSPReader :=
  ((r.Read 1).1 == 1, (r.Read 1).2)

/-- Method `ReadExpGolomb`: `k` zero bits, a set bit and `k` suffix bits `s` give
`2^k - 1 + s`.  The end of the buffer sets the end-of-input error, a prefix of
more than 32 zero bits the overflow error; both return 0. -/
def ReadExpGolomb (r : AccErrEBSPReader) : Nat × AccErrEBSPReader :=
  if r.err.isSome then (0, r)
  else
    match scanPrefix r.bits 0 with
    | .exhausted => (0, { r with err := some .endOfInput })
    | .tooLong => (0, { r with err := some .overflow })
    | .found k rest =>
      if rest.length < k then (0, { r with err := some .endOfInput })
      else (2 ^ k - 1 + bitsValue (rest.take k), { r with bits := rest.drop k })

/-- Method `AccError`: the accumulated error, nil when no read failed. -/
def AccError (r : AccErrEBSPReader) : Option BitErr := r.err

end AccErrEBSPReader

/-- Modelled from the spec: `GetNaluType` is not in `sps.go`; the type field
occupies bits 9 to 14 of the 16-bit NAL unit header, that is bits 1 to 6 of its
first byte. -/
def GetNaluType (naluHeaderStart : Nat) : Nat :=
  (naluHeaderStart >>> 1) &&& 0x3f

/-- Modelled from the spec: the constant `NALU_SPS` is not in `sps.go`; the NAL
unit type of a sequence parameter set in ISO/IEC 23008-2 is 33. -/
def NALU_SPS : Nat := 33

/-- The constant `EXTENDED_SAR`. -/
def EXTENDED_SAR : Nat := 255

/-- The struct `ProfileTierLevel`. -/
structure ProfileTierLevel where
  GeneralProfileSpace : Nat := 0
  GeneralTierFlag : Bool := false
  GeneralProfileIDC : Nat := 0
  GeneralProfileCompatibilityFlags : Nat := 0
  GeneralConstraintIndicatorFlags : Nat := 0
  GeneralProgressiveSourceFlag : Bool := false
  GeneralInterlacedSourceFlag : Bool := false
  GeneralNonPackedConstraintFlag : Bool := false
  GeneralFrameOnlyConstraintFlag : Bool := false
  GeneralLevelIDC : Nat := 0
  deriving DecidableEq, Repr

/-- The struct `ConformanceWindow`. -/
structure ConformanceWindow where
  LeftOffset : Nat := 0
  RightOffset : Nat := 0
  TopOffset : Nat := 0
  BottomOffset : Nat := 0
  deriving DecidableEq, Repr

/-- The struct `SubLayerOrderingInfo`. -/
structure SubLayerOrderingInfo where
  MaxDecPicBufferingMinus1 : Nat := 0
  MaxNumReorderPics : Nat := 0
  MaxLatencyIncreasePlus1 : Nat := 0
  deriving DecidableEq, Repr

/-- The struct `VUIParameters`. -/
structure VUIParameters where
  AspectRatioInfoPresentFlag : Bool := false
  AspectRatioIDC : Nat := 0
  SARWidth : Nat := 0
  SARHeight : Nat := 0
  OverscanInfoPresentFlag : Bool := false
  OverscanAppropriateFlag : Bool := false
  VideoSignalTypePresentFlag : Bool := false
  VideoFormat : Nat := 0
  VideoFullRangeFlag : Bool := false
  ColourDescriptionPresentFlag : Bool := false
  ColourPrimaries : Nat := 0
  TransferCharacteristics : Nat := 0
  MatrixCoeffs : Nat := 0
  ChromaLocInfoPresentFlag : Bool := false
  ChromaSampleLocTypeTopField : Nat := 0
  ChromaSampleLocTypeBottomField : Nat := 0
  NeutralChromaIndicationFlag : Bool := false
  FieldSeqFlag : Bool := false
  FrameFieldInfoPresentFlag : Bool := false
  DefaultDisplayWindowFLag : Bool := false
  DefDispWinLeftOffset : Nat := 0
  DefDispWinRightOffset : Nat := 0
  DefDispWinTopOffset : Nat := 0
  DefDispWinBottomOffset : Nat := 0
  VUITimingInfoPresentFlag : Bool := false
  VUINumUnitsInTick : Nat := 0
  VUITimeScale : Nat := 0
  VUIPocProportionalToTimingFlag : Bool := false
  VUINumTicksPocDiffOneMinus1 : Nat := 0
  deriving DecidableEq, Repr

/-- The struct `SPS`; every field has the zero value of its Go type as default,
`VUIParameters` is a possibly nil pointer. -/
structure SPS where
  VpsID : Nat := 0
  MaxSubLayersMinus1 : Nat := 0
  TemporalIDNestingFlag : Bool := false
  ProfileTierLevel : ProfileTierLevel := {}
  SpsID : Nat := 0
  ChromaFormatIDC : Nat := 0
  SeparateColourPlaneFlag : Bool := false
  ConformanceWindowFlag : Bool := false
  PicWidthInLumaSamples : Nat := 0
  PicHeightInLumaSamples : Nat := 0
  ConformanceWindow : ConformanceWindow := {}
  BitDepthLumaMinus8 : Nat := 0
  BitDepthChromaMinus8 : Nat := 0
  Log2MaxPicOrderCntLsbMinus4 : Nat := 0
  SubLayerOrderingInfoPresentFlag : Bool := false
  SubLayeringOrderingInfos : List SubLayerOrderingInfo := []
  Log2MinLumaCodingBlockSizeMinus3 : Nat := 0
  Log2DiffMaxMinLumaCodingBlockSize : Nat := 0
  Log2MinLumaTransformBlockSizeMinus2 : Nat := 0
  Log2DiffMaxMinLumaTransformBlockSize : Nat := 0
  MaxTransformHierarchyDepthInter : Nat := 0
  MaxTransformHierarchyDepthIntra : Nat := 0
  ScalingListEnabledFlag : Bool := false
  ScalingListDataPresentFlag : Bool := false
  AmpEnabledFlag : Bool := false
  SampleAdaptiveOffsetEnabledFlag : Bool := false
  PCMEnabledFlag : Bool := false
  NumShortTermRefPicSets : Nat := 0
  LongTermRefPicsPresentFlag : Bool := false
  SpsTemporalMvpEnabledFlag : Bool := false
  StrongIntraSmoothingEnabledFlag : Bool := false
  VUIParametersPresentFlag : Bool := false
  VUIParameters : Option VUIParameters := none
  deriving DecidableEq, Repr

/-- The errors that `ParseSPSNALUnit` returns. -/
inductive SPSError where
  /-- `fmt.Errorf("NALU type is %s not SPS", naluType)` -/
  | notSPS (naluType : Nat)
  /-- The accumulated error of the bit reader, `r.AccError()`. -/
  | bitReader (e : BitErr)
  deriving DecidableEq, Repr

end Hevc

namespace Hevc

/-- The function `readVUIParameters`.  The reads come first, in the order of the
source; a read that the source makes only under a flag is made under that flag,
and its field keeps the zero value of `p := VUIParameters{}` otherwise. -/
def readVUIParameters (r : AccErrEBSPReader) : VUIParameters × AccErrEBSPReader :=
  let a1 := r.ReadFlag
  let a2 := if a1.1 then a1.2.Read 8 else (0, a1.2)
  let sar := a1.1 && a2.1 % 256 == EXTENDED_SAR
  let a3 := if sar then a2.2.Read 16 else (0, a2.2)
  let a4 := if sar then a3.2.Read 16 else (0, a3.2)
  let o1 := a4.2.ReadFlag
  let o2 := if o1.1 then o1.2.ReadFlag else (false, o1.2)
  let v1 := o2.2.ReadFlag
  let v2 := if v1.1 then v1.2.Read 3 else (0, v1.2)
  let v3 := if v1.1 then v2.2.ReadFlag else (false, v2.2)
  let v4 := if v1.1 then v3.2.ReadFlag else (false, v3.2)
  let col := v1.1 && v4.1
  let v5 := if col then v4.2.Read 8 else (0, v4.2)
  let v6 := if col then v5.2.Read 8 else (0, v5.2)
  let v7 := if col then v6.2.Read 8 else (0, v6.2)
  let c1 := v7.2.ReadFlag
  let c2 := if c1.1 then c1.2.ReadExpGolomb else (0, c1.2)
  let c3 := if c1.1 then c2.2.ReadExpGolomb else (0, c2.2)
  let f1 := c3.2.ReadFlag
  let f2 := f1.2.ReadFlag
  let f3 := f2.2.ReadFlag
  let d0 := f3.2.ReadFlag
  let d1 := if d0.1 then d0.2.ReadExpGolomb else (0, d0.2)
  let d2 := if d0.1 then d1.2.ReadExpGolomb else (0, d1.2)
  let d3 := if d0.1 then d2.2.ReadExpGolomb else (0, d2.2)
  let d4 := if d0.1 then d3.2.ReadExpGolomb else (0, d3.2)
  let t0 := d4.2.ReadFlag
  let t1 := t0.2.Read 32
  let t2 := t1.2.Read 32
  let t3 := t2.2.ReadFlag
  let t4 := if t3.1 then t3.2.ReadExpGolomb else (0, t3.2)
  ({ AspectRatioInfoPresentFlag := a1.1,
     AspectRatioIDC := a2.1 % 256,
     SARWidth := a3.1 % 2 ^ 16,
     SARHeight := a4.1 % 2 ^ 16,
     OverscanInfoPresentFlag := o1.1,
     OverscanAppropriateFlag := o2.1,
     VideoSignalTypePresentFlag := v1.1,
     VideoFormat := v2.1 % 256,
     VideoFullRangeFlag := v3.1,
     ColourDescriptionPresentFlag := v4.1,
     ColourPrimaries := v5.1 % 256,
     TransferCharacteristics := v6.1 % 256,
     MatrixCoeffs := v7.1 % 256,
     ChromaLocInfoPresentFlag := c1.1,
     ChromaSampleLocTypeTopField := c2.1 % 2 ^ 32,
     ChromaSampleLocTypeBottomField := c3.1 % 2 ^ 32,
     NeutralChromaIndicationFlag := f1.1,
     FieldSeqFlag := f2.1,
     FrameFieldInfoPresentFlag := f3.1,
     DefaultDisplayWindowFLag := d0.1,
     DefDispWinLeftOffset := d1.1 % 2 ^ 32,
     DefDispWinRightOffset := d2.1 % 2 ^ 32,
     DefDispWinTopOffset := d3.1 % 2 ^ 32,
     DefDispWinBottomOffset := d4.1 % 2 ^ 32,
     VUITimingInfoPresentFlag := t0.1,
     VUINumUnitsInTick := t1.1 % 2 ^ 32,
     VUITimeScale := t2.1 % 2 ^ 32,
     VUIPocProportionalToTimingFlag := t3.1,
     VUINumTicksPocDiffOneMinus1 := t4.1 % 2 ^ 32 },
    t4.2)

/-- Lines 94 to 102 of `ParseSPSNALUnit`: VPS id, sub-layer count, nesting flag
and the profile-tier-level block. -/
def readProfileFields (sps : SPS) (r : AccErrEBSPReader) : SPS × AccErrEBSPReader :=
  let x1 := r.Read 4
  let x2 := x1.2.Read 3
  let x3 := x2.2.ReadFlag
  let x4 := x3.2.Read 2
  let x5 := x4.2.ReadFlag
  let x6 := x5.2.Read 5
  let x7 := x6.2.Read 32
  let x8 := x7.2.Read 48
  let x9 := x8.2.Read 8
  ({ sps with
      VpsID := x1.1 % 256,
      MaxSubLayersMinus1 := x2.1 % 256,
      TemporalIDNestingFlag := x3.1,
      ProfileTierLevel :=
        { sps.ProfileTierLevel with
            GeneralProfileSpace := x4.1 % 256,
            GeneralTierFlag := x5.1,
            GeneralProfileIDC := x6.1 % 256,
            GeneralProfileCompatibilityFlags := x7.1 % 2 ^ 32,
            GeneralConstraintIndicatorFlags := x8.1 % 2 ^ 64,
            GeneralLevelIDC := x9.1 % 256 } },
    x9.2)

/-- Lines 106 to 125 of `ParseSPSNALUnit`: from the SPS id to the
sub-layer-ordering-info-present flag. -/
def readPictureFields (sps : SPS) (r : AccErrEBSPReader) : SPS × AccErrEBSPReader :=
  let x1 := r.ReadExpGolomb
  let x2 := x1.2.ReadExpGolomb
  let sps := { sps with SpsID := x1.1 % 256, ChromaFormatIDC := x2.1 % 256 }
  let x3 := if sps.ChromaFormatIDC = 3 then x2.2.ReadFlag else (sps.SeparateColourPlaneFlag, x2.2)
  let x4 := x3.2.ReadExpGolomb
  let x5 := x4.2.ReadExpGolomb
  let x6 := x5.2.ReadFlag
  let sps := { sps with SeparateColourPlaneFlag := x3.1, PicWidthInLumaSamples := x4.1 % 2 ^ 32,
                        PicHeightInLumaSamples := x5.1 % 2 ^ 32, ConformanceWindowFlag := x6.1 }
  let w1 := x6.2.ReadExpGolomb
  let w2 := w1.2.ReadExpGolomb
  let w3 := w2.2.ReadExpGolomb
  let w4 := w3.2.ReadExpGolomb
  let window : ConformanceWindow :=
    if x6.1 then
      { LeftOffset := w1.1 % 2 ^ 32, RightOffset := w2.1 % 2 ^ 32,
        TopOffset := w3.1 % 2 ^ 32, BottomOffset := w4.1 % 2 ^ 32 }
    else sps.ConformanceWindow
  let r7 := if x6.1 then w4.2 else x6.2
  let x8 := r7.ReadExpGolomb
  let x9 := x8.2.ReadExpGolomb
  let x10 := x9.2.ReadExpGolomb
  let x11 := x10.2.ReadFlag
  ({ sps with
      ConformanceWindow := window,
      BitDepthLumaMinus8 := x8.1 % 256,
      BitDepthChromaMinus8 := x9.1 % 256,
      Log2MaxPicOrderCntLsbMinus4 := x10.1 % 256,
      SubLayerOrderingInfoPresentFlag := x11.1 },
    x11.2)

/-- One triple of the loop in lines 130 to 138, its fields read in order. -/
def readSubLayerOrderingInfo (r : AccErrEBSPReader) :
    SubLayerOrderingInfo × AccErrEBSPReader :=
  let x1 := r.ReadExpGolomb
  let x2 := x1.2.ReadExpGolomb
  let x3 := x2.2.ReadExpGolomb
  ({ MaxDecPicBufferingMinus1 := x1.1 % 256, MaxNumReorderPics := x2.1 % 256,
     MaxLatencyIncreasePlus1 := x3.1 % 256 }, x3.2)

/-- The loop of lines 130 to 138 with `n` iterations left, appending to `infos`. -/
def orderingInfoLoop :
    Nat → AccErrEBSPReader → List SubLayerOrderingInfo →
      List SubLayerOrderingInfo × AccErrEBSPReader
  | 0, r, infos => (infos, r)
  | n + 1, r, infos =>
    orderingInfoLoop n (readSubLayerOrderingInfo r).2 (infos ++ [(readSubLayerOrderingInfo r).1])

/-- Lines 126 to 138 of `ParseSPSNALUnit`.  The counter `i` runs from `startValue`
to `MaxSubLayersMinus1`, a 3-bit value, so the byte counter does not wrap and the
loop makes `MaxSubLayersMinus1 + 1 - startValue` iterations. -/
def readOrderingInfos (sps : SPS) (r : AccErrEBSPReader) : SPS × AccErrEBSPReader :=
  let startValue := if sps.SubLayerOrderingInfoPresentFlag then sps.MaxSubLayersMinus1 else 0
  let x := orderingInfoLoop (sps.MaxSubLayersMinus1 + 1 - startValue) r
    sps.SubLayeringOrderingInfos
  ({ sps with SubLayeringOrderingInfos := x.1 }, x.2)

/-- Lines 139 to 144 of `ParseSPSNALUnit`: block sizes and hierarchy depths. -/
def readBlockSizes (sps : SPS) (r : AccErrEBSPReader) : SPS × AccErrEBSPReader :=
  let x1 := r.ReadExpGolomb
  let x2 := x1.2.ReadExpGolomb
  let x3 := x2.2.ReadExpGolomb
  let x4 := x3.2.ReadExpGolomb
  let x5 := x4.2.ReadExpGolomb
  let x6 := x5.2.ReadExpGolomb
  ({ sps with
      Log2MinLumaCodingBlockSizeMinus3 := x1.1 % 256,
      Log2DiffMaxMinLumaCodingBlockSize := x2.1 % 256,
      Log2MinLumaTransformBlockSizeMinus2 := x3.1 % 256,
      Log2DiffMaxMinLumaTransformBlockSize := x4.1 % 256,
      MaxTransformHierarchyDepthInter := x5.1 % 256,
      MaxTransformHierarchyDepthIntra := x6.1 % 256 },
    x6.2)

/-- Lines 166 to 173 of `ParseSPSNALUnit`: the last flags and the VUI parameters. -/
def readVUIPart (sps : SPS) (r : AccErrEBSPReader) : SPS × Option BitErr :=
  let x1 := r.ReadFlag
  let x2 := x1.2.ReadFlag
  let x3 := x2.2.ReadFlag
  let sps := { sps with SpsTemporalMvpEnabledFlag := x1.1,
                        StrongIntraSmoothingEnabledFlag := x2.1,
                        VUIParametersPresentFlag := x3.1 }
  if sps.VUIParametersPresentFlag then
    ({ sps with VUIParameters := some (readVUIParameters x3.2).1 },
      (readVUIParameters x3.2).2.AccError)
  else (sps, x3.2.AccError)

/-- Lines 152 to 165 of `ParseSPSNALUnit`: coding-tool flags, with the returns
after the PCM flag, the number of short-term reference picture sets and the
long-term flag. -/
def readCodingTools (sps : SPS) (r : AccErrEBSPReader) : SPS × Option BitErr :=
  let x1 := r.ReadFlag
  let x2 := x1.2.ReadFlag
  let x3 := x2.2.ReadFlag
  let sps := { sps with AmpEnabledFlag := x1.1, SampleAdaptiveOffsetEnabledFlag := x2.1,
                        PCMEnabledFlag := x3.1 }
  if sps.PCMEnabledFlag then (sps, x3.2.AccError)
  else
    let x4 := x3.2.ReadExpGolomb
    let sps := { sps with NumShortTermRefPicSets := x4.1 % 256 }
    if sps.NumShortTermRefPicSets ≠ 0 then (sps, x4.2.AccError)
    else
      let x5 := x4.2.ReadFlag
      let sps := { sps with LongTermRefPicsPresentFlag := x5.1 }
      if sps.LongTermRefPicsPresentFlag then (sps, x5.2.AccError)
      else readVUIPart sps x5.2

/-- Lines 145 to 151 of `ParseSPSNALUnit`, followed by the rest of the function. -/
def readScalingList (sps : SPS) (r : AccErrEBSPReader) : SPS × Option BitErr :=
  let x1 := r.ReadFlag
  let sps := { sps with ScalingListEnabledFlag := x1.1 }
  if sps.ScalingListEnabledFlag then
    let x2 := x1.2.ReadFlag
    let sps := { sps with ScalingListDataPresentFlag := x2.1 }
    if sps.ScalingListDataPresentFlag then (sps, x2.2.AccError)
    else readCodingTools sps x2.2
  else readCodingTools sps x1.2

/-- The reader and the structure of `ParseSPSNALUnit` after line 102, on an input
whose NAL unit header has been read. -/
def afterProfileFields (data : List Nat) : SPS × AccErrEBSPReader :=
  readProfileFields {} ((NewAccErrEBSPReader data).Read 16).2

/-- The reader and the structure of `ParseSPSNALUnit` after line 125, the read of
the sub-layer-ordering-info-present flag. -/
def afterOrderingFlag (data : List Nat) : SPS × AccErrEBSPReader :=
  readPictureFields (afterProfileFields data).1 (afterProfileFields data).2

/-- The function `ParseSPSNALUnit`: the pair of the `*SPS` (nil is `none`) and the
error (nil is `none`). -/
def ParseSPSNALUnit (data : List Nat) : Option SPS × Option SPSError :=
  let r := NewAccErrEBSPReader data
  let naluHdrBits := (r.Read 16).1
  let naluType := GetNaluType ((naluHdrBits >>> 8) % 256)
  if naluType ≠ NALU_SPS then (none, some (.notSPS naluType))
  else
    let a := afterProfileFields data
    if a.1.MaxSubLayersMinus1 ≠ 0 then (some a.1, none)
    else
      let b := afterOrderingFlag data
      let c := readOrderingInfos b.1 b.2
      let d := readBlockSizes c.1 c.2
      let e := readScalingList d.1 d.2
      (some e.1, e.2.map SPSError.bitReader)

namespace SPS

/-- Method `ImageSize`, in 32-bit unsigned arithmetic. -/
def ImageSize (s : SPS) : Nat × Nat :=
  let encWidth := s.PicWidthInLumaSamples
  let encHeight := s.PicHeightInLumaSamples
  let subWidthC := if s.ChromaFormatIDC = 1 then 2 else if s.ChromaFormatIDC = 2 then 2 else 1
  let subHeightC := if s.ChromaFormatIDC = 1 then 2 else 1
  let width := (encWidth + 2 ^ 32 -
    (s.ConformanceWindow.LeftOffset + s.ConformanceWindow.RightOffset) % 2 ^ 32 * subWidthC
      % 2 ^ 32) % 2 ^ 32
  let height := (encHeight + 2 ^ 32 -
    (s.ConformanceWindow.TopOffset + s.ConformanceWindow.BottomOffset) % 2 ^ 32 * subHeightC
      % 2 ^ 32) % 2 ^ 32
  (width, height)

end SPS

end Hevc

namespace Hevc

namespace SPS

/-- The fields after `LongTermRefPicsPresentFlag` have their zero values. -/
def zeroAfterLongTerm (s : SPS) : Prop :=
  s.SpsTemporalMvpEnabledFlag = false ∧ s.StrongIntraSmoothingEnabledFlag = false ∧
    s.VUIParametersPresentFlag = false ∧ s.VUIParameters = none

/-- The fields after `NumShortTermRefPicSets` have their zero values. -/
def zeroAfterShortTerm (s : SPS) : Prop :=
  s.LongTermRefPicsPresentFlag = false ∧ s.zeroAfterLongTerm

/-- The fields after `PCMEnabledFlag` have their zero values. -/
def zeroAfterPCM (s : SPS) : Prop :=
  s.NumShortTermRefPicSets = 0 ∧ s.zeroAfterShortTerm

/-- The fields after `ScalingListDataPresentFlag` have their zero values. -/
def zeroAfterScalingList (s : SPS) : Prop :=
  s.AmpEnabledFlag = false ∧ s.SampleAdaptiveOffsetEnabledFlag = false ∧
    s.PCMEnabledFlag = false ∧ s.zeroAfterPCM

/-- The fields after `ProfileTierLevel` have their zero values; the list of
ordering infos is empty. -/
def zeroAfterProfile (s : SPS) : Prop :=
  s.SpsID = 0 ∧ s.ChromaFormatIDC = 0 ∧ s.SeparateColourPlaneFlag = false ∧
    s.ConformanceWindowFlag = false ∧ s.PicWidthInLumaSamples = 0 ∧
    s.PicHeightInLumaSamples = 0 ∧ s.ConformanceWindow = {} ∧ s.BitDepthLumaMinus8 = 0 ∧
    s.BitDepthChromaMinus8 = 0 ∧ s.Log2MaxPicOrderCntLsbMinus4 = 0 ∧
    s.SubLayerOrderingInfoPresentFlag = false ∧ s.SubLayeringOrderingInfos = [] ∧
    s.Log2MinLumaCodingBlockSizeMinus3 = 0 ∧ s.Log2DiffMaxMinLumaCodingBlockSize = 0 ∧
    s.Log2MinLumaTransformBlockSizeMinus2 = 0 ∧ s.Log2DiffMaxMinLumaTransformBlockSize = 0 ∧
    s.MaxTransformHierarchyDepthInter = 0 ∧ s.MaxTransformHierarchyDepthIntra = 0 ∧
    s.ScalingListEnabledFlag = false ∧ s.ScalingListDataPresentFlag = false ∧
    s.zeroAfterScalingList

end SPS

/-- An SPS NAL unit of 27 bytes with the scaling-list-enabled and the
scaling-list-data-present flag set. -/
def scalingListNalu : List Nat :=
  [66, 1, 1, 1, 96, 96, 96, 96, 144, 144, 144, 144, 144, 144, 93, 160, 3, 192, 128, 17, 7, 203,
   150, 87, 146, 79, 248]

/-- The structure that `ParseSPSNALUnit` returns for `scalingListNalu`. -/
def scalingListSPS : SPS :=
  { TemporalIDNestingFlag := true,
    ProfileTierLevel :=
      { GeneralProfileIDC := 1, GeneralProfileCompatibilityFlags := 1616928864,
        GeneralConstraintIndicatorFlags := 158950575083664, GeneralLevelIDC := 93 },
    ChromaFormatIDC := 1,
    ConformanceWindowFlag := true,
    PicWidthInLumaSamples := 1920,
    PicHeightInLumaSamples := 1088,
    ConformanceWindow := { BottomOffset := 4 },
    Log2MaxPicOrderCntLsbMinus4 := 4,
    SubLayerOrderingInfoPresentFlag := true,
    SubLayeringOrderingInfos := [{ MaxDecPicBufferingMinus1 := 4, MaxNumReorderPics := 2 }],
    Log2DiffMaxMinLumaCodingBlockSize := 3,
    Log2DiffMaxMinLumaTransformBlockSize := 3,
    ScalingListEnabledFlag := true,
    ScalingListDataPresentFlag := true }

/-- An SPS NAL unit of 37 bytes with VUI parameters whose timing-info-present
flag is clear and is followed by the bits of two non-zero 32-bit values. -/
def timingNalu : List Nat :=
  [66, 1, 1, 1, 96, 96, 96, 96, 144, 144, 144, 144, 144, 144, 93, 160, 3, 192, 128, 17, 7, 203,
   150, 87, 146, 76, 174, 0, 17, 34, 51, 68, 85, 102, 119, 136, 64]

/-- An SPS NAL unit cut after its third byte, with sub-layer count minus one 1. -/
def cutNalu : List Nat := [66, 1, 2]

/-- The chroma subsampling factors (horizontal, vertical) as the spec words them:
format 1 (4:2:0) scales both axes by 2, format 2 (4:2:2) only the horizontal
axis, every other format none. -/
def chromaFactors (chromaFormatIDC : Nat) : Nat × Nat :=
  if chromaFormatIDC = 1 then (2, 2)
  else if chromaFormatIDC = 2 then (2, 1)
  else (1, 1)

end Hevc

/-- A table with an entry of duration 0, an entry of count 0 and an ordinary
entry: (count 2, duration 0), (count 0, duration 5), (count 3, duration 10). -/
def zeroEntryTable : SttsBox :=
  { Version := 0, Flags := 0, SampleCount := [2, 0, 3], SampleTimeDelta := [0, 5, 10] }

/-! ## Facts about the reference notions -/

theorem sampleDurations_cons (c d : Nat) (cs ds : List Nat) :
    sampleDurations (c :: cs) (d :: ds) = List.replicate c d ++ sampleDurations cs ds := rfl

theorem elapsed_cons_le (c d : Nat) (cs ds : List Nat) (k : Nat) (h : k ≤ c) :
    elapsed (c :: cs) (d :: ds) k = k * d := by
  unfold elapsed
  rw [sampleDurations_cons, List.take_append_of_le_length (by simpa using h)]
  simp [List.take_replicate, Nat.min_eq_left h]

theorem elapsed_cons_ge (c d : Nat) (cs ds : List Nat) (k : Nat) (h : c ≤ k) :
    elapsed (c :: cs) (d :: ds) k = c * d + elapsed cs ds (k - c) := by
  unfold elapsed
  rw [sampleDurations_cons, List.take_append_eq_append_take]
  simp [List.take_replicate, Nat.min_eq_right h]

theorem elapsed_nil_left (ds : List Nat) (k : Nat) : elapsed [] ds k = 0 := by
  simp [elapsed, sampleDurations]

theorem elapsed_nil_right (cs : List Nat) (k : Nat) : elapsed cs [] k = 0 := by
  cases cs <;> simp [elapsed, sampleDurations]

/-! ## Sample lookups at the example table and at sample number 0 -/

/-- C9 (as stated, refuted): on the table [(3,10),(2,20)] the call
`GetSampleNrAtTime(50)` does not fail with the not-found error. -/
theorem C9_counterexample :
    ¬ (exampleTable.GetSampleNrAtTime 50 = .error (.noMatchingSample 50)) := by
  decide

/-- C9 (amended): on the table [(3,10),(2,20)] the call `GetSampleNrAtTime(50)`
returns sample number 5 and no error; the not-found error is returned exactly for
the times from 70, the total duration, on. -/
theorem C9_example_table_time_50 :
    exampleTable.GetSampleNrAtTime 50 = .ok 5 ∧
      ∀ t, (exampleTable.GetSampleNrAtTime t = .error (.noMatchingSample t) ↔ 70 ≤ t) := by
  refine ⟨by decide, fun t => ?_⟩
  simp only [SttsBox.GetSampleNrAtTime, exampleTable, SttsBox.sampleNrLoop]
  norm_num
  split_ifs <;> simp <;> omega

/-- C10 (the code at sample number 0): `GetDur` and `GetDecodeTime` panic on every
table, but `GetTimeCode(0, 1)` on the table [(3,10),(2,20)] returns 70 s: its
`sample--` wraps to 2^32-1 and no check precedes it. -/
theorem C10_sample_zero :
    (∀ b : SttsBox, b.GetDur 0 = .panic .zeroSampleNr) ∧
    (∀ b : SttsBox, b.GetDecodeTime 0 = .panic .zeroSampleNr) ∧
    exampleTable.GetTimeCode 0 1 = .ok 70000000000 := by
  refine ⟨fun b => by simp [SttsBox.GetDur], fun b => by simp [SttsBox.GetDecodeTime], by decide⟩

/-- C5 (the code at an entry whose count * duration reaches 2^32): for sample
65537 of `wideTable` the code returns decode time 0, the durations of the samples
1..65536 sum to 4294967296. -/
theorem C5_decode_time_wraps :
    wideTable.GetDecodeTime 65537 = .ok (0, 1) ∧
      wideTable.startTime 65537 = 4294967296 ∧
      1 ≤ 65537 ∧ 65537 ≤ wideTable.nrSamples := by
  refine ⟨by decide, ?_, by decide, by decide⟩
  simp only [SttsBox.startTime, wideTable]
  rw [elapsed_cons_ge _ _ _ _ _ (by norm_num)]
  norm_num [elapsed_cons_le]

/-! ## `GetDur` -/

theorem sum_take_mono (l : List Nat) {i j : Nat} (h : i ≤ j) :
    (l.take i).sum ≤ (l.take j).sum := by
  induction l generalizing i j with
  | nil => simp
  | cons a l ih =>
    cases i with
    | zero => simp
    | succ i =>
      cases j with
      | zero => omega
      | succ j =>
        simp only [List.take_succ_cons, List.sum_cons]
        have := ih (Nat.le_of_succ_le_succ h)
        omega

theorem durLoop_owner (cs : List Nat) :
    ∀ (ds : List Nat) (k dur0 : Nat), cs.length = ds.length → k < cs.sum →
      ∃ i d, ds[i]? = some d ∧ (cs.take i).sum ≤ k ∧ k < (cs.take (i + 1)).sum ∧
        SttsBox.durLoop cs ds k dur0 = .ok d := by
  induction cs with
  | nil => intro ds k dur0 _ hk; simp at hk
  | cons c cs ih =>
    intro ds k dur0 hlen hk
    cases ds with
    | nil => simp at hlen
    | cons d ds =>
      simp only [List.length_cons, Nat.add_right_cancel_iff] at hlen
      simp only [List.sum_cons] at hk
      by_cases hc : c ≤ k
      · obtain ⟨i, e, hi, h1, h2, h3⟩ := ih ds (k - c) d hlen (by omega)
        refine ⟨i + 1, e, by simpa using hi, ?_, ?_, ?_⟩
        · simp only [List.take_succ_cons, List.sum_cons]; omega
        · simp only [List.take_succ_cons, List.sum_cons]; omega
        · simp only [SttsBox.durLoop, ge_iff_le, hc, if_true]; exact h3
      · refine ⟨0, d, by simp, by simp, by simp; omega, ?_⟩
        simp only [SttsBox.durLoop, ge_iff_le, hc, if_false]

/-- C6: for a table with lists of equal length and a sample number `n` with
`1 ≤ n ≤ sum of counts`, `GetDur(n)` returns `SampleTimeDelta[i]` for an entry `i`
whose preceding counts sum to less than `n` and whose counts up to and including
`i` sum to at least `n`; that entry is the only one with this property. -/
theorem C6_GetDur_owning_entry (b : SttsBox) (n : Nat)
    (hlen : b.SampleCount.length = b.SampleTimeDelta.length)
    (h1 : 1 ≤ n) (hn : n ≤ b.SampleCount.sum) :
    ∃ i d, b.SampleTimeDelta[i]? = some d ∧ b.GetDur n = .ok d ∧
      (b.SampleCount.take i).sum < n ∧ n ≤ (b.SampleCount.take (i + 1)).sum ∧
      ∀ j, (b.SampleCount.take j).sum < n → n ≤ (b.SampleCount.take (j + 1)).sum → j = i := by
  obtain ⟨i, d, hi, h2, h3, h4⟩ :=
    durLoop_owner b.SampleCount b.SampleTimeDelta (n - 1) 0 hlen (by omega)
  refine ⟨i, d, hi, ?_, by omega, by omega, ?_⟩
  · have hn0 : n ≠ 0 := by omega
    simp only [SttsBox.GetDur, hn0, if_false]
    exact h4
  · intro j hj1 hj2
    rcases Nat.lt_trichotomy j i with hlt | heq | hgt
    · have := sum_take_mono b.SampleCount (show j + 1 ≤ i by omega)
      omega
    · exact heq
    · have := sum_take_mono b.SampleCount (show i + 1 ≤ j by omega)
      omega

/-- C6 at the table [(3,10),(2,20)] and sample 4. -/
theorem C6_GetDur_owning_entry_witness :
    ∃ i d, exampleTable.SampleTimeDelta[i]? = some d ∧ exampleTable.GetDur 4 = .ok d ∧
      (exampleTable.SampleCount.take i).sum < 4 ∧
      4 ≤ (exampleTable.SampleCount.take (i + 1)).sum ∧
      ∀ j, (exampleTable.SampleCount.take j).sum < 4 →
        4 ≤ (exampleTable.SampleCount.take (j + 1)).sum → j = i :=
  C6_GetDur_owning_entry exampleTable 4 (by decide) (by decide) (by decide)

/-! ## `GetSampleNrAtTime`: when it fails -/

theorem totalDuration_cons (c d : Nat) (cs ds : List Nat) :
    totalDuration (c :: cs) (d :: ds) = c * d + totalDuration cs ds := rfl

theorem totalDuration_nil_left (ds : List Nat) : totalDuration [] ds = 0 := by
  cases ds <;> rfl

theorem sampleNrLoop_total (cs : List Nat) :
    ∀ (ds : List Nat) (t acc nr : Nat), cs.length = ds.length →
      acc + totalDuration cs ds < 2 ^ 64 → acc ≤ t →
      (t < acc + totalDuration cs ds → ∃ n, SttsBox.sampleNrLoop cs ds t acc nr = .ok n) ∧
      (acc + totalDuration cs ds ≤ t →
        SttsBox.sampleNrLoop cs ds t acc nr = .error (.noMatchingSample t)) := by
  induction cs with
  | nil =>
    intro ds t acc nr _ _ hacc
    simp only [totalDuration_nil_left, Nat.add_zero, SttsBox.sampleNrLoop]
    exact ⟨fun h => by omega, fun _ => trivial⟩
  | cons c cs ih =>
    intro ds t acc nr hlen htot hacc
    cases ds with
    | nil => simp at hlen
    | cons d ds =>
      simp only [List.length_cons, Nat.add_right_cancel_iff] at hlen
      rw [totalDuration_cons] at htot ⊢
      have hP : c * d % 2 ^ 64 = c * d := Nat.mod_eq_of_lt (by omega)
      have hP2 : d * c % 2 ^ 64 = c * d := by rw [Nat.mul_comm]; exact hP
      have hA : (acc + c * d) % 2 ^ 64 = acc + c * d := Nat.mod_eq_of_lt (by omega)
      simp only [SttsBox.sampleNrLoop, hP, hP2, hA]
      by_cases hin : t < acc + c * d
      · have hd : d ≠ 0 := by
          rintro rfl
          simp at hin
          omega
        simp only [hin, if_true, hd, if_false]
        exact ⟨fun _ => ⟨_, rfl⟩, fun h => by omega⟩
      · simp only [hin, if_false]
        have := ih ds t (acc + c * d) ((nr + c) % 2 ^ 32) hlen (by omega) (by omega)
        simpa [Nat.add_assoc] using this

/-- C7 (as stated, refuted): on `hugeTable`, whose total duration exceeds 2^64,
`GetSampleNrAtTime(2^64-1)` returns the not-found error although the time is
below the total duration, the 64-bit accumulator having wrapped; and if the
total is read as that wrapped 64-bit sum, the time (2^32-1)^2 - 1 is not less
than it and yet the call returns no error. -/
theorem C7_counterexample :
    ¬ (hugeTable.GetSampleNrAtTime 18446744073709551615
          = .error (.noMatchingSample 18446744073709551615)
        ↔ hugeTable.total ≤ 18446744073709551615) ∧
    ¬ (hugeTable.GetSampleNrAtTime 18446744065119617024
          = .error (.noMatchingSample 18446744065119617024)
        ↔ hugeTable.total % 2 ^ 64 ≤ 18446744065119617024) := by
  decide

/-- C7 (amended): for a table with lists of equal length whose total duration
(the sum of count*duration over all entries) is below 2^64, and every time `t`,
`GetSampleNrAtTime(t)` returns the not-found error if and only if `t` is not less
than the total duration; for every smaller `t` it returns a sample number and no
error. -/
theorem C7_not_found_iff (b : SttsBox) (t : Nat)
    (hlen : b.SampleCount.length = b.SampleTimeDelta.length)
    (htot : b.total < 2 ^ 64) :
    (b.GetSampleNrAtTime t = .error (.noMatchingSample t) ↔ b.total ≤ t) ∧
      (t < b.total → ∃ n, b.GetSampleNrAtTime t = .ok n) := by
  have h := sampleNrLoop_total b.SampleCount b.SampleTimeDelta t 0 0 hlen
    (by simpa [SttsBox.total] using htot) (Nat.zero_le _)
  simp only [Nat.zero_add] at h
  refine ⟨⟨fun herr => ?_, fun hle => h.2 hle⟩, fun hlt => h.1 hlt⟩
  by_contra hcon
  obtain ⟨n, hn⟩ := h.1 (by simpa [SttsBox.total] using hcon)
  simp only [SttsBox.GetSampleNrAtTime] at herr
  rw [hn] at herr
  exact absurd herr (by simp)

/-- C7 (amended) at the table [(3,10),(2,20)] and time 69. -/
theorem C7_not_found_iff_witness :
    (exampleTable.GetSampleNrAtTime 69 = .error (.noMatchingSample 69)
        ↔ exampleTable.total ≤ 69) ∧
      (69 < exampleTable.total → ∃ n, exampleTable.GetSampleNrAtTime 69 = .ok n) :=
  C7_not_found_iff exampleTable 69 (by decide) (by decide)

/-! ## `GetSampleNrAtTime`: which sample it returns -/

theorem elapsed_mono (cs ds : List Nat) {i j : Nat} (h : i ≤ j) :
    elapsed cs ds i ≤ elapsed cs ds j :=
  sum_take_mono _ h

theorem ceil_div_facts (rel c d : Nat) (hd : 0 < d) (hrel : rel < c * d) :
    (rel % d = 0 → rel / d ≤ c ∧ rel = rel / d * d ∧ (1 ≤ rel / d → (rel / d - 1) * d < rel)) ∧
    (rel % d ≠ 0 → rel / d + 1 ≤ c ∧ rel ≤ (rel / d + 1) * d ∧ rel / d * d < rel) := by
  have hq : rel / d < c := (Nat.div_lt_iff_lt_mul hd).2 hrel
  have hdm : rel / d * d + rel % d = rel := by
    rw [Nat.mul_comm]; exact Nat.div_add_mod rel d
  have hm : rel % d < d := Nat.mod_lt _ hd
  constructor
  · intro h0
    refine ⟨by omega, by omega, fun h1 => ?_⟩
    obtain ⟨q, hq'⟩ : ∃ q, rel / d = q + 1 := ⟨rel / d - 1, by omega⟩
    rw [hq'] at hdm ⊢
    rw [Nat.add_mul] at hdm
    simp only [Nat.add_sub_cancel]
    omega
  · intro h0
    refine ⟨by omega, ?_, by omega⟩
    rw [Nat.add_mul]
    omega

theorem sampleNrLoop_offset (cs : List Nat) :
    ∀ (ds : List Nat) (t acc nr n : Nat), cs.length = ds.length → (∀ d ∈ ds, 0 < d) →
      acc + totalDuration cs ds < 2 ^ 64 → nr + cs.sum + 1 < 2 ^ 32 → acc ≤ t →
      SttsBox.sampleNrLoop cs ds t acc nr = .ok n →
      ∃ q, n = nr + q + 1 ∧ q ≤ cs.sum ∧ t ≤ acc + elapsed cs ds q ∧
        (1 ≤ q → acc + elapsed cs ds (q - 1) < t) := by
  induction cs with
  | nil =>
    intro ds t acc nr n _ _ _ _ _ h
    simp [SttsBox.sampleNrLoop] at h
  | cons c cs ih =>
    intro ds t acc nr n hlen hpos htot hnr hacc h
    cases ds with
    | nil => simp at hlen
    | cons d ds =>
      simp only [List.length_cons, Nat.add_right_cancel_iff] at hlen
      rw [totalDuration_cons] at htot
      simp only [List.sum_cons] at hnr
      have hd : 0 < d := hpos d (by simp)
      have hP : c * d % 2 ^ 64 = c * d := Nat.mod_eq_of_lt (by omega)
      have hP2 : d * c % 2 ^ 64 = c * d := by rw [Nat.mul_comm]; exact hP
      have hA : (acc + c * d) % 2 ^ 64 = acc + c * d := Nat.mod_eq_of_lt (by omega)
      simp only [SttsBox.sampleNrLoop, hP, hP2, hA] at h
      by_cases hin : t < acc + c * d
      · have hrelv : (t + 2 ^ 64 - acc) % 2 ^ 64 = t - acc := by
          have : t + 2 ^ 64 - acc = (t - acc) + 2 ^ 64 := by omega
          rw [this, Nat.add_mod_right]
          exact Nat.mod_eq_of_lt (by omega)
        have hd0 : d ≠ 0 := by omega
        simp only [hin, if_true, hd0, if_false, hrelv] at h
        have hfacts := ceil_div_facts (t - acc) c d hd (by omega)
        by_cases hrem : (t - acc) % d = 0
        · obtain ⟨h1, h2, h3⟩ := hfacts.1 hrem
          simp only [hrem, ne_eq, not_true_eq_false, if_false] at h
          have hq32 : (t - acc) / d % 2 ^ 32 = (t - acc) / d := Nat.mod_eq_of_lt (by omega)
          rw [hq32, Nat.mod_eq_of_lt (by omega)] at h
          refine ⟨(t - acc) / d, ?_, by simp only [List.sum_cons]; omega, ?_, fun hq1 => ?_⟩
          · exact (Res.ok.inj h).symm
          · rw [elapsed_cons_le _ _ _ _ _ h1]; omega
          · rw [elapsed_cons_le _ _ _ _ _ (by omega)]
            have := h3 hq1
            omega
        · obtain ⟨h1, h2, h3⟩ := hfacts.2 hrem
          simp only [ne_eq, hrem, not_false_eq_true, if_true] at h
          have hq64 : ((t - acc) / d + 1) % 2 ^ 64 = (t - acc) / d + 1 :=
            Nat.mod_eq_of_lt (by omega)
          have hq32 : ((t - acc) / d + 1) % 2 ^ 32 = (t - acc) / d + 1 :=
            Nat.mod_eq_of_lt (by omega)
          rw [hq64, hq32, Nat.mod_eq_of_lt (by omega)] at h
          refine ⟨(t - acc) / d + 1, ?_, by simp only [List.sum_cons]; omega, ?_, fun _ => ?_⟩
          · exact (Res.ok.inj h).symm
          · rw [elapsed_cons_le _ _ _ _ _ h1]; omega
          · rw [Nat.add_sub_cancel, elapsed_cons_le _ _ _ _ _ (by omega)]
            omega
      · simp only [hin, if_false] at h
        rw [Nat.mod_eq_of_lt (show nr + c < 2 ^ 32 by omega)] at h
        obtain ⟨q, hq1, hq2, hq3, hq4⟩ :=
          ih ds t (acc + c * d) (nr + c) n hlen (fun x hx => hpos x (by simp [hx]))
            (by omega) (by omega) (by omega) h
        refine ⟨c + q, by omega, by simp only [List.sum_cons]; omega, ?_, fun hq => ?_⟩
        · rw [elapsed_cons_ge _ _ _ _ _ (by omega), Nat.add_sub_cancel_left]; omega
        · by_cases hq0 : q = 0
          · subst hq0
            rw [elapsed_cons_le _ _ _ _ _ (by omega)]
            obtain ⟨c', rfl⟩ : ∃ c', c = c' + 1 := ⟨c - 1, by omega⟩
            simp only [Nat.add_zero, Nat.add_sub_cancel] at *
            rw [Nat.add_mul] at hin
            omega
          · rw [elapsed_cons_ge _ _ _ _ _ (by omega)]
            have := hq4 (by omega)
            have e : c + q - 1 - c = q - 1 := by omega
            rw [e]; omega

/-- C8 (as stated, refuted): on the table [(3,10),(2,20)], which has 5 samples,
`GetSampleNrAtTime(55)` succeeds and returns 6, a number that is no sample of
the table. -/
theorem C8_counterexample :
    exampleTable.GetSampleNrAtTime 55 = .ok 6 ∧ ¬ (6 ≤ exampleTable.nrSamples) := by
  decide

/-- C8 (amended): for a table with lists of equal length, all durations positive,
total duration below 2^64 and sample count N with N + 1 below 2^32, and every
time `t` for which `GetSampleNrAtTime(t)` succeeds, the returned number `n`
satisfies `1 ≤ n ≤ N + 1`, the start time of sample `n` (the sum of the durations
of samples 1..n-1; for n = N + 1 the total duration) is at least `t`, and every
sample numbered below `n` starts before `t`. -/
theorem C8_sample_at_or_after (b : SttsBox) (t n : Nat)
    (hlen : b.SampleCount.length = b.SampleTimeDelta.length)
    (hpos : ∀ d ∈ b.SampleTimeDelta, 0 < d)
    (htot : b.total < 2 ^ 64) (hnr : b.nrSamples + 1 < 2 ^ 32)
    (h : b.GetSampleNrAtTime t = .ok n) :
    1 ≤ n ∧ n ≤ b.nrSamples + 1 ∧ t ≤ b.startTime n ∧
      ∀ m, 1 ≤ m → m < n → b.startTime m < t := by
  obtain ⟨q, hq1, hq2, hq3, hq4⟩ :=
    sampleNrLoop_offset b.SampleCount b.SampleTimeDelta t 0 0 n hlen hpos
      (by simpa [SttsBox.total] using htot) (by simpa [SttsBox.nrSamples] using hnr)
      (Nat.zero_le _) h
  simp only [Nat.zero_add] at hq1 hq3 hq4
  subst hq1
  refine ⟨by omega, by simp only [SttsBox.nrSamples]; omega, ?_, fun m hm1 hm2 => ?_⟩
  · simpa [SttsBox.startTime] using hq3
  · have hmono := elapsed_mono b.SampleCount b.SampleTimeDelta (show m - 1 ≤ q - 1 by omega)
    have := hq4 (by omega)
    simp only [SttsBox.startTime]
    omega

/-- C8 (amended) at the table [(3,10),(2,20)] and time 25, answered with sample 4. -/
theorem C8_sample_at_or_after_witness :
    1 ≤ 4 ∧ 4 ≤ exampleTable.nrSamples + 1 ∧ 25 ≤ exampleTable.startTime 4 ∧
      ∀ m, 1 ≤ m → m < 4 → exampleTable.startTime m < 25 :=
  C8_sample_at_or_after exampleTable 25 4 (by decide) (by decide) (by decide) (by decide)
    (by decide)

/-! ## `SttsBox.Encode` and `DecodeStts` -/

theorem putUint32_length (v : Nat) : (putUint32 v).length = 4 := rfl

theorem beUint_putUint32 (v : Nat) (h : v < 2 ^ 32) : beUint (putUint32 v) = v := by
  simp only [beUint, putUint32, List.foldl]
  omega

theorem entryBytes_length (cs : List Nat) :
    ∀ ds : List Nat, cs.length = ds.length → (entryBytes cs ds).length = 8 * cs.length := by
  induction cs with
  | nil => intro ds _; simp [entryBytes]
  | cons c cs ih =>
    intro ds hlen
    cases ds with
    | nil => simp at hlen
    | cons d ds =>
      simp only [List.length_cons, Nat.add_right_cancel_iff] at hlen
      simp only [entryBytes, List.length_append, putUint32_length, ih ds hlen, List.length_cons]
      omega

theorem goSlice_append (pre xs rest : List Nat) (lo hi : Nat)
    (hlo : lo = pre.length) (hhi : hi = pre.length + xs.length) :
    goSlice (pre ++ (xs ++ rest)) lo hi = some xs := by
  subst hlo hhi
  have hc : pre.length ≤ pre.length + xs.length ∧
      pre.length + xs.length ≤ (pre ++ (xs ++ rest)).length := by
    simp only [List.length_append]; omega
  simp only [goSlice, hc, and_self, if_true, Nat.add_sub_cancel_left]
  simp

theorem write_ok (sw : SliceWriter) (bs : List Nat)
    (h : sw.written.length + bs.length ≤ sw.cap) :
    sw.write bs = .ok { written := sw.written ++ bs, cap := sw.cap } := by
  simp [SliceWriter.write, h]

theorem encodeLoop_ok (cs : List Nat) :
    ∀ (ds : List Nat) (sw : SliceWriter), cs.length = ds.length →
      sw.written.length + 8 * cs.length ≤ sw.cap →
      SttsBox.encodeLoop cs ds sw =
        .ok { written := sw.written ++ entryBytes cs ds, cap := sw.cap } := by
  induction cs with
  | nil => intro ds sw _ _; simp [SttsBox.encodeLoop, entryBytes]
  | cons c cs ih =>
    intro ds sw hlen hcap
    cases ds with
    | nil => simp at hlen
    | cons d ds =>
      simp only [List.length_cons, Nat.add_right_cancel_iff] at hlen
      simp only [List.length_cons] at hcap
      simp only [SttsBox.encodeLoop, SliceWriter.WriteUint32]
      rw [write_ok _ _ (by simp only [putUint32_length]; omega)]
      simp only [Res.bind]
      rw [write_ok _ _ (by simp only [List.length_append, putUint32_length]; omega)]
      simp only [Res.bind]
      rw [ih ds _ hlen (by simp only [List.length_append, putUint32_length]; omega)]
      simp [entryBytes]

theorem decodeSttsLoop_entries (arr spare : List Nat) (cs : List Nat) :
    ∀ (ds pre : List Nat) (i : Nat) (b0 : SttsBox), cs.length = ds.length →
      (∀ c ∈ cs, c < 2 ^ 32) → (∀ d ∈ ds, d < 2 ^ 32) →
      arr = pre ++ (entryBytes cs ds ++ spare) → pre.length = 8 + 8 * i →
      decodeSttsLoop arr cs.length i b0 =
        .ok { b0 with SampleCount := b0.SampleCount ++ cs,
                      SampleTimeDelta := b0.SampleTimeDelta ++ ds } := by
  induction cs with
  | nil =>
    intro ds pre i b0 hlen _ _ _ _
    cases ds with
    | nil => simp [decodeSttsLoop]
    | cons d ds => simp at hlen
  | cons c cs ih =>
    intro ds pre i b0 hlen hc hd harr hpre
    cases ds with
    | nil => simp at hlen
    | cons d ds =>
      simp only [List.length_cons, Nat.add_right_cancel_iff] at hlen
      have h1 : goSlice arr (8 + 8 * i) (12 + 8 * i) = some (putUint32 c) := by
        rw [harr]
        simp only [entryBytes, List.append_assoc]
        exact goSlice_append pre (putUint32 c) _ _ _ (by omega)
          (by simp only [putUint32_length]; omega)
      have h2 : goSlice arr (12 + 8 * i) (16 + 8 * i) = some (putUint32 d) := by
        rw [harr]
        simp only [entryBytes, List.append_assoc]
        rw [← List.append_assoc pre (putUint32 c)]
        exact goSlice_append (pre ++ putUint32 c) (putUint32 d) _ _ _
          (by simp only [List.length_append, putUint32_length]; omega)
          (by simp only [List.length_append, putUint32_length]; omega)
      simp only [List.length_cons, decodeSttsLoop, h1, h2]
      rw [ih ds (pre ++ (putUint32 c ++ putUint32 d)) (i + 1) _ hlen
        (fun x hx => hc x (by simp [hx])) (fun x hx => hd x (by simp [hx]))
        (by rw [harr]; simp [entryBytes])
        (by simp only [List.length_append, putUint32_length]; omega)]
      simp [beUint_putUint32 c (hc c (by simp)), beUint_putUint32 d (hd d (by simp))]

/-- C4 (as stated, refuted): `flagBox` has a byte `Version` and a 32-bit `Flags`,
yet decoding what `Encode` writes returns `Version` 1 and `Flags` 0: the flags
share the 4-byte word with the version and only their low 24 bits are read back. -/
theorem C4_counterexample :
    flagBox.WellTyped ∧
    flagBox.Encode.bind (fun bytes => DecodeStts (bytes.drop boxHeaderSize) [])
      = .ok { flagBox with Version := 1, Flags := 0 } ∧
    ¬ (flagBox.Encode.bind (fun bytes => DecodeStts (bytes.drop boxHeaderSize) [])
      = .ok flagBox) := by
  refine ⟨?_, by decide, by decide⟩
  simp [SttsBox.WellTyped, flagBox]

theorem SttsBox.Size_eq (b : SttsBox) (hn : b.SampleCount.length < 2 ^ 32) :
    b.Size = 16 + 8 * b.SampleCount.length := by
  simp only [SttsBox.Size, boxHeaderSize]
  omega

theorem SttsBox.Encode_entries_eq (b : SttsBox)
    (hlen : b.SampleCount.length = b.SampleTimeDelta.length)
    (hn : b.SampleCount.length < 2 ^ 32) :
    b.Encode = .ok (EncodeHeader b.Size sttsType ++
      (putUint32 ((b.Version * 2 ^ 24 % 2 ^ 32 + b.Flags) % 2 ^ 32) ++
        (putUint32 (b.SampleCount.length % 2 ^ 32) ++
          entryBytes b.SampleCount b.SampleTimeDelta))) := by
  have hsz := SttsBox.Size_eq b hn
  simp only [SttsBox.Encode, NewSliceWriter, SliceWriter.WriteUint32, hsz, boxHeaderSize]
  rw [write_ok _ _ (by simp only [putUint32_length, List.length_nil]; omega)]
  simp only [Res.bind]
  rw [write_ok _ _ (by simp only [putUint32_length, List.length_append, List.length_nil]; omega)]
  simp only [Res.bind]
  rw [encodeLoop_ok _ _ _ hlen
    (by simp only [putUint32_length, List.length_append, List.length_nil]; omega)]
  simp only [Res.bind, SliceWriter.buf, List.length_append, putUint32_length, List.length_nil,
    entryBytes_length _ _ hlen, List.nil_append]
  have : 16 + 8 * b.SampleCount.length - 8 - (4 + 4 + 8 * b.SampleCount.length) = 0 := by omega
  simp [this]

theorem DecodeStts_payload (vf : Nat) (cs ds spare : List Nat) (hvf : vf < 2 ^ 32)
    (hlen : cs.length = ds.length) (hn : cs.length < 2 ^ 32)
    (hc : ∀ c ∈ cs, c < 2 ^ 32) (hd : ∀ d ∈ ds, d < 2 ^ 32) :
    DecodeStts (putUint32 vf ++ (putUint32 cs.length ++ entryBytes cs ds)) spare =
      .ok { Version := vf / 2 ^ 24 % 2 ^ 8, Flags := vf &&& flagsMask,
            SampleCount := cs, SampleTimeDelta := ds } := by
  have h1 : goSlice ((putUint32 vf ++ (putUint32 cs.length ++ entryBytes cs ds)) ++ spare) 0 4
      = some (putUint32 vf) := by
    have := goSlice_append [] (putUint32 vf) ((putUint32 cs.length ++ entryBytes cs ds) ++ spare)
      0 4 rfl rfl
    simpa using this
  have h2 : goSlice ((putUint32 vf ++ (putUint32 cs.length ++ entryBytes cs ds)) ++ spare) 4 8
      = some (putUint32 cs.length) := by
    have := goSlice_append (putUint32 vf) (putUint32 cs.length) (entryBytes cs ds ++ spare)
      4 8 rfl rfl
    simpa using this
  simp only [DecodeStts, h1, h2, beUint_putUint32 vf hvf, beUint_putUint32 cs.length hn]
  rw [decodeSttsLoop_entries _ spare cs ds (putUint32 vf ++ putUint32 cs.length) 0 _ hlen hc hd
    (by simp) (by simp [putUint32_length])]
  simp

/-- C4 (amended): for an `SttsBox` with `Version` a byte, `Flags` a 24-bit value,
32-bit entries, lists of equal length and fewer than 2^32 entries, `Encode`
succeeds and `DecodeStts`, applied to the bytes written after the 8-byte header
(whatever the spare capacity of the buffer holds), returns a box with the same
`Version`, `Flags`, `SampleCount` and `SampleTimeDelta`. -/
theorem C4_stts_roundtrip (b : SttsBox) (spare : List Nat)
    (hv : b.Version < 2 ^ 8) (hf : b.Flags < 2 ^ 24)
    (hc : ∀ c ∈ b.SampleCount, c < 2 ^ 32) (hd : ∀ d ∈ b.SampleTimeDelta, d < 2 ^ 32)
    (hlen : b.SampleCount.length = b.SampleTimeDelta.length)
    (hn : b.SampleCount.length < 2 ^ 32) :
    ∃ bytes, b.Encode = .ok bytes ∧
      DecodeStts (bytes.drop boxHeaderSize) spare = .ok b := by
  refine ⟨_, SttsBox.Encode_entries_eq b hlen hn, ?_⟩
  have hdrop : ∀ rest : List Nat,
      (EncodeHeader b.Size sttsType ++ rest).drop boxHeaderSize = rest := by
    intro rest
    have hl : (EncodeHeader b.Size sttsType).length = boxHeaderSize := rfl
    rw [← hl, List.drop_left]
  have hvf : (b.Version * 2 ^ 24 % 2 ^ 32 + b.Flags) % 2 ^ 32 = b.Version * 2 ^ 24 + b.Flags := by
    omega
  rw [hdrop, hvf, Nat.mod_eq_of_lt hn,
    DecodeStts_payload _ _ _ spare (by omega) hlen hn hc hd]
  have e1 : (b.Version * 2 ^ 24 + b.Flags) / 2 ^ 24 % 2 ^ 8 = b.Version := by omega
  have e2 : (b.Version * 2 ^ 24 + b.Flags) &&& flagsMask = b.Flags := by
    have := Nat.and_pow_two_sub_one_eq_mod (b.Version * 2 ^ 24 + b.Flags) 24
    simp only [flagsMask]
    norm_num at this ⊢
    omega
  rw [e1, e2]

/-- C4 (amended) at the table [(3,10),(2,20)] with an empty spare capacity. -/
theorem C4_stts_roundtrip_witness :
    ∃ bytes, exampleTable.Encode = .ok bytes ∧
      DecodeStts (bytes.drop boxHeaderSize) [] = .ok exampleTable :=
  C4_stts_roundtrip exampleTable [] (by decide) (by decide) (by decide) (by decide)
    (by decide) (by decide)


/-! ## `Size` and the number of bytes `Encode` writes -/

theorem bind_ok_inv {α γ : Type} {r : Res α} {f : α → Res γ} {x : γ}
    (h : r.bind f = .ok x) : ∃ a, r = .ok a ∧ f a = .ok x := by
  cases r with
  | ok a => exact ⟨a, rfl, h⟩
  | error e => simp [Res.bind] at h
  | panic p => simp [Res.bind] at h

theorem write_inv {sw sw1 : SliceWriter} {bs : List Nat} (h : sw.write bs = .ok sw1) :
    sw1.cap = sw.cap ∧ sw1.written = sw.written ++ bs ∧ sw1.written.length ≤ sw.cap := by
  unfold SliceWriter.write at h
  split_ifs at h with hc
  cases h
  exact ⟨rfl, rfl, by simpa using hc⟩

theorem encodeLoop_inv (cs : List Nat) :
    ∀ (ds : List Nat) (sw sw1 : SliceWriter), sw.written.length ≤ sw.cap →
      SttsBox.encodeLoop cs ds sw = .ok sw1 →
      sw1.cap = sw.cap ∧ sw1.written.length ≤ sw1.cap := by
  induction cs with
  | nil =>
    intro ds sw sw1 hle h
    simp only [SttsBox.encodeLoop] at h
    cases h
    exact ⟨rfl, hle⟩
  | cons c cs ih =>
    intro ds sw sw1 hle h
    cases ds with
    | nil =>
      simp only [SttsBox.encodeLoop] at h
      obtain ⟨a, _, h2⟩ := bind_ok_inv h
      cases h2
    | cons d ds =>
      simp only [SttsBox.encodeLoop, SliceWriter.WriteUint32] at h
      obtain ⟨a1, h1, h⟩ := bind_ok_inv h
      obtain ⟨a2, h2, h⟩ := bind_ok_inv h
      obtain ⟨c1, _, l1⟩ := write_inv h1
      obtain ⟨c2, _, l2⟩ := write_inv h2
      obtain ⟨c3, l3⟩ := ih ds a2 sw1 (by omega) h
      exact ⟨by omega, l3⟩

theorem SttsBox.Encode_length (b : SttsBox) (bytes : List Nat) (h : b.Encode = .ok bytes) :
    bytes.length = b.Size := by
  simp only [SttsBox.Encode, SliceWriter.WriteUint32] at h
  obtain ⟨a1, h1, h⟩ := bind_ok_inv h
  obtain ⟨a2, h2, h⟩ := bind_ok_inv h
  obtain ⟨a3, h3, h⟩ := bind_ok_inv h
  obtain ⟨c1, w1, l1⟩ := write_inv h1
  obtain ⟨c2, w2, l2⟩ := write_inv h2
  obtain ⟨c3, l3⟩ := encodeLoop_inv _ _ _ _ (by omega) h3
  cases h
  have hw : a1.written.length = 4 := by rw [w1]; rfl
  have hcap : (NewSliceWriter b.Size).cap = b.Size - 8 := rfl
  have hh : (EncodeHeader b.Size sttsType).length = 8 := rfl
  simp only [List.length_append, SliceWriter.buf, List.length_replicate, hh]
  omega

theorem foldl_add_mod {β : Type} (f : β → Nat) (M : Nat) (cs : List β) :
    ∀ a, (cs.foldl (fun acc c => (acc + f c) % M) a) % M = (a + (cs.map f).sum) % M := by
  induction cs with
  | nil => intro a; simp
  | cons c cs ih =>
    intro a
    simp only [List.foldl_cons, List.map_cons, List.sum_cons]
    rw [ih, Nat.mod_add_mod, Nat.add_assoc]

theorem foldl_add_mod_lt {β : Type} (f : β → Nat) (M : Nat) (cs : List β) :
    ∀ a, a < M → cs.foldl (fun acc c => (acc + f c) % M) a < M := by
  induction cs with
  | nil => intro a h; simpa using h
  | cons c cs ih =>
    intro a h
    simp only [List.foldl_cons]
    exact ih _ (Nat.mod_lt _ (by omega))

theorem StppBox.Size_lt {β : Type} (P : Package β) (b : StppBox β) : b.Size P < 2 ^ 64 := by
  unfold StppBox.Size
  apply foldl_add_mod_lt
  split_ifs <;> exact Nat.mod_lt _ (by norm_num)

theorem StppBox.Size_mod {β : Type} (P : Package β) (b : StppBox β) :
    b.Size P = (8 + b.prefixLength + (b.Children.map P.Size).sum) % 2 ^ 64 := by
  rw [← Nat.mod_eq_of_lt (StppBox.Size_lt P b)]
  unfold StppBox.Size
  rw [foldl_add_mod]
  simp only [StppBox.prefixLength, boxHeaderSize]
  split_ifs <;> omega

theorem encodeChildren_inv {β : Type} (P : Package β) (cs : List β) :
    ∀ (out res : List Nat),
      (∀ c ∈ cs, ∀ bs, P.Encode c = .ok bs → bs.length = P.Size c) →
      StppBox.encodeChildren P cs out = .ok res →
      res.length = out.length + (cs.map P.Size).sum ∧ out <+: res := by
  induction cs with
  | nil =>
    intro out res _ h
    simp only [StppBox.encodeChildren] at h
    cases h
    simp
  | cons c cs ih =>
    intro out res hc h
    simp only [StppBox.encodeChildren] at h
    obtain ⟨bs, h1, h⟩ := bind_ok_inv h
    obtain ⟨h2, h3⟩ := ih _ _ (fun x hx => hc x (by simp [hx])) h
    have := hc c (by simp) bs h1
    refine ⟨?_, (List.prefix_append out bs).trans h3⟩
    simp only [List.length_append, List.map_cons, List.sum_cons] at h2 ⊢
    omega

theorem StppBox.Encode_inv {β : Type} (P : Package β) (b : StppBox β) (bytes : List Nat)
    (hchildren : ∀ c ∈ b.Children, ∀ bs, P.Encode c = .ok bs → bs.length = P.Size c)
    (h : b.Encode P = .ok bytes) :
    bytes.length = 8 + b.prefixLength + (b.Children.map P.Size).sum ∧
      EncodeHeader (b.Size P) stppType <+: bytes := by
  simp only [StppBox.Encode, SliceWriter.WriteZeroBytes, SliceWriter.WriteUint16,
    SliceWriter.WriteString] at h
  obtain ⟨a1, h1, h⟩ := bind_ok_inv h
  obtain ⟨a2, h2, h⟩ := bind_ok_inv h
  obtain ⟨a3, h3, h⟩ := bind_ok_inv h
  obtain ⟨a4, h4, h⟩ := bind_ok_inv h
  obtain ⟨a5, h5, h⟩ := bind_ok_inv h
  obtain ⟨_, w1, _⟩ := write_inv h1
  obtain ⟨_, w2, _⟩ := write_inv h2
  obtain ⟨_, w3, _⟩ := write_inv h3
  have w4 : a4.written.length = a3.written.length +
      (if b.SchemaLocation ≠ [] then b.SchemaLocation.length + 1 else 0) := by
    split_ifs at h4 with hs
    · obtain ⟨_, w4, _⟩ := write_inv h4
      simp [w4, hs]
    · cases h4; simp [hs]
  have w5 : a5.written.length = a4.written.length +
      (if b.AuxiliaryMimeTypes ≠ [] then b.AuxiliaryMimeTypes.length + 1 else 0) := by
    split_ifs at h5 with hs
    · obtain ⟨_, w5, _⟩ := write_inv h5
      simp [w5, hs]
    · cases h5; simp [hs]
  obtain ⟨hl, hp⟩ := encodeChildren_inv P _ _ _ hchildren h
  have l3 : a3.written.length = 8 + (b.Namespace.length + 1) := by
    rw [w3, w2, w1]
    simp only [NewSliceWriter, putUint16, List.length_append, List.length_replicate,
      List.length_cons, List.length_nil]
  have hh : (EncodeHeader (b.Size P) stppType).length = 8 := rfl
  refine ⟨?_, (List.prefix_append _ _).trans hp⟩
  rw [hl]
  simp only [List.length_append, hh, StppBox.prefixLength]
  omega

/-- C2: when every child of an `StppBox` writes exactly its own `Size()` bytes, a
successful `Encode` of the box writes exactly `Size()` bytes in total, beginning
with the 8-byte header (the number of bytes written being a length below 2^64);
a successful `Encode` of an `SttsBox` writes exactly `Size()` bytes. -/
theorem C2_encode_writes_Size {β : Type} (P : Package β) (b : StppBox β) (s : SttsBox)
    (hchildren : ∀ c ∈ b.Children, ∀ bs, P.Encode c = .ok bs → bs.length = P.Size c) :
    (∀ bytes, b.Encode P = .ok bytes → bytes.length < 2 ^ 64 →
        bytes.length = b.Size P ∧ EncodeHeader (b.Size P) stppType <+: bytes) ∧
      (∀ sbytes, s.Encode = .ok sbytes → sbytes.length = s.Size) := by
  refine ⟨fun bytes hb hfit => ?_, fun sbytes hs => SttsBox.Encode_length s sbytes hs⟩
  obtain ⟨h1, h2⟩ := StppBox.Encode_inv P b bytes hchildren hb
  refine ⟨?_, h2⟩
  rw [StppBox.Size_mod, ← h1, Nat.mod_eq_of_lt hfit]

/-! ## `DecodeStpp` and the declared size -/

theorem takeWhile_zero_facts (l : List Nat) (h : 0 ∈ l) :
    (l.takeWhile (· ≠ 0)).length + 1 ≤ l.length ∧
    l.drop ((l.takeWhile (· ≠ 0)).length + 1) = (l.dropWhile (· ≠ 0)).drop 1 ∧
    ((l.takeWhile (· ≠ 0)) = [] ↔ l.head? = some 0) := by
  induction l with
  | nil => simp at h
  | cons a l ih =>
    by_cases ha : a = 0
    · subst ha; simp [List.takeWhile, List.dropWhile]
    · have h1 : 0 ∈ l := by
        rcases List.mem_cons.1 h with h | h
        · exact absurd h.symm ha
        · exact h
      obtain ⟨i1, i2, _⟩ := ih h1
      have e1 : List.takeWhile (fun x => decide (x ≠ 0)) (a :: l)
          = a :: List.takeWhile (fun x => decide (x ≠ 0)) l := by
        simp [List.takeWhile, ha]
      have e2 : List.dropWhile (fun x => decide (x ≠ 0)) (a :: l)
          = List.dropWhile (fun x => decide (x ≠ 0)) l := by
        simp [List.dropWhile, ha]
      rw [e1, e2]
      refine ⟨by simp only [List.length_cons]; omega, ?_, ?_⟩
      · simpa only [List.length_cons, List.drop_succ_cons] using i2
      · simp [ha]

theorem ReadZeroTerminatedString_inv {s s1 : SliceReader} {str : List Nat}
    (h : s.ReadZeroTerminatedString = .ok (str, s1)) :
    str = s.rest.takeWhile (· ≠ 0) ∧ s1.pos = s.pos + (str.length + 1) ∧
      s1.rest = (s.rest.dropWhile (· ≠ 0)).drop 1 ∧
      s1.rest.length + (str.length + 1) = s.rest.length ∧
      (str = [] ↔ s.rest.head? = some 0) := by
  unfold SliceReader.ReadZeroTerminatedString at h
  split_ifs at h with h0
  obtain ⟨f1, f2, f3⟩ := takeWhile_zero_facts s.rest h0
  simp only [Res.ok.injEq, Prod.mk.injEq] at h
  obtain ⟨rfl, rfl⟩ := h
  refine ⟨rfl, rfl, f2, ?_, f3⟩
  simp only [List.length_drop]
  omega

theorem StppBox.Size_AddChild {β : Type} (P : Package β) (b : StppBox β) (x : β) :
    (b.AddChild P x).Size P = (b.Size P + P.Size x) % 2 ^ 64 := by
  simp [StppBox.Size, StppBox.AddChild, List.foldl_append]

theorem decodeChildren_size {β : Type} (P : Package β) (endPos : Nat)
    (heof : ∀ pos d, P.DecodeBox pos d = .eof → d = [])
    (hbox : ∀ pos d c n, P.DecodeBox pos d = .box c n → ∃ x, c = some x ∧ P.Size x = n) :
    ∀ (fuel pos : Nat) (data : List Nat) (b b1 : StppBox β),
      (pos + data.length) % 2 ^ 64 = endPos → data.length < 2 ^ 64 →
      decodeChildren P endPos fuel pos data b = .ok b1 →
      b1.Size P = (b.Size P + data.length) % 2 ^ 64 := by
  intro fuel
  induction fuel with
  | zero => intro pos data b b1 _ _ h; simp [decodeChildren] at h
  | succ fuel ih =>
    intro pos data b b1 hinv hlen h
    have hlt := StppBox.Size_lt P b
    unfold decodeChildren at h
    cases hdb : P.DecodeBox pos data with
    | eof =>
      rw [hdb] at h
      simp only [Res.ok.injEq] at h
      subst h
      rw [heof pos data hdb]
      simp only [List.length_nil, Nat.add_zero]
      exact (Nat.mod_eq_of_lt hlt).symm
    | error e => rw [hdb] at h; simp at h
    | panic f => rw [hdb] at h; simp at h
    | box c n =>
      rw [hdb] at h
      obtain ⟨x, rfl, hx⟩ := hbox pos data c n hdb
      obtain ⟨hn0, hn1⟩ := P.consumes pos data _ n hdb
      have hsz := StppBox.Size_AddChild P b x
      simp only at h
      split_ifs at h with h1 h2
      · simp only [Res.ok.injEq] at h
        subst h
        rw [hsz, hx]
        omega
      · have hr := ih ((pos + P.Size x) % 2 ^ 64) (data.drop n) (b.AddChild P x) b1
          (by simp only [List.length_drop]; omega) (by simp only [List.length_drop]; omega) h
        rw [hr, hsz, hx]
        simp only [List.length_drop]
        omega

theorem StppBox.Size_no_children {β : Type} (P : Package β) (b : StppBox β)
    (h : b.Children = []) : b.Size P = (8 + b.prefixLength) % 2 ^ 64 := by
  rw [StppBox.Size_mod, h]
  simp

theorem optional_string_inv {γ : Type} (g : List Nat → γ) {s s1 : SliceReader} {b0 b1 : γ}
    (h : (if s.rest.length > 0 then
            s.ReadZeroTerminatedString.bind fun x => .ok (g x.1, x.2)
          else .ok (b0, s)) = .ok (b1, s1)) :
    (s.rest = [] ∧ b1 = b0 ∧ s1 = s) ∨
    (∃ str, s.rest ≠ [] ∧ b1 = g str ∧ s1.pos = s.pos + (str.length + 1) ∧
      s1.rest = (s.rest.dropWhile (· ≠ 0)).drop 1 ∧
      s1.rest.length + (str.length + 1) = s.rest.length ∧
      (str = [] ↔ s.rest.head? = some 0)) := by
  split_ifs at h with hl
  · obtain ⟨⟨str, s2⟩, h1, h2⟩ := bind_ok_inv h
    simp only [Res.ok.injEq, Prod.mk.injEq] at h2
    obtain ⟨rfl, rfl⟩ := h2
    obtain ⟨_, f2, f3, f4, f5⟩ := ReadZeroTerminatedString_inv h1
    exact Or.inr ⟨str, List.ne_nil_of_length_pos hl, rfl, f2, f3, f4, f5⟩
  · simp only [Res.ok.injEq, Prod.mk.injEq] at h
    obtain ⟨rfl, rfl⟩ := h
    exact Or.inl ⟨List.length_eq_zero.1 (by omega), rfl, rfl⟩

/-- C3 (amended): for an stpp header with `hdr.size = hdrSize` and a payload of
exactly `hdrSize - 8` bytes that `DecodeStpp` decodes successfully, `DecodeBox`
returning `io.EOF` only at the end of the input and otherwise a box whose
`Size()` is the number of bytes it read, the returned box's `Size()` plus one
byte for each optional string that the payload stores as an empty string equals
`hdrSize`. -/
theorem C3_decoded_size {β : Type} (P : Package β) (hdrSize startPos : Nat)
    (data : List Nat) (b : StppBox β)
    (hsize : hdrSize < 2 ^ 64) (hpayload : data.length + 8 = hdrSize)
    (heof : ∀ pos d, P.DecodeBox pos d = .eof → d = [])
    (hbox : ∀ pos d c n, P.DecodeBox pos d = .box c n → ∃ x, c = some x ∧ P.Size x = n)
    (hdec : DecodeStpp P hdrSize startPos data = .ok b) :
    b.Size P + emptyOptionalStrings data = hdrSize := by
  simp only [DecodeStpp, NewSliceReader, SliceReader.SkipBytes, SliceReader.NrRemainingBytes,
    SliceReader.GetPos, SliceReader.RemainingBytes, boxHeaderSize] at hdec
  obtain ⟨⟨dri, s1⟩, h1, hd1⟩ := bind_ok_inv hdec
  clear hdec
  simp only [SliceReader.ReadUint16] at h1
  split_ifs at h1 with hl
  simp only [Res.ok.injEq, Prod.mk.injEq] at h1
  obtain ⟨-, rfl⟩ := h1
  simp only [List.length_drop] at hl
  simp only at hd1
  obtain ⟨⟨ns, s2⟩, h2, hd2⟩ := bind_ok_inv hd1
  clear hd1
  simp only at hd2
  obtain ⟨⟨b3, s3⟩, h3, hd3⟩ := bind_ok_inv hd2
  clear hd2
  simp only at hd3
  obtain ⟨⟨b4, s4⟩, h4, hd4⟩ := bind_ok_inv hd3
  clear hd3
  simp only at hd4
  obtain ⟨_, p2, r2, l2, _⟩ := ReadZeroTerminatedString_inv h2
  simp only [List.drop_drop, List.length_drop] at p2 r2 l2
  have hr1 : ((data.drop 8).dropWhile (· ≠ 0)).drop 1 = s2.rest := r2.symm
  have key : b4.Children = [] ∧ s4.pos + s4.rest.length = data.length ∧
      b4.prefixLength + emptyOptionalStrings data = s4.pos := by
    simp only [emptyOptionalStrings, hr1, StppBox.prefixLength]
    rcases optional_string_inv
      (fun x => ({ Namespace := ns, SchemaLocation := x, AuxiliaryMimeTypes := [], Btrt := none,
                   Children := [], DataReferenceIndex := dri } : StppBox β)) h3
      with ⟨e3, hb3, hs3⟩ | ⟨sl, n3, hb3, p3, r3, l3, z3⟩ <;>
    rcases optional_string_inv (fun x => { b3 with AuxiliaryMimeTypes := x }) h4
      with ⟨e4, hb4, hs4⟩ | ⟨aux, n4, hb4, p4, r4, l4, z4⟩
    · subst hb4 hs4 hb3 hs3
      simp only [e3, List.length_nil] at l2 ⊢
      simp
      omega
    · subst hs3
      exact absurd e3 n4
    · subst hb4 hs4 hb3
      rw [← r3, e4]
      simp only [e4, List.length_nil] at l3
      by_cases hsl : sl = []
      · have := z3.1 hsl
        simp [hsl, this] at l3 p3 ⊢
        omega
      · have : ¬ (s2.rest.head? = some 0) := fun hh => hsl (z3.2 hh)
        simp [hsl, this] at l3 p3 ⊢
        omega
    · subst hb4 hb3
      rw [← r3]
      by_cases hsl : sl = [] <;> by_cases haux : aux = []
      · have t1 := z3.1 hsl
        have t2 := z4.1 haux
        simp [hsl, haux, t1, t2] at l3 p3 l4 p4 ⊢
        omega
      · have t1 := z3.1 hsl
        have t2 : ¬ (s3.rest.head? = some 0) := fun hh => haux (z4.2 hh)
        simp [hsl, haux, t1, t2] at l3 p3 l4 p4 ⊢
        omega
      · have t1 : ¬ (s2.rest.head? = some 0) := fun hh => hsl (z3.2 hh)
        have t2 := z4.1 haux
        simp [hsl, haux, t1, t2] at l3 p3 l4 p4 ⊢
        omega
      · have t1 : ¬ (s2.rest.head? = some 0) := fun hh => hsl (z3.2 hh)
        have t2 : ¬ (s3.rest.head? = some 0) := fun hh => haux (z4.2 hh)
        simp [hsl, haux, t1, t2] at l3 p3 l4 p4 ⊢
        omega
  obtain ⟨k1, k2, k3⟩ := key
  have hs := decodeChildren_size P _ heof hbox _ _ _ _ _ (by omega) (by omega) hd4
  rw [hs, StppBox.Size_no_children P b4 k1]
  omega

theorem decodeChildren_fuel {β : Type} (P : Package β) (endPos : Nat) :
    ∀ (f1 f2 pos : Nat) (data : List Nat) (b : StppBox β),
      data.length < f1 → data.length < f2 →
      decodeChildren P endPos f1 pos data b = decodeChildren P endPos f2 pos data b := by
  intro f1
  induction f1 with
  | zero => intro f2 pos data b h; omega
  | succ f1 ih =>
    intro f2 pos data b h1 h2
    obtain ⟨f2, rfl⟩ : ∃ f, f2 = f + 1 := ⟨f2 - 1, by omega⟩
    unfold decodeChildren
    cases hdb : P.DecodeBox pos data with
    | eof => rfl
    | error e => rfl
    | panic f => rfl
    | box c n =>
      obtain ⟨hn0, hn1⟩ := P.consumes pos data c n hdb
      simp only
      split_ifs
      · rfl
      · rfl
      · exact ih f2 _ _ _ (by simp only [List.length_drop]; omega)
          (by simp only [List.length_drop]; omega)

/-! ## `StppBox.Encode` followed by `DecodeStpp` -/

theorem ReadUint16_append (p v : Nat) (t : List Nat) (hv : v < 2 ^ 16) :
    SliceReader.ReadUint16 { pos := p, rest := putUint16 v ++ t } =
      .ok (v, { pos := p + 2, rest := t }) := by
  simp only [SliceReader.ReadUint16, putUint16, List.cons_append, List.nil_append,
    List.length_cons]
  have : 2 ≤ t.length + 1 + 1 := by omega
  simp only [this, if_true, List.take_succ_cons, List.take_zero, List.drop_succ_cons,
    List.drop_zero, beUint, List.foldl]
  congr 2
  omega

theorem takeWhile_append_zero (str t : List Nat) (h : 0 ∉ str) :
    (str ++ 0 :: t).takeWhile (· ≠ 0) = str := by
  induction str with
  | nil => simp
  | cons a str ih =>
    have ha : a ≠ 0 := fun e => h (by simp [e])
    have ht : 0 ∉ str := fun e => h (by simp [e])
    have e1 : List.takeWhile (fun x => decide (x ≠ 0)) (a :: (str ++ 0 :: t))
        = a :: List.takeWhile (fun x => decide (x ≠ 0)) (str ++ 0 :: t) := by
      simp [List.takeWhile, ha]
    rw [List.cons_append, e1, ih ht]

theorem ReadZeroTerminatedString_append (p : Nat) (str t : List Nat) (h : 0 ∉ str) :
    SliceReader.ReadZeroTerminatedString { pos := p, rest := str ++ 0 :: t } =
      .ok (str, { pos := p + (str.length + 1), rest := t }) := by
  have hm : 0 ∈ str ++ 0 :: t := by simp
  simp only [SliceReader.ReadZeroTerminatedString, hm, if_true, takeWhile_append_zero str t h]
  have : (str ++ 0 :: t).drop (str.length + 1) = t := by
    rw [← List.drop_drop, List.drop_left]
    rfl
  rw [this]

theorem DecodeStpp_prefix {β : Type} (P : Package β) (hdrSize startPos : Nat)
    (ns sl aux out : List Nat) (hns : 0 ∉ ns) (hsl : 0 ∉ sl) (haux : 0 ∉ aux)
    (hopt : (sl ≠ [] ∧ aux ≠ []) ∨ (aux = [] ∧ out = [])) :
    DecodeStpp P hdrSize startPos (prefixBytes ns sl aux ++ out) =
      decodeChildren P ((startPos + hdrSize) % 2 ^ 64) (out.length + 1)
        ((startPos + (8 + (8 + (ns.length + 1) + (optionalBytes sl).length +
          (optionalBytes aux).length))) % 2 ^ 64)
        out (NewStppBox ns sl aux) := by
  have hdata : prefixBytes ns sl aux ++ out = List.replicate 6 0 ++
      (putUint16 1 ++ (ns ++ 0 :: (optionalBytes sl ++ (optionalBytes aux ++ out)))) := by
    simp [prefixBytes]
  have hdrop : ∀ X : List Nat, (List.replicate 6 0 ++ X).drop 6 = X := by
    intro X
    exact List.drop_left' (by simp)
  simp only [DecodeStpp, NewSliceReader, SliceReader.SkipBytes, hdata, hdrop]
  rw [ReadUint16_append _ 1 _ (by norm_num)]
  simp only [Res.bind]
  rw [ReadZeroTerminatedString_append _ ns _ hns]
  simp only [Res.bind, SliceReader.NrRemainingBytes, SliceReader.GetPos,
    SliceReader.RemainingBytes, boxHeaderSize, NewStppBox]
  rcases hopt with ⟨h1, h2⟩ | ⟨h1, h2⟩
  · have e1 : optionalBytes sl ++ (optionalBytes aux ++ out) = sl ++ 0 :: (aux ++ 0 :: out) := by
      simp [optionalBytes, h1, h2]
    have l1 : (sl ++ 0 :: (aux ++ 0 :: out)).length > 0 := by simp
    have l2 : (aux ++ 0 :: out).length > 0 := by simp
    rw [e1]
    simp only [l1, if_true]
    rw [ReadZeroTerminatedString_append _ sl _ hsl]
    simp only [Res.bind, l2, if_true]
    rw [ReadZeroTerminatedString_append _ aux _ haux]
    simp only [Res.bind, optionalBytes, h1, h2, ne_eq, not_false_eq_true, if_true,
      List.length_append, List.length_cons, List.length_nil]
  · subst h1 h2
    by_cases h3 : sl = []
    · subst h3
      simp [optionalBytes]
    · have e1 : optionalBytes sl ++ (optionalBytes [] ++ []) = sl ++ 0 :: [] := by
        simp [optionalBytes, h3]
      have l1 : (sl ++ 0 :: ([] : List Nat)).length > 0 := by simp
      rw [e1]
      simp only [l1, if_true]
      rw [ReadZeroTerminatedString_append _ sl _ hsl]
      simp only [Res.bind, optionalBytes, h3, ne_eq, not_false_eq_true, if_true,
        List.length_append, List.length_cons, List.length_nil, not_true_eq_false, if_false,
        gt_iff_lt, Nat.lt_irrefl]
      congr 2

theorem children_roundtrip {β : Type} (P : Package β)
    (heof : ∀ pos, P.DecodeBox pos [] = .eof) (cs : List β) :
    (∀ c ∈ cs, ∃ bs, P.Encode c = .ok bs ∧ bs.length = P.Size c ∧
        ∀ pos rest, P.DecodeBox pos (bs ++ rest) = .box (some c) bs.length) →
    ∃ out, out.length = (cs.map P.Size).sum ∧ (out = [] → cs = []) ∧
      (∀ acc, StppBox.encodeChildren P cs acc = .ok (acc ++ out)) ∧
      ∀ (endPos fuel pos : Nat) (b : StppBox β), out.length < fuel →
        pos + out.length = endPos → endPos < 2 ^ 64 →
        decodeChildren P endPos fuel pos out b = .ok (cs.foldl (StppBox.AddChild P) b) := by
  induction cs with
  | nil =>
    intro _
    refine ⟨[], by simp, fun _ => rfl, fun acc => by simp [StppBox.encodeChildren], ?_⟩
    intro endPos fuel pos b hf _ _
    obtain ⟨f, rfl⟩ : ∃ f, fuel = f + 1 := ⟨fuel - 1, by simp at hf; omega⟩
    simp [decodeChildren, heof]
  | cons c cs ih =>
    intro h
    obtain ⟨bs, hb1, hb2, hb3⟩ := h c (by simp)
    obtain ⟨out, ho1, ho2, ho3, ho4⟩ := ih (fun x hx => h x (by simp [hx]))
    have hpos : 0 < bs.length := by
      have := (P.consumes 0 (bs ++ []) _ _ (hb3 0 [])).1
      exact this
    refine ⟨bs ++ out, ?_, ?_, ?_, ?_⟩
    · simp only [List.length_append, List.map_cons, List.sum_cons]; omega
    · intro hnil
      have : (bs ++ out).length = 0 := by rw [hnil]; rfl
      simp only [List.length_append] at this
      omega
    · intro acc
      simp only [StppBox.encodeChildren, hb1, Res.bind, ho3, List.append_assoc]
    · intro endPos fuel pos b hf hp he
      simp only [List.length_append] at hf hp
      obtain ⟨f, rfl⟩ : ∃ f, fuel = f + 1 := ⟨fuel - 1, by omega⟩
      have hp1 : (pos + P.Size c) % 2 ^ 64 = pos + bs.length := by
        rw [← hb2]; exact Nat.mod_eq_of_lt (by omega)
      simp only [decodeChildren, hb3, hp1, List.drop_left, List.foldl_cons]
      by_cases hend : pos + bs.length = endPos
      · have : out = [] := List.length_eq_zero.1 (by omega)
        simp [hend, ho2 this]
      · have hgt : ¬ (pos + bs.length > endPos) := by omega
        simp only [hend, if_false, hgt]
        exact ho4 endPos f (pos + bs.length) _ (by omega) (by omega) he

theorem foldl_AddChild_fields {β : Type} (P : Package β) (cs : List β) :
    ∀ b : StppBox β,
      (cs.foldl (StppBox.AddChild P) b).Namespace = b.Namespace ∧
      (cs.foldl (StppBox.AddChild P) b).SchemaLocation = b.SchemaLocation ∧
      (cs.foldl (StppBox.AddChild P) b).AuxiliaryMimeTypes = b.AuxiliaryMimeTypes ∧
      (cs.foldl (StppBox.AddChild P) b).DataReferenceIndex = b.DataReferenceIndex ∧
      (cs.foldl (StppBox.AddChild P) b).Children = b.Children ++ cs := by
  induction cs with
  | nil => intro b; simp
  | cons c cs ih =>
    intro b
    obtain ⟨h1, h2, h3, h4, h5⟩ := ih (b.AddChild P c)
    simp only [List.foldl_cons, h1, h2, h3, h4, h5]
    simp [StppBox.AddChild]

theorem optionalBytes_length (str : List Nat) :
    (optionalBytes str).length = if str ≠ [] then str.length + 1 else 0 := by
  unfold optionalBytes
  split_ifs <;> simp

theorem StppBox.Encode_prefix_eq {β : Type} (P : Package β) (b : StppBox β)
    (hdri : b.DataReferenceIndex = 1) (hcap : b.prefixLength ≤ b.Size P - 8) :
    b.Encode P = StppBox.encodeChildren P b.Children
      (EncodeHeader (b.Size P) stppType ++
        prefixBytes b.Namespace b.SchemaLocation b.AuxiliaryMimeTypes) := by
  simp only [StppBox.prefixLength] at hcap
  simp only [StppBox.Encode, SliceWriter.WriteZeroBytes, SliceWriter.WriteUint16,
    SliceWriter.WriteString, NewSliceWriter, boxHeaderSize, hdri]
  rw [write_ok _ _ (by simp only [List.length_nil, List.length_replicate]; omega)]
  simp only [Res.bind]
  rw [write_ok _ _ (by simp only [List.length_nil, List.length_replicate, List.nil_append,
    putUint16, List.length_cons]; omega)]
  simp only [Res.bind]
  rw [write_ok _ _ (by simp only [List.length_nil, List.length_replicate, List.nil_append,
    putUint16, List.length_cons, List.length_append]; omega)]
  simp only [Res.bind]
  by_cases h1 : b.SchemaLocation = [] <;> by_cases h2 : b.AuxiliaryMimeTypes = []
  · simp [h1, h2, Res.bind, prefixBytes, optionalBytes]
  · simp only [h1, h2, ne_eq, not_true_eq_false, not_false_eq_true, if_true, if_false,
      Res.bind] at hcap ⊢
    rw [write_ok _ _ (by simp only [List.length_nil, List.length_replicate, List.nil_append,
      putUint16, List.length_cons, List.length_append]; omega)]
    simp [h1, h2, Res.bind, prefixBytes, optionalBytes]
  · simp only [h1, h2, ne_eq, not_true_eq_false, not_false_eq_true, if_true, if_false,
      Res.bind] at hcap ⊢
    rw [write_ok _ _ (by simp only [List.length_nil, List.length_replicate, List.nil_append,
      putUint16, List.length_cons, List.length_append]; omega)]
    simp [h1, h2, Res.bind, prefixBytes, optionalBytes]
  · simp only [h1, h2, ne_eq, not_true_eq_false, not_false_eq_true, if_true, if_false,
      Res.bind] at hcap ⊢
    rw [write_ok _ _ (by simp only [List.length_nil, List.length_replicate, List.nil_append,
      putUint16, List.length_cons, List.length_append]; omega)]
    simp only [Res.bind]
    rw [write_ok _ _ (by simp only [List.length_nil, List.length_replicate, List.nil_append,
      putUint16, List.length_cons, List.length_append]; omega)]
    simp [h1, h2, Res.bind, prefixBytes, optionalBytes]

theorem decodeUnknown_roundtrip (b : UnknownBox) (hname : b.name.length = 4)
    (hsize : b.Size < 2 ^ 32) (pos : Nat) (rest : List Nat) :
    decodeUnknown pos (EncodeHeader b.Size b.name ++ b.payload ++ rest) =
      .box (some b) b.Size := by
  have hs : b.Size = 8 + b.payload.length := rfl
  have h4 : (putUint32 b.Size).length = 4 := rfl
  have hdata : EncodeHeader b.Size b.name ++ b.payload ++ rest =
      putUint32 b.Size ++ (b.name ++ (b.payload ++ rest)) := by
    have hm : b.Size % 2 ^ 32 = b.Size := Nat.mod_eq_of_lt hsize
    simp only [EncodeHeader, hm, List.append_assoc]
  have t4 : (putUint32 b.Size ++ (b.name ++ (b.payload ++ rest))).take 4 = putUint32 b.Size := by
    rw [← h4, List.take_left]
  have d4 : (putUint32 b.Size ++ (b.name ++ (b.payload ++ rest))).drop 4 =
      b.name ++ (b.payload ++ rest) := by
    rw [← h4, List.drop_left]
  have d8 : (putUint32 b.Size ++ (b.name ++ (b.payload ++ rest))).drop 8 =
      b.payload ++ rest := by
    have : (8 : Nat) = 4 + 4 := rfl
    rw [this, ← List.drop_drop, d4, ← hname, List.drop_left]
  have hl : (putUint32 b.Size ++ (b.name ++ (b.payload ++ rest))).length =
      8 + b.payload.length + rest.length := by
    simp only [List.length_append, h4, hname]; omega
  rw [hdata]
  simp only [decodeUnknown, boxHeaderSize, t4, d4, d8, hl, beUint_putUint32 _ hsize]
  have c1 : ¬ (8 + b.payload.length + rest.length = 0) := by omega
  have c2 : ¬ (8 + b.payload.length + rest.length < 8) := by omega
  have c3 : ¬ (b.Size < 8) := by omega
  have c4 : ¬ (8 + b.payload.length + rest.length < b.Size) := by omega
  simp only [c1, c2, c3, c4, if_false]
  have e1 : (b.name ++ (b.payload ++ rest)).take 4 = b.name := by
    rw [← hname, List.take_left]
  have e2 : (b.payload ++ rest).take (b.Size - 8) = b.payload := by
    rw [hs, Nat.add_sub_cancel_left, List.take_left]
  rw [e1, e2]

/-- C1 (as stated, refuted): the box `NewStppBox("ns", "", "aux")` is written
without its empty `SchemaLocation`, and `DecodeStpp` reads the bytes back as
`SchemaLocation = "aux"` with an empty `AuxiliaryMimeTypes`. -/
theorem C1_counterexample :
    (nsAux.Encode unknownPackage).bind
        (fun bytes => DecodeStpp unknownPackage (nsAux.Size unknownPackage) 0
          (bytes.drop boxHeaderSize))
      = .ok (NewStppBox [110, 115] [97, 117, 120] []) ∧
    ¬ ((nsAux.Encode unknownPackage).bind
        (fun bytes => DecodeStpp unknownPackage (nsAux.Size unknownPackage) 0
          (bytes.drop boxHeaderSize))
      = .ok nsAux) := by
  decide

/-- C1 (amended): let `b` be built by `NewStppBox(namespace, schemaLocation,
auxiliaryMimeTypes)` and `AddChild` calls, the three strings free of zero bytes,
and either both optional strings non-empty, or `auxiliaryMimeTypes` empty and no
child added.  If every child writes `Size()` bytes that `DecodeBox` reads back as
that child, `DecodeBox` returns `io.EOF` on an empty reader, and the box ends
below offset 2^64, then `Encode` succeeds and `DecodeStpp` (declared size
`Size()`, payload the bytes after the 8-byte header) returns `b` itself: the same
fields, the same children in the same order, the same `Size()`. -/
theorem C1_stpp_roundtrip {β : Type} (P : Package β) (ns sl aux : List Nat) (cs : List β)
    (startPos : Nat) (b : StppBox β)
    (hb : b = cs.foldl (StppBox.AddChild P) (NewStppBox ns sl aux))
    (hns : 0 ∉ ns) (hsl : 0 ∉ sl) (haux : 0 ∉ aux)
    (hopt : (sl ≠ [] ∧ aux ≠ []) ∨ (aux = [] ∧ cs = []))
    (heof : ∀ pos, P.DecodeBox pos [] = .eof)
    (hcs : ∀ c ∈ cs, ∃ bs, P.Encode c = .ok bs ∧ bs.length = P.Size c ∧
      ∀ pos rest, P.DecodeBox pos (bs ++ rest) = .box (some c) bs.length)
    (hfit : startPos + (8 + b.prefixLength + (cs.map P.Size).sum) < 2 ^ 64) :
    ∃ bytes, b.Encode P = .ok bytes ∧
      DecodeStpp P (b.Size P) startPos (bytes.drop boxHeaderSize) = .ok b := by
  obtain ⟨f1, f2, f3, f4, f5⟩ := foldl_AddChild_fields P cs (NewStppBox ns sl aux)
  rw [← hb] at f1 f2 f3 f4 f5
  simp only [NewStppBox, List.nil_append] at f1 f2 f3 f4 f5
  obtain ⟨out, ho1, ho2, ho3, ho4⟩ := children_roundtrip P heof cs hcs
  have hsz : b.Size P = 8 + b.prefixLength + (cs.map P.Size).sum := by
    rw [StppBox.Size_mod, f5]
    exact Nat.mod_eq_of_lt (by omega)
  have henc := StppBox.Encode_prefix_eq P b f4 (by omega)
  rw [f1, f2, f3, f5, ho3] at henc
  refine ⟨_, henc, ?_⟩
  have hdrop : (EncodeHeader (b.Size P) stppType ++ prefixBytes ns sl aux ++ out).drop
      boxHeaderSize = prefixBytes ns sl aux ++ out := by
    have hl : (EncodeHeader (b.Size P) stppType).length = boxHeaderSize := rfl
    rw [List.append_assoc, ← hl, List.drop_left]
  have hopt2 : (sl ≠ [] ∧ aux ≠ []) ∨ (aux = [] ∧ out = []) := by
    rcases hopt with h | ⟨h1, h2⟩
    · exact Or.inl h
    · refine Or.inr ⟨h1, List.length_eq_zero.1 ?_⟩
      rw [ho1, h2]; rfl
  rw [hdrop, DecodeStpp_prefix P _ _ ns sl aux out hns hsl haux hopt2]
  have hpl : b.prefixLength =
      8 + (ns.length + 1) + (optionalBytes sl).length + (optionalBytes aux).length := by
    simp only [StppBox.prefixLength, f1, f2, f3, optionalBytes_length]
  rw [← hpl]
  rw [Nat.mod_eq_of_lt (show startPos + b.Size P < 2 ^ 64 by omega),
    Nat.mod_eq_of_lt (show startPos + (8 + b.prefixLength) < 2 ^ 64 by omega)]
  rw [ho4 _ _ _ _ (by omega) (by omega) (by omega), hb]

/-! ## The package of opaque boxes meets the assumptions on `DecodeBox` -/

theorem decodeUnknown_eof (pos : Nat) (d : List Nat) (h : decodeUnknown pos d = .eof) :
    d = [] := by
  unfold decodeUnknown at h
  simp only at h
  split_ifs at h with h0
  exact List.length_eq_zero.1 h0

theorem decodeUnknown_box (pos : Nat) (d : List Nat) (c : Option UnknownBox) (n : Nat)
    (h : decodeUnknown pos d = .box c n) : ∃ x, c = some x ∧ unknownPackage.Size x = n := by
  unfold decodeUnknown at h
  simp only [boxHeaderSize] at h
  split_ifs at h with h0 h1 h2 h3
  simp only [BoxRead.box.injEq] at h
  obtain ⟨rfl, rfl⟩ := h
  refine ⟨_, rfl, ?_⟩
  simp only [unknownPackage, UnknownBox.Size, boxHeaderSize, List.length_take, List.length_drop]
  omega

theorem freeBox_children (c : UnknownBox) (hc : c ∈ [freeBox]) :
    ∃ bs, unknownPackage.Encode c = .ok bs ∧ bs.length = unknownPackage.Size c ∧
      ∀ pos rest, unknownPackage.DecodeBox pos (bs ++ rest) = .box (some c) bs.length := by
  have hc1 : c = freeBox := by simpa using hc
  subst hc1
  exact ⟨_, rfl, rfl, fun pos rest => decodeUnknown_roundtrip freeBox rfl (by decide) pos rest⟩

/-- C1 (amended) at the box `NewStppBox("ns", "s", "a")` with one opaque child,
decoded at start offset 100. -/
theorem C1_stpp_roundtrip_witness :
    ∃ bytes, oneChild.Encode unknownPackage = .ok bytes ∧
      DecodeStpp unknownPackage (oneChild.Size unknownPackage) 100 (bytes.drop boxHeaderSize)
        = .ok oneChild :=
  C1_stpp_roundtrip unknownPackage [110, 115] [115] [97] [freeBox] 100 oneChild rfl
    (by decide) (by decide) (by decide) (Or.inl ⟨by decide, by decide⟩) (fun _ => rfl)
    freeBox_children (by decide)

/-- C2 at the box `oneChild` and the table [(3,10),(2,20)]: 34 and 32 bytes. -/
theorem C2_encode_writes_Size_witness :
    (oneChildBytes.length = oneChild.Size unknownPackage ∧
        EncodeHeader (oneChild.Size unknownPackage) stppType <+: oneChildBytes) ∧
      exampleTableBytes.length = exampleTable.Size :=
  have h := C2_encode_writes_Size unknownPackage oneChild exampleTable
    (fun c hc bs hbs => by
      obtain ⟨bs1, h1, h2, _⟩ := freeBox_children c hc
      rw [h1] at hbs
      cases hbs
      exact h2)
  ⟨h.1 oneChildBytes (by decide) (by decide), h.2 exampleTableBytes (by decide)⟩

/-- C3 (as stated, refuted): the 12-byte payload `emptySchemaPayload` under a
header of declared size 20 is decoded successfully, and the returned box has
`Size()` 19: the empty `SchemaLocation` took a byte that `Size()` does not count. -/
theorem C3_counterexample :
    emptySchemaPayload.length = 20 - 8 ∧
    DecodeStpp unknownPackage 20 0 emptySchemaPayload = .ok (NewStppBox [110, 115] [] []) ∧
    (NewStppBox [110, 115] [] [] : StppBox UnknownBox).Size unknownPackage = 19 := by
  decide

/-- C3 (amended) at the 26-byte payload of `oneChild` under a header of declared
size 34. -/
theorem C3_decoded_size_witness :
    oneChild.Size unknownPackage + emptyOptionalStrings oneChildPayload = 34 :=
  C3_decoded_size unknownPackage 34 0 oneChildPayload oneChild (by decide) (by decide)
    decodeUnknown_eof decodeUnknown_box (by decide)

/-! ## `GetTimeCode` against `GetDecodeTime` -/

/-- C11 (the code once the cumulative time reaches 2^32): for sample 3 of
`accTable`, `GetDecodeTime` returns the cumulative time 4294967296, so the claim
gives 1,000,000,000 * 4294967296 / 1 ns for `GetTimeCode(3, 1)`; the code
returns 0, its accumulator `units` being a `uint32`. -/
theorem C11_time_code_wraps :
    accTable.GetDecodeTime 3 = .ok (4294967296, 1) ∧
      accTable.GetTimeCode 3 1 = .ok 0 ∧
      ¬ (accTable.GetTimeCode 3 1 = .ok (1000000000 * 4294967296 / 1)) ∧
      1 ≤ 3 ∧ 3 ≤ accTable.nrSamples := by
  decide

/-! ## `DecodeStts` on arbitrary payloads -/

theorem goSlice_eq_some (arr : List Nat) (lo hi : Nat) (h1 : lo ≤ hi) (h2 : hi ≤ arr.length) :
    goSlice arr lo hi = some ((arr.drop lo).take (hi - lo)) := by
  simp [goSlice, h1, h2]

theorem goSlice_eq_none (arr : List Nat) (lo hi : Nat) (h : arr.length < hi) :
    goSlice arr lo hi = none := by
  have : ¬ (lo ≤ hi ∧ hi ≤ arr.length) := by omega
  simp [goSlice, this]

theorem decodeSttsLoop_no_error (arr : List Nat) :
    ∀ (n i : Nat) (b : SttsBox) (e : Err), decodeSttsLoop arr n i b ≠ .error e := by
  intro n
  induction n with
  | zero => intro i b e h; simp [decodeSttsLoop] at h
  | succ n ih =>
    intro i b e h
    unfold decodeSttsLoop at h
    split at h
    · exact ih _ _ _ h
    · simp at h

theorem decodeSttsLoop_ok (arr : List Nat) :
    ∀ (n i : Nat) (b : SttsBox), 8 + 8 * (i + n) ≤ arr.length →
      ∃ b1, decodeSttsLoop arr n i b = .ok b1 ∧
        b1.SampleCount.length = b.SampleCount.length + n ∧
        b1.SampleTimeDelta.length = b.SampleTimeDelta.length + n := by
  intro n
  induction n with
  | zero => intro i b _; exact ⟨b, rfl, rfl, rfl⟩
  | succ n ih =>
    intro i b h
    unfold decodeSttsLoop
    rw [goSlice_eq_some arr _ _ (by omega) (by omega),
      goSlice_eq_some arr _ _ (by omega) (by omega)]
    obtain ⟨b1, h1, h2, h3⟩ := ih (i + 1) _ (by omega)
    refine ⟨b1, h1, ?_, ?_⟩
    · rw [h2]; simp only [List.length_append, List.length_cons, List.length_nil]; omega
    · rw [h3]; simp only [List.length_append, List.length_cons, List.length_nil]; omega

theorem decodeSttsLoop_panic (arr : List Nat) :
    ∀ (n i : Nat) (b : SttsBox), arr.length < 8 + 8 * (i + n) → 8 + 8 * i ≤ arr.length →
      decodeSttsLoop arr n i b = .panic .outOfRange := by
  intro n
  induction n with
  | zero => intro i b h1 h2; omega
  | succ n ih =>
    intro i b h1 h2
    unfold decodeSttsLoop
    by_cases hfit : 16 + 8 * i ≤ arr.length
    · rw [goSlice_eq_some arr _ _ (by omega) (by omega),
        goSlice_eq_some arr _ _ (by omega) (by omega)]
      exact ih (i + 1) _ (by omega) (by omega)
    · rw [goSlice_eq_none arr (12 + 8 * i) (16 + 8 * i) (by omega)]
      cases goSlice arr (8 + 8 * i) (12 + 8 * i) <;> rfl

theorem DecodeStts_no_error (data spare : List Nat) (e : Err) :
    DecodeStts data spare ≠ .error e := by
  intro h
  unfold DecodeStts at h
  simp only at h
  split at h
  · exact decodeSttsLoop_no_error _ _ _ _ _ h
  · simp at h

theorem DecodeStts_buffer (data spare : List Nat) :
    DecodeStts data spare = DecodeStts (data ++ spare) [] := by
  simp only [DecodeStts, List.append_nil]

theorem DecodeStts_enough (arr : List Nat) (h8 : 8 ≤ arr.length)
    (hN : 8 + 8 * declaredEntryCount arr ≤ arr.length) :
    ∃ b, DecodeStts arr [] = .ok b ∧
      b.SampleCount.length = declaredEntryCount arr ∧
      b.SampleTimeDelta.length = declaredEntryCount arr := by
  unfold DecodeStts
  simp only [List.append_nil]
  rw [goSlice_eq_some _ 0 4 (by omega) (by omega), goSlice_eq_some _ 4 8 (by omega) (by omega)]
  simp only
  obtain ⟨b1, h1, h2, h3⟩ := decodeSttsLoop_ok arr
    (beUint ((arr.drop 4).take 4)) 0
    { Version := beUint (List.take (4 - 0) (List.drop 0 arr)) / 2 ^ 24 % 2 ^ 8,
      Flags := beUint (List.take (4 - 0) (List.drop 0 arr)) &&& flagsMask,
      SampleCount := [], SampleTimeDelta := [] }
    (by simp only [declaredEntryCount] at hN; omega)
  exact ⟨b1, h1, by simpa [declaredEntryCount] using h2, by simpa [declaredEntryCount] using h3⟩

theorem DecodeStts_short (arr : List Nat)
    (h : arr.length < 8 ∨ arr.length < 8 + 8 * declaredEntryCount arr) :
    DecodeStts arr [] = .panic .outOfRange := by
  unfold DecodeStts
  simp only [List.append_nil]
  by_cases h8 : 8 ≤ arr.length
  · have hN : arr.length < 8 + 8 * declaredEntryCount arr := by omega
    rw [goSlice_eq_some _ 0 4 (by omega) (by omega), goSlice_eq_some _ 4 8 (by omega) (by omega)]
    simp only
    exact decodeSttsLoop_panic arr _ 0 _ (by simpa [declaredEntryCount] using hN) (by omega)
  · rw [goSlice_eq_none arr 4 8 (by omega)]
    cases goSlice arr 0 4 <;> rfl

theorem declaredEntryCount_append (data spare : List Nat) (h8 : 8 ≤ data.length) :
    declaredEntryCount (data ++ spare) = declaredEntryCount data := by
  simp only [declaredEntryCount]
  rw [List.drop_append_of_le_length (by omega),
    List.take_append_of_le_length (by simp only [List.length_drop]; omega)]

theorem readAllSpare_length (data : List Nat) (h : data.length < 512) :
    (data ++ readAllSpare data).length = 512 := by
  simp only [readAllSpare, List.length_append, List.length_replicate]
  omega

set_option maxRecDepth 100000 in
/-- C19 (as stated, refuted): the 8-byte payload `shortSttsPayload` declares one
entry.  `ioutil.ReadAll` returns it in a buffer of capacity 512, and `DecodeStts`
returns a table of one entry, read from the zero bytes behind the payload,
although the payload holds fewer than 8 + 8*1 bytes.  The 8-byte payload
`manyEntriesPayload` declares 2^32 - 1 entries: in the same buffer `DecodeStts`
ends in an out-of-range fault, not in an error. -/
theorem C19_counterexample :
    DecodeSttsReader (.read shortSttsPayload (readAllSpare shortSttsPayload))
      = .ok { Version := 0, Flags := 0, SampleCount := [0], SampleTimeDelta := [0] } ∧
    shortSttsPayload.length < 8 + 8 * declaredEntryCount shortSttsPayload ∧
    DecodeSttsReader (.read manyEntriesPayload (readAllSpare manyEntriesPayload))
      = .panic .outOfRange := by
  refine ⟨by decide, by decide, ?_⟩
  show DecodeStts manyEntriesPayload (readAllSpare manyEntriesPayload) = .panic .outOfRange
  rw [DecodeStts_buffer]
  apply DecodeStts_short
  right
  rw [declaredEntryCount_append _ _ (by decide), readAllSpare_length _ (by decide)]
  decide

/-- C19 (amended): `DecodeStts` returns an error only when `ioutil.ReadAll`
fails, and then that error.  Once the payload is read it returns a table or ends
in an out-of-range fault, and which of the two is decided by the capacity of the
buffer, not by the length of the payload: with N the big-endian entry count in
bytes 4 to 7 of the buffer, it returns a table with exactly N entries in each
list if the buffer has room for 8 + 8*N bytes, and faults otherwise.  A payload
that holds at least 8 + 8*N bytes always yields the table of its N entries; a
payload of fewer than 512 bytes, in the buffer of capacity 512 that `ReadAll`
leaves, yields a table exactly when N is at most 63. -/
theorem C19_DecodeStts_outcomes (data spare : List Nat) :
    (∀ e, DecodeSttsReader (.failed e) = .error e) ∧
    (∀ e, DecodeSttsReader (.read data spare) ≠ .error e) ∧
    (8 ≤ data.length → 8 + 8 * declaredEntryCount data ≤ data.length →
      ∃ b, DecodeSttsReader (.read data spare) = .ok b ∧
        b.SampleCount.length = declaredEntryCount data ∧
        b.SampleTimeDelta.length = declaredEntryCount data) ∧
    (8 ≤ (data ++ spare).length →
      8 + 8 * declaredEntryCount (data ++ spare) ≤ (data ++ spare).length →
      ∃ b, DecodeSttsReader (.read data spare) = .ok b ∧
        b.SampleCount.length = declaredEntryCount (data ++ spare) ∧
        b.SampleTimeDelta.length = declaredEntryCount (data ++ spare)) ∧
    ((data ++ spare).length < 8 ∨
        (data ++ spare).length < 8 + 8 * declaredEntryCount (data ++ spare) →
      DecodeSttsReader (.read data spare) = .panic .outOfRange) ∧
    (data.length < 512 →
      ((∃ b, DecodeSttsReader (.read data (readAllSpare data)) = .ok b) ↔
        declaredEntryCount (data ++ readAllSpare data) ≤ 63)) := by
  have hcap : 8 ≤ (data ++ spare).length →
      8 + 8 * declaredEntryCount (data ++ spare) ≤ (data ++ spare).length →
      ∃ b, DecodeSttsReader (.read data spare) = .ok b ∧
        b.SampleCount.length = declaredEntryCount (data ++ spare) ∧
        b.SampleTimeDelta.length = declaredEntryCount (data ++ spare) := by
    intro h8 hN
    show ∃ b, DecodeStts data spare = .ok b ∧ _
    rw [DecodeStts_buffer]
    exact DecodeStts_enough _ h8 hN
  refine ⟨fun _ => rfl, fun e => DecodeStts_no_error data spare e, ?_, hcap, ?_, ?_⟩
  · intro h8 hN
    have hl : (data ++ spare).length = data.length + spare.length := List.length_append _ _
    have hc := declaredEntryCount_append data spare h8
    rw [← hc]
    exact hcap (by omega) (by omega)
  · intro hshort
    show DecodeStts data spare = .panic .outOfRange
    rw [DecodeStts_buffer]
    exact DecodeStts_short _ hshort
  · intro h512
    have hl := readAllSpare_length data h512
    show (∃ b, DecodeStts data (readAllSpare data) = .ok b) ↔ _
    rw [DecodeStts_buffer]
    constructor
    · rintro ⟨b, hb⟩
      by_contra hgt
      rw [DecodeStts_short _ (Or.inr (by omega))] at hb
      cases hb
    · intro hle
      obtain ⟨b, hb, _⟩ := DecodeStts_enough (data ++ readAllSpare data) (by omega) (by omega)
      exact ⟨b, hb⟩

/-! ## `GetSampleNrAtTime` after `GetDecodeTime` -/

theorem elapsed_le_of_products (cs : List Nat) :
    ∀ (ds : List Nat) (k : Nat), (∀ c ∈ cs, 0 < c) →
      (∀ p ∈ cs.zip ds, p.1 * p.2 < 2 ^ 32) → elapsed cs ds k ≤ k * 4294967295 := by
  induction cs with
  | nil => intro ds k _ _; simp [elapsed_nil_left]
  | cons c cs ih =>
    intro ds k hc hp
    cases ds with
    | nil => simp [elapsed_nil_right]
    | cons d ds =>
      have hc0 : 0 < c := hc c (by simp)
      have hcd : c * d < 2 ^ 32 := hp (c, d) (by simp)
      have hd : d ≤ 4294967295 := by
        have : 1 * d ≤ c * d := Nat.mul_le_mul_right d hc0
        omega
      by_cases hk : k ≤ c
      · rw [elapsed_cons_le _ _ _ _ _ hk]
        exact Nat.mul_le_mul_left k hd
      · rw [elapsed_cons_ge _ _ _ _ _ (by omega)]
        have h1 := ih ds (k - c) (fun x hx => hc x (by simp [hx]))
          (fun p hp1 => hp p (by simp only [List.zip_cons_cons]; exact List.mem_cons_of_mem _ hp1))
        have h2 : c * d ≤ c * 4294967295 := Nat.mul_le_mul_left c hd
        have h3 : (k - c) * 4294967295 + c * 4294967295 = k * 4294967295 := by
          rw [← Nat.add_mul]; congr 1; omega
        omega

theorem decodeTime_then_sampleNr (cs : List Nat) :
    ∀ (ds : List Nat) (k acc nr : Nat), cs.length = ds.length → (∀ d ∈ ds, 0 < d) →
      (∀ p ∈ cs.zip ds, p.1 * p.2 < 2 ^ 32) → k < cs.sum →
      acc + elapsed cs ds k + 2 ^ 32 ≤ 2 ^ 64 → nr + k + 1 < 2 ^ 32 →
      ∃ d, SttsBox.decodeTimeLoop cs ds k acc = .ok (acc + elapsed cs ds k, d) ∧
        SttsBox.sampleNrLoop cs ds (acc + elapsed cs ds k) acc nr = .ok (nr + k + 1) := by
  induction cs with
  | nil => intro ds k acc nr _ _ _ hk; simp at hk
  | cons c cs ih =>
    intro ds k acc nr hlen hd hp hk hfit hnr
    cases ds with
    | nil => simp at hlen
    | cons d ds =>
      simp only [List.length_cons, Nat.add_right_cancel_iff] at hlen
      simp only [List.sum_cons] at hk
      have hd0 : 0 < d := hd d (by simp)
      have hcd : c * d < 2 ^ 32 := hp (c, d) (by simp)
      have hP32 : c * d % 2 ^ 32 = c * d := Nat.mod_eq_of_lt hcd
      have hP64 : c * d % 2 ^ 64 = c * d := Nat.mod_eq_of_lt (by omega)
      have hP64b : d * c % 2 ^ 64 = c * d := by rw [Nat.mul_comm]; exact hP64
      by_cases hkc : c ≤ k
      · have he := elapsed_cons_ge c d cs ds k hkc
        have hA : (acc + c * d) % 2 ^ 64 = acc + c * d := Nat.mod_eq_of_lt (by omega)
        obtain ⟨d1, i1, i2⟩ := ih ds (k - c) (acc + c * d) (nr + c) hlen
          (fun x hx => hd x (by simp [hx]))
          (fun p hp1 => hp p (by simp only [List.zip_cons_cons]; exact List.mem_cons_of_mem _ hp1))
          (by omega) (by omega) (by omega)
        have hT : acc + c * d + elapsed cs ds (k - c) = acc + elapsed (c :: cs) (d :: ds) k := by
          rw [he]; omega
        rw [hT] at i1 i2
        refine ⟨d1, ?_, ?_⟩
        · simp only [SttsBox.decodeTimeLoop, ge_iff_le, hkc, if_true, hP32, hA]
          exact i1
        · have hnot : ¬ (acc + elapsed (c :: cs) (d :: ds) k < acc + c * d) := by
            rw [he]; omega
          have hnr1 : (nr + c) % 2 ^ 32 = nr + c := Nat.mod_eq_of_lt (by omega)
          simp only [SttsBox.sampleNrLoop, hP64, hP64b, hA, hnot, if_false, hnr1]
          rw [i2]
          congr 1
          omega
      · have hkc1 : k < c := by omega
        have he := elapsed_cons_le c d cs ds k (by omega)
        have hkd : k * d < c * d := Nat.mul_lt_mul_of_pos_right hkc1 hd0
        have hk32 : k * d % 2 ^ 32 = k * d := Nat.mod_eq_of_lt (by omega)
        have hA : (acc + c * d) % 2 ^ 64 = acc + c * d := Nat.mod_eq_of_lt (by omega)
        rw [he]
        refine ⟨d, ?_, ?_⟩
        · simp only [SttsBox.decodeTimeLoop, ge_iff_le, hkc, if_false, hk32]
          by_cases hk0 : k = 0
          · subst hk0; simp
          · have : k > 0 := by omega
            simp only [this, if_true]
            rw [Nat.mod_eq_of_lt (by omega)]
        · have hin : acc + k * d < acc + c * d := by omega
          have hrel : (acc + k * d + 2 ^ 64 - acc) % 2 ^ 64 = k * d := by
            have : acc + k * d + 2 ^ 64 - acc = k * d + 2 ^ 64 := by omega
            rw [this, Nat.add_mod_right]
            exact Nat.mod_eq_of_lt (by omega)
          have hd1 : d ≠ 0 := by omega
          have hrem : k * d % d = 0 := Nat.mul_mod_left k d
          have hdiv : k * d / d = k := Nat.mul_div_cancel k hd0
          simp only [SttsBox.sampleNrLoop, hP64, hA, hin, if_true, hrel, hd1, if_false, hrem,
            ne_eq, not_true_eq_false, hdiv]
          rw [Nat.mod_eq_of_lt (show k < 2 ^ 32 by omega), Nat.mod_eq_of_lt (by omega)]

/-- C20: for a table with lists of equal length in which every count and every
duration is positive and every product count*duration is below 2^32, and every
32-bit sample number `n` with `1 ≤ n ≤ sum of counts`, `GetDecodeTime(n)`
returns a decode time `T`, the start time of sample `n`, and
`GetSampleNrAtTime(T)` succeeds and returns `n`. -/
theorem C20_time_lookup_inverts (b : SttsBox) (n : Nat)
    (hlen : b.SampleCount.length = b.SampleTimeDelta.length)
    (hc : ∀ c ∈ b.SampleCount, 0 < c) (hd : ∀ d ∈ b.SampleTimeDelta, 0 < d)
    (hprod : ∀ p ∈ b.SampleCount.zip b.SampleTimeDelta, p.1 * p.2 < 2 ^ 32)
    (hn32 : n < 2 ^ 32) (h1 : 1 ≤ n) (hn : n ≤ b.nrSamples) :
    ∃ T d, b.GetDecodeTime n = .ok (T, d) ∧ T = b.startTime n ∧
      b.GetSampleNrAtTime T = .ok n := by
  have hle := elapsed_le_of_products b.SampleCount b.SampleTimeDelta (n - 1) hc hprod
  obtain ⟨d, i1, i2⟩ := decodeTime_then_sampleNr b.SampleCount b.SampleTimeDelta (n - 1) 0 0
    hlen hd hprod (by simp only [SttsBox.nrSamples] at hn; omega) (by omega) (by omega)
  simp only [Nat.zero_add] at i1 i2
  refine ⟨_, d, ?_, rfl, ?_⟩
  · have hn0 : n ≠ 0 := by omega
    simp only [SttsBox.GetDecodeTime, hn0, if_false, SttsBox.startTime]
    exact i1
  · simp only [SttsBox.GetSampleNrAtTime, SttsBox.startTime]
    rw [i2]
    congr 1
    omega

/-- C20 at the table [(3,10),(2,20)] and sample 4. -/
theorem C20_time_lookup_inverts_witness :
    ∃ T d, exampleTable.GetDecodeTime 4 = .ok (T, d) ∧ T = exampleTable.startTime 4 ∧
      exampleTable.GetSampleNrAtTime T = .ok 4 :=
  C20_time_lookup_inverts exampleTable 4 (by decide) (by decide) (by decide) (by decide)
    (by decide) (by decide) (by decide)

/-! ## `DecodeStpp` and a declared size that is too small -/

theorem DecodeStpp_inv {β : Type} (P : Package β) (hdrSize startPos : Nat)
    (data : List Nat) (b : StppBox β)
    (hdec : DecodeStpp P hdrSize startPos data = .ok b) :
    ∃ (b4 : StppBox β) (s4 : SliceReader),
      (b4.Children = [] ∧ s4.pos + s4.rest.length = data.length ∧
        b4.prefixLength + emptyOptionalStrings data = s4.pos) ∧
      decodeChildren P ((startPos + hdrSize) % 2 ^ 64) (s4.rest.length + 1)
        ((startPos + (8 + s4.pos)) % 2 ^ 64) s4.rest b4 = .ok b := by
  simp only [DecodeStpp, NewSliceReader, SliceReader.SkipBytes, SliceReader.NrRemainingBytes,
    SliceReader.GetPos, SliceReader.RemainingBytes, boxHeaderSize] at hdec
  obtain ⟨⟨dri, s1⟩, h1, hd1⟩ := bind_ok_inv hdec
  clear hdec
  simp only [SliceReader.ReadUint16] at h1
  split_ifs at h1 with hl
  simp only [Res.ok.injEq, Prod.mk.injEq] at h1
  obtain ⟨-, rfl⟩ := h1
  simp only [List.length_drop] at hl
  simp only at hd1
  obtain ⟨⟨ns, s2⟩, h2, hd2⟩ := bind_ok_inv hd1
  clear hd1
  simp only at hd2
  obtain ⟨⟨b3, s3⟩, h3, hd3⟩ := bind_ok_inv hd2
  clear hd2
  simp only at hd3
  obtain ⟨⟨b4, s4⟩, h4, hd4⟩ := bind_ok_inv hd3
  clear hd3
  simp only at hd4
  obtain ⟨_, p2, r2, l2, _⟩ := ReadZeroTerminatedString_inv h2
  simp only [List.drop_drop, List.length_drop] at p2 r2 l2
  have hr1 : ((data.drop 8).dropWhile (· ≠ 0)).drop 1 = s2.rest := r2.symm
  have key : b4.Children = [] ∧ s4.pos + s4.rest.length = data.length ∧
      b4.prefixLength + emptyOptionalStrings data = s4.pos := by
    simp only [emptyOptionalStrings, hr1, StppBox.prefixLength]
    rcases optional_string_inv
      (fun x => ({ Namespace := ns, SchemaLocation := x, AuxiliaryMimeTypes := [], Btrt := none,
                   Children := [], DataReferenceIndex := dri } : StppBox β)) h3
      with ⟨e3, hb3, hs3⟩ | ⟨sl, n3, hb3, p3, r3, l3, z3⟩ <;>
    rcases optional_string_inv (fun x => { b3 with AuxiliaryMimeTypes := x }) h4
      with ⟨e4, hb4, hs4⟩ | ⟨aux, n4, hb4, p4, r4, l4, z4⟩
    · subst hb4 hs4 hb3 hs3
      simp only [e3, List.length_nil] at l2 ⊢
      simp
      omega
    · subst hs3
      exact absurd e3 n4
    · subst hb4 hs4 hb3
      rw [← r3, e4]
      simp only [e4, List.length_nil] at l3
      by_cases hsl : sl = []
      · have := z3.1 hsl
        simp [hsl, this] at l3 p3 ⊢
        omega
      · have : ¬ (s2.rest.head? = some 0) := fun hh => hsl (z3.2 hh)
        simp [hsl, this] at l3 p3 ⊢
        omega
    · subst hb4 hb3
      rw [← r3]
      by_cases hsl : sl = [] <;> by_cases haux : aux = []
      · have t1 := z3.1 hsl
        have t2 := z4.1 haux
        simp [hsl, haux, t1, t2] at l3 p3 l4 p4 ⊢
        omega
      · have t1 := z3.1 hsl
        have t2 : ¬ (s3.rest.head? = some 0) := fun hh => haux (z4.2 hh)
        simp [hsl, haux, t1, t2] at l3 p3 l4 p4 ⊢
        omega
      · have t1 : ¬ (s2.rest.head? = some 0) := fun hh => hsl (z3.2 hh)
        have t2 := z4.1 haux
        simp [hsl, haux, t1, t2] at l3 p3 l4 p4 ⊢
        omega
      · have t1 : ¬ (s2.rest.head? = some 0) := fun hh => hsl (z3.2 hh)
        have t2 : ¬ (s3.rest.head? = some 0) := fun hh => haux (z4.2 hh)
        simp [hsl, haux, t1, t2] at l3 p3 l4 p4 ⊢
        omega
  exact ⟨b4, s4, key, hd4⟩

theorem decodeChildren_bound {β : Type} (P : Package β) (endPos L : Nat)
    (hend : endPos < 2 ^ 63)
    (hsz : ∀ pos d c n, d.length ≤ L → P.DecodeBox pos d = .box (some c) n →
      P.Size c < 2 ^ 63) :
    ∀ (fuel pos : Nat) (data : List Nat) (b b1 : StppBox β), data.length ≤ L →
      pos ≤ endPos → decodeChildren P endPos fuel pos data b = .ok b1 →
      ∃ extra, b1.Size P = (b.Size P + extra) % 2 ^ 64 ∧ pos + extra ≤ endPos := by
  intro fuel
  induction fuel with
  | zero => intro pos data b b1 _ _ h; simp [decodeChildren] at h
  | succ fuel ih =>
    intro pos data b b1 hL hpos h
    have hlt := StppBox.Size_lt P b
    unfold decodeChildren at h
    cases hdb : P.DecodeBox pos data with
    | eof =>
      rw [hdb] at h
      simp only [Res.ok.injEq] at h
      subst h
      exact ⟨0, by rw [Nat.add_zero]; exact (Nat.mod_eq_of_lt hlt).symm, by omega⟩
    | error e => rw [hdb] at h; simp at h
    | panic f => rw [hdb] at h; simp at h
    | box c n =>
      rw [hdb] at h
      cases c with
      | none =>
        simp only at h
        split_ifs at h with h1 h2
        · simp only [Res.ok.injEq] at h
          subst h
          exact ⟨0, by rw [Nat.add_zero]; exact (Nat.mod_eq_of_lt hlt).symm, by omega⟩
        · exact ih pos (data.drop n) b b1
            (by simp only [List.length_drop]; omega) hpos h
      | some x =>
        have hx := hsz pos data x n hL hdb
        have hsa := StppBox.Size_AddChild P b x
        have hp1 : (pos + P.Size x) % 2 ^ 64 = pos + P.Size x := Nat.mod_eq_of_lt (by omega)
        simp only [hp1] at h
        split_ifs at h with h1 h2
        · simp only [Res.ok.injEq] at h
          subst h
          exact ⟨P.Size x, hsa, by omega⟩
        · obtain ⟨extra, e1, e2⟩ := ih (pos + P.Size x) (data.drop n) (b.AddChild P x) b1
            (by simp only [List.length_drop]; omega) (by omega) h
          refine ⟨P.Size x + extra, ?_, by omega⟩
          rw [e1, hsa]
          omega

/-! ## The running position of `DecodeStpp` and the declared end -/

theorem bind_assoc {α β γ : Type} (r : Res α) (f : α → Res β) (g : β → Res γ) :
    (r.bind f).bind g = r.bind (fun a => (f a).bind g) := by
  cases r <;> rfl

theorem DecodeStpp_stages {β : Type} (P : Package β) (hdrSize startPos : Nat)
    (data : List Nat) :
    DecodeStpp P hdrSize startPos data =
      (@decodeStppPrefix β data).bind fun x =>
        decodeChildren P ((startPos + hdrSize) % 2 ^ 64) (x.2.RemainingBytes.length + 1)
          ((startPos + (boxHeaderSize + x.2.GetPos)) % 2 ^ 64) x.2.RemainingBytes x.1 := by
  unfold DecodeStpp decodeStppPrefix
  simp only
  rw [bind_assoc]
  congr 1
  funext x1
  rw [bind_assoc]
  congr 1
  funext x2
  rw [bind_assoc]

theorem decodeStppPrefix_inv {β : Type} (data : List Nat) (b4 : StppBox β) (s4 : SliceReader)
    (hdec : @decodeStppPrefix β data = .ok (b4, s4)) :
    b4.Children = [] ∧ s4.pos + s4.rest.length = data.length ∧
      b4.prefixLength + emptyOptionalStrings data = s4.pos := by
  simp only [decodeStppPrefix, NewSliceReader, SliceReader.SkipBytes,
    SliceReader.NrRemainingBytes] at hdec
  obtain ⟨⟨dri, s1⟩, h1, hd1⟩ := bind_ok_inv hdec
  clear hdec
  simp only [SliceReader.ReadUint16] at h1
  split_ifs at h1 with hl
  simp only [Res.ok.injEq, Prod.mk.injEq] at h1
  obtain ⟨-, rfl⟩ := h1
  simp only [List.length_drop] at hl
  simp only at hd1
  obtain ⟨⟨ns, s2⟩, h2, hd2⟩ := bind_ok_inv hd1
  clear hd1
  simp only at hd2
  obtain ⟨⟨b3, s3⟩, h3, h4⟩ := bind_ok_inv hd2
  clear hd2
  simp only at h4
  obtain ⟨_, p2, r2, l2, _⟩ := ReadZeroTerminatedString_inv h2
  simp only [List.drop_drop, List.length_drop] at p2 r2 l2
  have hr1 : ((data.drop 8).dropWhile (· ≠ 0)).drop 1 = s2.rest := r2.symm
  simp only [emptyOptionalStrings, hr1, StppBox.prefixLength]
  rcases optional_string_inv
    (fun x => ({ Namespace := ns, SchemaLocation := x, AuxiliaryMimeTypes := [], Btrt := none,
                 Children := [], DataReferenceIndex := dri } : StppBox β)) h3
    with ⟨e3, hb3, hs3⟩ | ⟨sl, n3, hb3, p3, r3, l3, z3⟩ <;>
  rcases optional_string_inv (fun x => { b3 with AuxiliaryMimeTypes := x }) h4
    with ⟨e4, hb4, hs4⟩ | ⟨aux, n4, hb4, p4, r4, l4, z4⟩
  · subst hb4 hs4 hb3 hs3
    simp only [e3, List.length_nil] at l2 ⊢
    simp
    omega
  · subst hs3
    exact absurd e3 n4
  · subst hb4 hs4 hb3
    rw [← r3, e4]
    simp only [e4, List.length_nil] at l3
    by_cases hsl : sl = []
    · have := z3.1 hsl
      simp [hsl, this] at l3 p3 ⊢
      omega
    · have : ¬ (s2.rest.head? = some 0) := fun hh => hsl (z3.2 hh)
      simp [hsl, this] at l3 p3 ⊢
      omega
  · subst hb4 hb3
    rw [← r3]
    by_cases hsl : sl = [] <;> by_cases haux : aux = []
    · have t1 := z3.1 hsl
      have t2 := z4.1 haux
      simp [hsl, haux, t1, t2] at l3 p3 l4 p4 ⊢
      omega
    · have t1 := z3.1 hsl
      have t2 : ¬ (s3.rest.head? = some 0) := fun hh => haux (z4.2 hh)
      simp [hsl, haux, t1, t2] at l3 p3 l4 p4 ⊢
      omega
    · have t1 : ¬ (s2.rest.head? = some 0) := fun hh => hsl (z3.2 hh)
      have t2 := z4.1 haux
      simp [hsl, haux, t1, t2] at l3 p3 l4 p4 ⊢
      omega
    · have t1 : ¬ (s2.rest.head? = some 0) := fun hh => hsl (z3.2 hh)
      have t2 : ¬ (s3.rest.head? = some 0) := fun hh => haux (z4.2 hh)
      simp [hsl, haux, t1, t2] at l3 p3 l4 p4 ⊢
      omega

theorem overrun_step {α : Type} (pos1 endPos p : Nat) (tail : List Nat) (r0 r : Res α)
    (hp : p ∈ pos1 :: (if pos1 = endPos then [] else if pos1 > endPos then [] else tail))
    (hlt : endPos < p) (ih : p ∈ tail → r = .error .badSizeInStpp) :
    (if pos1 = endPos then r0 else if pos1 > endPos then .error .badSizeInStpp else r)
      = .error .badSizeInStpp := by
  by_cases he : pos1 = endPos
  · rw [if_pos he] at hp
    simp only [List.mem_singleton] at hp
    omega
  · by_cases hg : pos1 > endPos
    · rw [if_neg he, if_pos hg]
    · rw [if_neg he, if_neg hg] at hp ⊢
      rcases List.mem_cons.mp hp with h1 | h2
      · omega
      · exact ih h2

theorem childPositions_overrun {β : Type} (P : Package β) (endPos : Nat) :
    ∀ (fuel pos : Nat) (data : List Nat) (b : StppBox β),
      (∃ p ∈ childPositions P endPos fuel pos data, endPos < p) →
      decodeChildren P endPos fuel pos data b = .error .badSizeInStpp := by
  intro fuel
  induction fuel with
  | zero =>
    intro pos data b ⟨p, hp, _⟩
    simp [childPositions] at hp
  | succ fuel ih =>
    intro pos data b ⟨p, hp, hlt⟩
    unfold childPositions at hp
    unfold decodeChildren
    cases hdb : P.DecodeBox pos data with
    | eof => rw [hdb] at hp; simp at hp
    | error e => rw [hdb] at hp; simp at hp
    | panic f => rw [hdb] at hp; simp at hp
    | box box n =>
      rw [hdb] at hp
      cases box with
      | none =>
        simp only at hp ⊢
        exact overrun_step _ _ p _ _ _ hp hlt (fun h2 => ih _ _ _ ⟨p, h2, hlt⟩)
      | some child =>
        simp only at hp ⊢
        exact overrun_step _ _ p _ _ _ hp hlt (fun h2 => ih _ _ _ ⟨p, h2, hlt⟩)

/-- C18: for an stpp header with `hdr.size = hdrSize`, with `startPos + hdrSize`
below 2^64, and a payload of at most `hdrSize - 8` bytes (what `DecodeBox` hands
to the decoder): whenever the running position of `DecodeStpp`, its value after
the prefix or after a decoded child, passes the declared end
`startPos + hdrSize`, `DecodeStpp` fails with the error "Bad size in stpp" and
returns no box.  So a box is returned only when no running position has passed
the declared end, and then, offsets and child sizes being below 2^63, the bytes
that its prefix and its children occupy (`Size()` and one byte for each optional
string stored empty) do not exceed the declared size. -/
theorem C18_overrun_is_error {β : Type} (P : Package β) (hdrSize startPos : Nat)
    (data : List Nat)
    (hpayload : data.length + 8 ≤ hdrSize) (hpos : startPos + hdrSize < 2 ^ 64) :
    ((∃ p ∈ runningPositions P hdrSize startPos data, startPos + hdrSize < p) →
        DecodeStpp P hdrSize startPos data = .error .badSizeInStpp) ∧
    (∀ b, DecodeStpp P hdrSize startPos data = .ok b →
        ∀ p ∈ runningPositions P hdrSize startPos data, p ≤ startPos + hdrSize) ∧
    (startPos + hdrSize < 2 ^ 63 →
      (∀ pos d c n, d.length ≤ data.length → P.DecodeBox pos d = .box (some c) n →
        P.Size c < 2 ^ 63) →
      ∀ b, DecodeStpp P hdrSize startPos data = .ok b →
        b.Size P + emptyOptionalStrings data ≤ hdrSize) := by
  have hend : (startPos + hdrSize) % 2 ^ 64 = startPos + hdrSize := Nat.mod_eq_of_lt hpos
  have hover : (∃ p ∈ runningPositions P hdrSize startPos data, startPos + hdrSize < p) →
      DecodeStpp P hdrSize startPos data = .error .badSizeInStpp := by
    rintro ⟨p, hp, hlt⟩
    rw [DecodeStpp_stages]
    unfold runningPositions at hp
    cases hpre : @decodeStppPrefix β data with
    | error e => rw [hpre] at hp; simp at hp
    | panic f => rw [hpre] at hp; simp at hp
    | ok x =>
      obtain ⟨b0, s⟩ := x
      rw [hpre] at hp
      simp only at hp
      obtain ⟨_, k2, _⟩ := decodeStppPrefix_inv data b0 s hpre
      have hle := Nat.mod_le (startPos + (boxHeaderSize + s.GetPos)) (2 ^ 64)
      simp only [boxHeaderSize, SliceReader.GetPos] at hle hp
      rcases List.mem_cons.mp hp with h1 | h2
      · omega
      · simp only [Res.bind, boxHeaderSize, SliceReader.GetPos]
        exact childPositions_overrun P _ _ _ _ b0 ⟨p, h2, by rw [hend]; exact hlt⟩
  refine ⟨hover, fun b hdec p hp => ?_, fun hpos63 hsz b hdec => ?_⟩
  · by_contra hgt
    rw [hover ⟨p, hp, by omega⟩] at hdec
    cases hdec
  · obtain ⟨b4, s4, ⟨k1, k2, k3⟩, hd4⟩ := DecodeStpp_inv P hdrSize startPos data b hdec
    rw [hend, Nat.mod_eq_of_lt (show startPos + (8 + s4.pos) < 2 ^ 64 by omega)] at hd4
    obtain ⟨extra, e1, e2⟩ := decodeChildren_bound P (startPos + hdrSize) data.length hpos63 hsz
      _ _ _ _ _ (by omega) (by omega) hd4
    rw [e1, StppBox.Size_no_children P b4 k1]
    omega

/-- C18 at the 26-byte payload `cutChildPayload` under a header of declared size 34:
the prefix ends at position 23, the child keeps its declared size 12 and takes
the position to 35, and `DecodeStpp` fails. -/
theorem C18_overrun_is_error_witness :
    runningPositions sizedPackage 34 0 cutChildPayload = [23, 35] ∧
    DecodeStpp sizedPackage 34 0 cutChildPayload = .error .badSizeInStpp :=
  ⟨by decide,
    (C18_overrun_is_error sizedPackage 34 0 cutChildPayload (by decide) (by decide)).1
      ⟨35, by decide, by decide⟩⟩

namespace Hevc

/-! ## The bit reader -/

theorem bitsOfByte_length (b : Nat) : (bitsOfByte b).length = 8 := rfl

theorem mod_two_mul (x m : Nat) : x % (2 * m) = (x / 2 % m) * 2 + x % 2 := by
  rw [Nat.mod_mul]; omega

theorem bitsValue_byte (b : Nat) : bitsValue (bitsOfByte b) = b % 256 := by
  simp only [bitsOfByte, bitsValue, List.foldl]
  have h1 := mod_two_mul b 128
  have h2 := mod_two_mul (b / 2) 64
  have h3 := mod_two_mul (b / 4) 32
  have h4 := mod_two_mul (b / 8) 16
  have h5 := mod_two_mul (b / 16) 8
  have h6 := mod_two_mul (b / 32) 4
  have h7 := mod_two_mul (b / 64) 2
  simp only [Nat.div_div_eq_div_mul] at h2 h3 h4 h5 h6 h7
  norm_num at h1 h2 h3 h4 h5 h6 h7
  rw [h1, h2, h3, h4, h5, h6, h7]
  ring_nf

theorem bitsValue_append (xs ys : List Nat) :
    bitsValue (xs ++ ys) = bitsValue xs * 2 ^ ys.length + bitsValue ys := by
  induction ys using List.reverseRecOn with
  | nil => simp [bitsValue]
  | append_singleton ys y ih =>
    rw [← List.append_assoc]
    simp only [bitsValue, List.foldl_append, List.foldl_cons, List.foldl_nil] at ih ⊢
    rw [ih]
    simp only [List.length_append, List.length_cons, List.length_nil, Nat.pow_succ]
    ring

theorem Read_header (b0 b1 : Nat) (rest : List Nat) :
    ((NewAccErrEBSPReader (b0 :: b1 :: rest)).Read 16).1 = b0 % 256 * 256 + b1 % 256 := by
  have hl : ¬ ((bitsOfByte b0 ++ (bitsOfByte b1 ++ bitsOfBytes rest)).length < 16) := by
    simp only [List.length_append, bitsOfByte_length]; omega
  have ht : (bitsOfByte b0 ++ (bitsOfByte b1 ++ bitsOfBytes rest)).take 16
      = bitsOfByte b0 ++ bitsOfByte b1 := by
    rw [← List.append_assoc]
    exact List.take_left' (by simp only [List.length_append, bitsOfByte_length])
  simp only [NewAccErrEBSPReader, bitsOfBytes, AccErrEBSPReader.Read, Option.isSome_none,
    Bool.false_eq_true, if_false, hl, ht]
  rw [bitsValue_append, bitsValue_byte, bitsValue_byte, bitsOfByte_length]
  norm_num

theorem GetNaluType_eq (b : Nat) : GetNaluType b = b / 2 % 64 := by
  have h := Nat.and_pow_two_sub_one_eq_mod (b >>> 1) 6
  simp only [GetNaluType]
  norm_num at h ⊢
  rw [h, Nat.shiftRight_eq_div_pow]

theorem ReadFlag_true_no_error (r : AccErrEBSPReader) (h : r.ReadFlag.1 = true) :
    r.ReadFlag.2.AccError = none := by
  simp only [AccErrEBSPReader.ReadFlag, AccErrEBSPReader.Read, AccErrEBSPReader.AccError] at h ⊢
  split_ifs at h ⊢ with h1 h2
  · simp at h
  · simp at h
  · simpa using h1

theorem ReadExpGolomb_ne_zero_no_error (r : AccErrEBSPReader) (h : r.ReadExpGolomb.1 ≠ 0) :
    r.ReadExpGolomb.2.AccError = none := by
  unfold AccErrEBSPReader.ReadExpGolomb at h ⊢
  simp only [AccErrEBSPReader.AccError]
  by_cases h1 : r.err.isSome = true
  · simp [h1] at h
  · simp only [h1, if_false] at h ⊢
    cases hs : scanPrefix r.bits 0 with
    | exhausted => simp [hs] at h
    | tooLong => simp [hs] at h
    | found k rest =>
      simp only [hs] at h ⊢
      by_cases h2 : rest.length < k
      · simp [h2] at h
      · simp only [h2, if_false]
        simpa using h1

end Hevc

namespace Hevc

/-! ## `ParseSPSNALUnit`: the NAL unit type -/

/-- C12: for an input of at least two bytes, `ParseSPSNALUnit` returns an error
and no SPS structure if and only if the type field of the header,
`(first byte >> 1) & 0x3f`, is not 33; when the field is 33 it returns a
structure, whatever the remaining bytes are. -/
theorem C12_nalu_type_gate (b0 b1 : Nat) (rest : List Nat) :
    (((ParseSPSNALUnit (b0 :: b1 :: rest)).1 = none ∧
        (ParseSPSNALUnit (b0 :: b1 :: rest)).2 ≠ none) ↔ (b0 >>> 1) &&& 0x3f ≠ 33) ∧
    ((b0 >>> 1) &&& 0x3f = 33 → ∃ sps, (ParseSPSNALUnit (b0 :: b1 :: rest)).1 = some sps) := by
  have ht : GetNaluType (((NewAccErrEBSPReader (b0 :: b1 :: rest)).Read 16).1 >>> 8 % 256)
      = (b0 >>> 1) &&& 0x3f := by
    rw [Read_header, GetNaluType_eq, Nat.shiftRight_eq_div_pow]
    have := GetNaluType_eq b0
    simp only [GetNaluType] at this
    rw [this]
    omega
  unfold ParseSPSNALUnit
  simp only [ht, NALU_SPS]
  by_cases h : (b0 >>> 1) &&& 0x3f = 33
  · simp only [h, ne_eq, not_true_eq_false, if_false]
    refine ⟨?_, fun _ => ?_⟩
    · split_ifs <;> simp
    · split_ifs <;> exact ⟨_, rfl⟩
  · simp [h]

end Hevc

namespace Hevc

/-! ## `ParseSPSNALUnit`: the returns before the end of the grammar -/

theorem afterProfileFields_zero (data : List Nat) :
    (afterProfileFields data).1.zeroAfterProfile := by
  simp only [SPS.zeroAfterProfile, SPS.zeroAfterScalingList, SPS.zeroAfterPCM,
    SPS.zeroAfterShortTerm, SPS.zeroAfterLongTerm]
  repeat' apply And.intro
  all_goals rfl

theorem readVUIPart_frame (s : SPS) (r : AccErrEBSPReader) :
    (readVUIPart s r).1.MaxSubLayersMinus1 = s.MaxSubLayersMinus1 ∧
    (readVUIPart s r).1.SubLayerOrderingInfoPresentFlag = s.SubLayerOrderingInfoPresentFlag ∧
    (readVUIPart s r).1.SubLayeringOrderingInfos = s.SubLayeringOrderingInfos ∧
    (readVUIPart s r).1.ScalingListEnabledFlag = s.ScalingListEnabledFlag ∧
    (readVUIPart s r).1.ScalingListDataPresentFlag = s.ScalingListDataPresentFlag ∧
    (readVUIPart s r).1.PCMEnabledFlag = s.PCMEnabledFlag ∧
    (readVUIPart s r).1.NumShortTermRefPicSets = s.NumShortTermRefPicSets ∧
    (readVUIPart s r).1.LongTermRefPicsPresentFlag = s.LongTermRefPicsPresentFlag := by
  unfold readVUIPart
  simp only
  split_ifs <;> exact ⟨rfl, rfl, rfl, rfl, rfl, rfl, rfl, rfl⟩

theorem readCodingTools_frame (s : SPS) (r : AccErrEBSPReader) :
    (readCodingTools s r).1.MaxSubLayersMinus1 = s.MaxSubLayersMinus1 ∧
    (readCodingTools s r).1.SubLayerOrderingInfoPresentFlag = s.SubLayerOrderingInfoPresentFlag ∧
    (readCodingTools s r).1.SubLayeringOrderingInfos = s.SubLayeringOrderingInfos ∧
    (readCodingTools s r).1.ScalingListEnabledFlag = s.ScalingListEnabledFlag ∧
    (readCodingTools s r).1.ScalingListDataPresentFlag = s.ScalingListDataPresentFlag := by
  unfold readCodingTools
  simp only
  split_ifs
  · exact ⟨rfl, rfl, rfl, rfl, rfl⟩
  · exact ⟨rfl, rfl, rfl, rfl, rfl⟩
  · exact ⟨rfl, rfl, rfl, rfl, rfl⟩
  · obtain ⟨h1, h2, h3, h4, h5, _⟩ := readVUIPart_frame
      { s with AmpEnabledFlag := r.ReadFlag.1,
               SampleAdaptiveOffsetEnabledFlag := r.ReadFlag.2.ReadFlag.1,
               PCMEnabledFlag := r.ReadFlag.2.ReadFlag.2.ReadFlag.1,
               NumShortTermRefPicSets := r.ReadFlag.2.ReadFlag.2.ReadFlag.2.ReadExpGolomb.1 % 256,
               LongTermRefPicsPresentFlag :=
                 r.ReadFlag.2.ReadFlag.2.ReadFlag.2.ReadExpGolomb.2.ReadFlag.1 }
      r.ReadFlag.2.ReadFlag.2.ReadFlag.2.ReadExpGolomb.2.ReadFlag.2
    exact ⟨h1, h2, h3, h4, h5⟩

theorem readCodingTools_stops (s : SPS) (r : AccErrEBSPReader) (hz : s.zeroAfterScalingList) :
    ((readCodingTools s r).1.PCMEnabledFlag = true →
      (readCodingTools s r).2 = none ∧ (readCodingTools s r).1.zeroAfterPCM) ∧
    ((readCodingTools s r).1.NumShortTermRefPicSets ≠ 0 →
      (readCodingTools s r).2 = none ∧ (readCodingTools s r).1.zeroAfterShortTerm) ∧
    ((readCodingTools s r).1.LongTermRefPicsPresentFlag = true →
      (readCodingTools s r).2 = none ∧ (readCodingTools s r).1.zeroAfterLongTerm) := by
  obtain ⟨_, _, _, z1, z2, z3, z4, z5, z6⟩ := hz
  unfold readCodingTools
  simp only
  split_ifs with h1 h2 h3
  · refine ⟨fun _ => ⟨ReadFlag_true_no_error _ h1, z1, z2, z3, z4, z5, z6⟩,
      fun h => absurd z1 h, fun h => ?_⟩
    exact absurd (z2.symm.trans h) (by simp)
  · refine ⟨fun h => absurd h h1, fun _ => ⟨?_, z2, z3, z4, z5, z6⟩, fun h => ?_⟩
    · apply ReadExpGolomb_ne_zero_no_error
      intro h0
      apply h2
      show _ % 256 = 0
      rw [h0]
    · exact absurd (z2.symm.trans h) (by simp)
  · exact ⟨fun h => absurd h h1, fun h => absurd h h2,
      fun _ => ⟨ReadFlag_true_no_error _ h3, z3, z4, z5, z6⟩⟩
  · obtain ⟨_, _, _, _, _, f1, f2, f3⟩ := readVUIPart_frame
      { s with AmpEnabledFlag := r.ReadFlag.1,
               SampleAdaptiveOffsetEnabledFlag := r.ReadFlag.2.ReadFlag.1,
               PCMEnabledFlag := r.ReadFlag.2.ReadFlag.2.ReadFlag.1,
               NumShortTermRefPicSets := r.ReadFlag.2.ReadFlag.2.ReadFlag.2.ReadExpGolomb.1 % 256,
               LongTermRefPicsPresentFlag :=
                 r.ReadFlag.2.ReadFlag.2.ReadFlag.2.ReadExpGolomb.2.ReadFlag.1 }
      r.ReadFlag.2.ReadFlag.2.ReadFlag.2.ReadExpGolomb.2.ReadFlag.2
    refine ⟨fun h => ?_, fun h => ?_, fun h => ?_⟩
    · rw [f1] at h; exact absurd h h1
    · rw [f2] at h; exact absurd h h2
    · rw [f3] at h; exact absurd h h3


theorem readScalingList_frame (s : SPS) (r : AccErrEBSPReader) :
    (readScalingList s r).1.MaxSubLayersMinus1 = s.MaxSubLayersMinus1 ∧
    (readScalingList s r).1.SubLayerOrderingInfoPresentFlag = s.SubLayerOrderingInfoPresentFlag ∧
    (readScalingList s r).1.SubLayeringOrderingInfos = s.SubLayeringOrderingInfos := by
  unfold readScalingList
  simp only
  split_ifs
  · exact ⟨rfl, rfl, rfl⟩
  · obtain ⟨h1, h2, h3, _⟩ := readCodingTools_frame
      { s with ScalingListEnabledFlag := r.ReadFlag.1,
               ScalingListDataPresentFlag := r.ReadFlag.2.ReadFlag.1 } r.ReadFlag.2.ReadFlag.2
    exact ⟨h1, h2, h3⟩
  · obtain ⟨h1, h2, h3, _⟩ := readCodingTools_frame
      { s with ScalingListEnabledFlag := r.ReadFlag.1 } r.ReadFlag.2
    exact ⟨h1, h2, h3⟩

theorem readScalingList_stops (s : SPS) (r : AccErrEBSPReader) (hz : s.zeroAfterScalingList) :
    ((readScalingList s r).1.ScalingListEnabledFlag = true →
      (readScalingList s r).1.ScalingListDataPresentFlag = true →
      (readScalingList s r).2 = none ∧ (readScalingList s r).1.zeroAfterScalingList) ∧
    ((readScalingList s r).1.PCMEnabledFlag = true →
      (readScalingList s r).2 = none ∧ (readScalingList s r).1.zeroAfterPCM) ∧
    ((readScalingList s r).1.NumShortTermRefPicSets ≠ 0 →
      (readScalingList s r).2 = none ∧ (readScalingList s r).1.zeroAfterShortTerm) ∧
    ((readScalingList s r).1.LongTermRefPicsPresentFlag = true →
      (readScalingList s r).2 = none ∧ (readScalingList s r).1.zeroAfterLongTerm) := by
  unfold readScalingList
  simp only
  split_ifs with h1 h2
  · obtain ⟨z1, z2, z3, z4, z5, z6⟩ := hz
    refine ⟨fun _ _ => ⟨ReadFlag_true_no_error _ h2, z1, z2, z3, z4, z5, z6⟩,
      fun h => ?_, fun h => absurd z4 h, fun h => ?_⟩
    · exact absurd (z3.symm.trans h) (by simp)
    · exact absurd (z5.symm.trans h) (by simp)
  · obtain ⟨_, _, _, _, f5⟩ := readCodingTools_frame
      { s with ScalingListEnabledFlag := r.ReadFlag.1,
               ScalingListDataPresentFlag := r.ReadFlag.2.ReadFlag.1 } r.ReadFlag.2.ReadFlag.2
    refine ⟨fun _ h => ?_, readCodingTools_stops _ _ hz⟩
    rw [f5] at h
    exact absurd h h2
  · obtain ⟨_, _, _, f4, _⟩ := readCodingTools_frame
      { s with ScalingListEnabledFlag := r.ReadFlag.1 } r.ReadFlag.2
    refine ⟨fun h _ => ?_, readCodingTools_stops _ _ hz⟩
    rw [f4] at h
    exact absurd h h1

theorem zeroAfterProfile_scaling (s : SPS) (h : s.zeroAfterProfile) : s.zeroAfterScalingList :=
  h.2.2.2.2.2.2.2.2.2.2.2.2.2.2.2.2.2.2.2.2

theorem beforeScalingList_zero (data : List Nat) :
    (readBlockSizes
      (readOrderingInfos (afterOrderingFlag data).1 (afterOrderingFlag data).2).1
      (readOrderingInfos (afterOrderingFlag data).1
        (afterOrderingFlag data).2).2).1.zeroAfterScalingList := by
  have h := zeroAfterProfile_scaling _ (afterProfileFields_zero data)
  exact h

theorem beforeScalingList_frame (data : List Nat) :
    (readBlockSizes
      (readOrderingInfos (afterOrderingFlag data).1 (afterOrderingFlag data).2).1
      (readOrderingInfos (afterOrderingFlag data).1 (afterOrderingFlag data).2).2).1.MaxSubLayersMinus1
        = (afterProfileFields data).1.MaxSubLayersMinus1 ∧
    (readBlockSizes
      (readOrderingInfos (afterOrderingFlag data).1 (afterOrderingFlag data).2).1
      (readOrderingInfos (afterOrderingFlag data).1 (afterOrderingFlag data).2).2).1.SubLayerOrderingInfoPresentFlag
        = (afterOrderingFlag data).1.SubLayerOrderingInfoPresentFlag ∧
    (readBlockSizes
      (readOrderingInfos (afterOrderingFlag data).1 (afterOrderingFlag data).2).1
      (readOrderingInfos (afterOrderingFlag data).1 (afterOrderingFlag data).2).2).1.SubLayeringOrderingInfos
        = (readOrderingInfos (afterOrderingFlag data).1
            (afterOrderingFlag data).2).1.SubLayeringOrderingInfos :=
  ⟨rfl, rfl, rfl⟩

theorem readOrderingInfos_single (data : List Nat)
    (h0 : (afterProfileFields data).1.MaxSubLayersMinus1 = 0) :
    (readOrderingInfos (afterOrderingFlag data).1
      (afterOrderingFlag data).2).1.SubLayeringOrderingInfos
      = [(readSubLayerOrderingInfo (afterOrderingFlag data).2).1] := by
  have hm : (afterOrderingFlag data).1.MaxSubLayersMinus1 = 0 := h0
  have hl : (afterOrderingFlag data).1.SubLayeringOrderingInfos = [] := rfl
  unfold readOrderingInfos
  simp only [hm, hl, ite_self]
  rfl


/-- C13: when `ParseSPSNALUnit` returns a structure (the NAL unit is SPS-typed) that
shows one of the stop conditions, a non-zero sub-layer count minus one, both
scaling-list flags set, the PCM flag set, a non-zero number of short-term
reference picture sets or the long-term flag set, the error is nil and every
field that the grammar places after the stop point has its zero value. -/
theorem C13_scope_stops (data : List Nat) (sps : SPS) (err : Option SPSError)
    (h : ParseSPSNALUnit data = (some sps, err)) :
    (sps.MaxSubLayersMinus1 ≠ 0 → err = none ∧ sps.zeroAfterProfile) ∧
    (sps.ScalingListEnabledFlag = true → sps.ScalingListDataPresentFlag = true →
      err = none ∧ sps.zeroAfterScalingList) ∧
    (sps.PCMEnabledFlag = true → err = none ∧ sps.zeroAfterPCM) ∧
    (sps.NumShortTermRefPicSets ≠ 0 → err = none ∧ sps.zeroAfterShortTerm) ∧
    (sps.LongTermRefPicsPresentFlag = true → err = none ∧ sps.zeroAfterLongTerm) := by
  unfold ParseSPSNALUnit at h
  simp only at h
  split_ifs at h with ht hm
  · simp at h
  · obtain ⟨h1, h2⟩ := Prod.mk.inj h
    have hs : (afterProfileFields data).1 = sps := Option.some.inj h1
    subst hs
    subst h2
    have hz := afterProfileFields_zero data
    obtain ⟨z1, z2, z3, z4, z5, z6⟩ := zeroAfterProfile_scaling _ hz
    refine ⟨fun _ => ⟨rfl, hz⟩, fun hf => ?_, fun hf => ?_, fun hf => absurd z4 hf, fun hf => ?_⟩
    · have hfalse : (afterProfileFields data).1.ScalingListEnabledFlag = false := rfl
      exact absurd (hfalse.symm.trans hf) (by simp)
    · exact absurd (z3.symm.trans hf) (by simp)
    · exact absurd (z5.symm.trans hf) (by simp)
  · obtain ⟨h1, h2⟩ := Prod.mk.inj h
    have hs := Option.some.inj h1
    obtain ⟨s1, s2, s3, s4⟩ := readScalingList_stops _
      (readBlockSizes
        (readOrderingInfos (afterOrderingFlag data).1 (afterOrderingFlag data).2).1
        (readOrderingInfos (afterOrderingFlag data).1 (afterOrderingFlag data).2).2).2
      (beforeScalingList_zero data)
    obtain ⟨f1, _, _⟩ := readScalingList_frame
      (readBlockSizes
        (readOrderingInfos (afterOrderingFlag data).1 (afterOrderingFlag data).2).1
        (readOrderingInfos (afterOrderingFlag data).1 (afterOrderingFlag data).2).2).1
      (readBlockSizes
        (readOrderingInfos (afterOrderingFlag data).1 (afterOrderingFlag data).2).1
        (readOrderingInfos (afterOrderingFlag data).1 (afterOrderingFlag data).2).2).2
    rw [(beforeScalingList_frame data).1] at f1
    rw [hs] at s1 s2 s3 s4 f1
    have hn : ∀ {P : Prop} {e : Option BitErr},
        Option.map SPSError.bitReader e = err → e = none ∧ P → err = none ∧ P := by
      intro P e he hp
      refine ⟨?_, hp.2⟩
      rw [← he, hp.1]
      rfl
    exact ⟨fun hne => absurd (by rw [← f1]; exact hne) hm, fun ha hb => hn h2 (s1 ha hb),
      fun ha => hn h2 (s2 ha), fun ha => hn h2 (s3 ha), fun ha => hn h2 (s4 ha)⟩

set_option maxRecDepth 100000 in
theorem C13_scope_stops_witness :
    ParseSPSNALUnit scalingListNalu = (some scalingListSPS, none) ∧
    (scalingListSPS.ScalingListEnabledFlag = true ∧
      scalingListSPS.ScalingListDataPresentFlag = true) ∧
    ((none : Option SPSError) = none ∧ scalingListSPS.zeroAfterScalingList) :=
  ⟨by rfl, ⟨rfl, rfl⟩,
    (C13_scope_stops scalingListNalu scalingListSPS none (by rfl)).2.1 rfl rfl⟩

/-- C14: the NAL unit 0x42 0x01 0x02 is SPS-typed and ends inside the
profile-tier-level block; the bit reader has accumulated the end-of-input error
when line 103 is reached, and `ParseSPSNALUnit` returns the partially filled
structure with a nil error. -/
theorem C14_truncated_without_error :
    (afterProfileFields cutNalu).2.AccError = some BitErr.endOfInput ∧
    ParseSPSNALUnit cutNalu = (some { MaxSubLayersMinus1 := 1 }, none) := by
  decide

/-- C15: for every SPS value `ImageSize` returns the pair of the width minus
(left + right) times the horizontal chroma factor and the height minus
(top + bottom) times the vertical chroma factor, both reduced modulo 2^32, the
factors being (2, 2) for chroma format 1, (2, 1) for chroma format 2 and (1, 1)
otherwise; width 1920, height 1088, chroma format 1 and window (0, 0, 0, 4) give
(1920, 1080). -/
theorem C15_ImageSize (s : SPS) :
    (s.ImageSize.1 : Int) =
      ((s.PicWidthInLumaSamples : Int) -
        ((s.ConformanceWindow.LeftOffset : Int) + s.ConformanceWindow.RightOffset) *
          (chromaFactors s.ChromaFormatIDC).1) % 2 ^ 32 ∧
    (s.ImageSize.2 : Int) =
      ((s.PicHeightInLumaSamples : Int) -
        ((s.ConformanceWindow.TopOffset : Int) + s.ConformanceWindow.BottomOffset) *
          (chromaFactors s.ChromaFormatIDC).2) % 2 ^ 32 ∧
    SPS.ImageSize { PicWidthInLumaSamples := 1920, PicHeightInLumaSamples := 1088,
                    ChromaFormatIDC := 1, ConformanceWindow := { BottomOffset := 4 } }
      = (1920, 1080) := by
  refine ⟨?_, ?_, by decide⟩
  · unfold SPS.ImageSize chromaFactors
    simp only
    split_ifs <;> push_cast <;> omega
  · unfold SPS.ImageSize chromaFactors
    simp only
    split_ifs <;> push_cast <;> omega

set_option maxRecDepth 100000 in
/-- C16: in the NAL unit `timingNalu` the VUI timing-info-present flag is read as
clear, and `ParseSPSNALUnit` still consumes the 64 bits that follow it as
`VUINumUnitsInTick` and `VUITimeScale`, both non-zero in the result. -/
theorem C16_timing_read_without_flag :
    (ParseSPSNALUnit timingNalu).2 = none ∧
    (ParseSPSNALUnit timingNalu).1.bind SPS.VUIParameters =
      some { VUITimingInfoPresentFlag := false, VUINumUnitsInTick := 287454020,
             VUITimeScale := 1432778632 } := by
  constructor <;> rfl

/-- C17: when `ParseSPSNALUnit` returns a structure, its list
`SubLayeringOrderingInfos` is empty if parsing stopped at the sub-layer count
(`MaxSubLayersMinus1` non-zero); otherwise it has `MaxSubLayersMinus1 + 1` triples
if the ordering-info-present flag is set and one triple if it is clear, and the
list is the triple read from the bits that follow the flag. -/
theorem C17_ordering_infos (data : List Nat) (sps : SPS) (err : Option SPSError)
    (h : ParseSPSNALUnit data = (some sps, err)) :
    (sps.MaxSubLayersMinus1 ≠ 0 → sps.SubLayeringOrderingInfos = []) ∧
    (sps.MaxSubLayersMinus1 = 0 →
      (sps.SubLayerOrderingInfoPresentFlag = true →
        sps.SubLayeringOrderingInfos.length = sps.MaxSubLayersMinus1 + 1) ∧
      (sps.SubLayerOrderingInfoPresentFlag = false →
        sps.SubLayeringOrderingInfos.length = 1) ∧
      sps.SubLayerOrderingInfoPresentFlag =
        (afterOrderingFlag data).1.SubLayerOrderingInfoPresentFlag ∧
      sps.SubLayeringOrderingInfos =
        [(readSubLayerOrderingInfo (afterOrderingFlag data).2).1]) := by
  unfold ParseSPSNALUnit at h
  simp only at h
  split_ifs at h with ht hm
  · simp at h
  · obtain ⟨h1, _⟩ := Prod.mk.inj h
    have hs : (afterProfileFields data).1 = sps := Option.some.inj h1
    subst hs
    exact ⟨fun _ => rfl, fun h0 => absurd h0 hm⟩
  · obtain ⟨h1, _⟩ := Prod.mk.inj h
    have hs := Option.some.inj h1
    obtain ⟨f1, f2, f3⟩ := readScalingList_frame
      (readBlockSizes
        (readOrderingInfos (afterOrderingFlag data).1 (afterOrderingFlag data).2).1
        (readOrderingInfos (afterOrderingFlag data).1 (afterOrderingFlag data).2).2).1
      (readBlockSizes
        (readOrderingInfos (afterOrderingFlag data).1 (afterOrderingFlag data).2).1
        (readOrderingInfos (afterOrderingFlag data).1 (afterOrderingFlag data).2).2).2
    rw [(beforeScalingList_frame data).1] at f1
    rw [(beforeScalingList_frame data).2.1] at f2
    rw [(beforeScalingList_frame data).2.2,
      readOrderingInfos_single data (not_not.mp hm)] at f3
    rw [hs] at f1 f2 f3
    refine ⟨fun hne => absurd (by rw [← f1]; exact hne) hm, fun h0 => ?_⟩
    rw [f3, h0]
    exact ⟨fun _ => rfl, fun _ => rfl, f2, rfl⟩

set_option maxRecDepth 100000 in
theorem C17_ordering_infos_witness :
    ParseSPSNALUnit scalingListNalu = (some scalingListSPS, none) ∧
    scalingListSPS.MaxSubLayersMinus1 = 0 ∧
    scalingListSPS.SubLayerOrderingInfoPresentFlag = true ∧
    scalingListSPS.SubLayeringOrderingInfos.length = scalingListSPS.MaxSubLayersMinus1 + 1 :=
  ⟨by rfl, rfl, rfl,
    ((C17_ordering_infos scalingListNalu scalingListSPS none (by rfl)).2 rfl).1 rfl⟩

end Hevc

/-! ## `GetSampleNrAtTime` and the division by a duration -/

theorem sampleNrLoop_no_fault (cs : List Nat) :
    ∀ (ds : List Nat) (t acc nr : Nat), cs.length = ds.length → acc ≤ t →
      (∃ n, SttsBox.sampleNrLoop cs ds t acc nr = .ok n) ∨
        SttsBox.sampleNrLoop cs ds t acc nr = .error (.noMatchingSample t) := by
  induction cs with
  | nil =>
    intro ds t acc nr _ _
    right
    simp only [SttsBox.sampleNrLoop]
  | cons c cs ih =>
    intro ds t acc nr hlen hacc
    cases ds with
    | nil => simp at hlen
    | cons d ds =>
      have hl : cs.length = ds.length := by simpa using hlen
      by_cases hin : t < (acc + c * d % 2 ^ 64) % 2 ^ 64
      · have hd : d ≠ 0 := by
          intro h0
          subst h0
          have hle : (acc + c * 0 % 2 ^ 64) % 2 ^ 64 ≤ acc := by
            rw [Nat.mul_zero, Nat.zero_mod, Nat.add_zero]
            exact Nat.mod_le _ _
          omega
        left
        simp only [SttsBox.sampleNrLoop, hin, if_true, hd, if_false]
        exact ⟨_, rfl⟩
      · have hnext : (acc + d * c % 2 ^ 64) % 2 ^ 64 ≤ t := by
          rw [Nat.mul_comm d c]
          omega
        simp only [SttsBox.sampleNrLoop, hin, if_false]
        exact ih ds t _ _ hl hnext

/-- C21: for every table whose two lists have equal length, entries of duration 0
or count 0 included, and every time `t`, `GetSampleNrAtTime(t)` returns a
sample number or the not-found error; it does not end in the division-by-zero
fault, the division by an entry's duration being reached only when that
duration is non-zero. -/
theorem C21_no_division_by_zero (b : SttsBox) (t : Nat)
    (hlen : b.SampleCount.length = b.SampleTimeDelta.length) :
    b.GetSampleNrAtTime t ≠ .panic .divideByZero ∧
    ((∃ n, b.GetSampleNrAtTime t = .ok n) ∨
      b.GetSampleNrAtTime t = .error (.noMatchingSample t)) := by
  have h := sampleNrLoop_no_fault b.SampleCount b.SampleTimeDelta t 0 0 hlen (Nat.zero_le t)
  refine ⟨?_, h⟩
  intro hp
  simp only [SttsBox.GetSampleNrAtTime] at hp
  rcases h with ⟨n, hn⟩ | he
  · rw [hn] at hp
    cases hp
  · rw [he] at hp
    cases hp

/-- C21 at the table [(2,0),(0,5),(3,10)] and time 7, answered with sample 4. -/
theorem C21_no_division_by_zero_witness :
    zeroEntryTable.GetSampleNrAtTime 7 = .ok 4 ∧
    zeroEntryTable.GetSampleNrAtTime 30 = .error (.noMatchingSample 30) ∧
    (zeroEntryTable.GetSampleNrAtTime 7 ≠ .panic .divideByZero ∧
      ((∃ n, zeroEntryTable.GetSampleNrAtTime 7 = .ok n) ∨
        zeroEntryTable.GetSampleNrAtTime 7 = .error (.noMatchingSample 7))) :=
  ⟨by decide, by decide, C21_no_division_by_zero zeroEntryTable 7 (by decide)⟩

end Mp4
